import Mathlib

/-!
# Provisioner session layer (`provisionersdk/session.go`) and `dbcrypt` cipher

A shallow embedding of the session request loop, the cancellation arbitration of
`request.do`, the archive extractor, the stale-session janitor and the AES-256
cipher wrapper, followed by theorems about them.

Conventions of the embedding:

* Go `error` values are `Option` of an error type, `none` being `nil`.
* A run that ends in a panic does not return: its outcome holds the value of the
  panic in the field `panicked`, and its `err` is then not a returned value.
* Everything the code gets from outside (the stream, the goroutine schedule, the
  provisioner backend, the filesystem, the clock, the random source) is an explicit
  argument; what the code does to the outside is recorded in a chronological list of
  `Event`s.
* The stream yields finitely many messages and then an error (the end of the stream
  is one), and every call of the backend returns, as its contract asks.
* Paths are Unix paths, processed character by character.
-/

namespace Coder

/-- Equality of results is decidable when it is for errors and for values. -/
instance instDecidableEqExcept {ε α : Type} [DecidableEq ε] [DecidableEq α] :
    DecidableEq (Except ε α)
  | Except.ok a, Except.ok b =>
    if h : a = b then isTrue (by rw [h]) else isFalse (fun h2 => h (Except.ok.inj h2))
  | Except.error a, Except.error b =>
    if h : a = b then isTrue (by rw [h]) else isFalse (fun h2 => h (Except.error.inj h2))
  | Except.ok _, Except.error _ => isFalse (fun h => Except.noConfusion h)
  | Except.error _, Except.ok _ => isFalse (fun h => Except.noConfusion h)

/-! ## Paths (`path/filepath` on Unix) -/

/-- The elements of a path: the pieces between the separators `/`. -/
def splitPath : List Char → List (List Char)
  | [] => [[]]
  | c :: cs =>
    if c = '/' then [] :: splitPath cs
    else (c :: (splitPath cs).headD []) :: (splitPath cs).tail

/-- The elements joined with `/` again. -/
def joinPath : List (List Char) → List Char
  | [] => []
  | [part] => part
  | part :: parts => part ++ '/' :: joinPath parts

/-- One step of the scan of `filepath.Clean`, on the elements kept so far (`out`,
in order): an empty element and `.` are dropped; `..` removes the last kept element
when that is a real name, is dropped at the root of a rooted path, and is kept
otherwise; any other element is kept. -/
def cleanStep (rooted : Bool) (out : List (List Char)) (part : List Char) : List (List Char) :=
  if part = [] ∨ part = ['.'] then out
  else if part = ['.', '.'] then
    match out.getLast? with
    | some last => if last = ['.', '.'] then out ++ [part] else out.dropLast
    | none => if rooted then out else [part]
  else out ++ [part]

/-- The elements that the scan of `filepath.Clean` keeps of a path, in order. -/
def pathElems (rooted : Bool) (path : List Char) : List (List Char) :=
  (splitPath path).foldl (cleanStep rooted) []

/-- The path that `filepath.Clean` writes for the kept elements: after the leading
`/` when rooted, and `.` when nothing is left of a path that is not rooted. -/
def renderPath (rooted : Bool) (out : List (List Char)) : List Char :=
  if rooted then '/' :: joinPath out
  else if out = [] then ['.'] else joinPath out

/-- Whether a path starts with the separator. -/
def isRooted (path : List Char) : Bool := path.head? = some '/'

/-- Model of `filepath.Clean` on a list of characters. -/
def cleanChars (path : List Char) : List Char :=
  if path = [] then ['.']
  else renderPath (isRooted path) (pathElems (isRooted path) path)

/-- Model of `filepath.Clean`: the shortest path equivalent to `path` by purely
lexical processing. -/
def Clean (path : String) : String := String.mk (cleanChars path.data)

/-- Model of `filepath.Join` for two elements: the first non-empty element onwards
joined with `/` and cleaned; the empty string when both are empty. -/
def Join (a b : String) : String :=
  if a ≠ "" then Clean (a ++ "/" ++ b)
  else if b ≠ "" then Clean b
  else ""

/-- Model of `strings.HasPrefix`. -/
def HasPrefix (s pre : String) : Bool := pre.data.isPrefixOf s.data

/-- Model of `filepath.IsLocal` (Unix): the path is not absolute, not empty, and, once
cleaned if it has a `.` or `..` element, neither is `..` nor starts with `../`. -/
def IsLocal (path : String) : Bool :=
  if HasPrefix path "/" || path = "" then false
  else
    let hasDots := (splitPath path.data).any (fun part => part = ['.'] || part = ['.', '.'])
    let path := if hasDots then Clean path else path
    if path = ".." || HasPrefix path "../" then false else true

/-! ## Filesystem -/

/-- A filesystem object: a directory with its permission bits, or a regular file with
its permission bits and content. -/
inductive Node where
  | dir (perm : Nat)
  | file (perm : Nat) (content : List UInt8)
deriving DecidableEq, Repr

/-- The filesystem: the objects that exist, keyed by their cleaned path. The root `/`
and the current directory `.` always exist. Permission checks, the umask and
resource exhaustion are left out: an operation fails only for a reason that the
tree itself shows (a missing parent, a file where a directory is needed, a
directory where a file is needed). -/
structure FS where
  nodes : List (String × Node)
deriving DecidableEq, Repr

/-- The object at path `p`, if any. -/
def FS.lookup (fs : FS) (p : String) : Option Node :=
  if p = "/" ∨ p = "." then some (Node.dir 0o755)
  else (fs.nodes.find? (fun e => e.1 == p)).map (fun e => e.2)

/-- The filesystem with the object at `p` set to `n`. -/
def FS.set (fs : FS) (p : String) (n : Node) : FS :=
  { nodes := (p, n) :: fs.nodes.filter (fun e => !(e.1 == p)) }

/-- The permission bits of a file mode (`FileMode.Perm`). -/
def Perm (mode : Nat) : Nat := mode % 512

/-- The directory part of a cleaned path: `.` for a single relative element, `/`
for an element right under the root. -/
def parentDir (p : String) : String :=
  match (splitPath p.data).dropLast with
  | [] => "."
  | [[]] => "/"
  | parts => String.mk (joinPath parts)

/-- The proper ancestors of a cleaned path and the path itself, outermost first,
without the root and the current directory. -/
def pathChain (p : String) : List String :=
  let parts := splitPath p.data
  ((List.range parts.length).map (fun i => String.mk (joinPath (parts.take (i + 1))))).filter
    (fun q => q ≠ "" ∧ q ≠ "." ∧ q ≠ "/")

/-- Model of `os.MkdirAll` along the chain of a path: an existing directory is left
as it is, a missing one is created with the permission bits of `mode` (the bits
asked for: the umask that the system takes off them is left out, as said of `FS`),
a regular file in the way is an error. -/
def FS.mkdirChain (fs : FS) (mode : Nat) : List String → Except String FS
  | [] => Except.ok fs
  | q :: rest =>
    match fs.lookup q with
    | some (Node.dir _) => FS.mkdirChain fs mode rest
    | some (Node.file _ _) => Except.error ("mkdir " ++ q ++ ": not a directory")
    | none => FS.mkdirChain (fs.set q (Node.dir (Perm mode))) mode rest

/-- Model of `os.MkdirAll(path, mode)`. -/
def FS.MkdirAll (fs : FS) (path : String) (mode : Nat) : Except String FS :=
  fs.mkdirChain mode (pathChain path)

/-- The error of resolving a path along the chain of its directories, outermost
first: `not a directory` at the first element that is a regular file, `no such file
or directory` at the first one that is missing. -/
def FS.resolveErr (fs : FS) : List String → String
  | [] => "no such file or directory"
  | q :: rest =>
    match fs.lookup q with
    | some (Node.dir _) => FS.resolveErr fs rest
    | some (Node.file _ _) => "not a directory"
    | none => "no such file or directory"

/-- Model of `os.OpenFile(path, os.O_CREATE|os.O_RDWR, mode)`: an existing regular
file is opened as it is (there is no `O_TRUNC`), a missing one is created empty with
the permission bits of `mode` when its directory exists; a directory at `path`, or a
missing or non-directory parent, is an error. -/
def FS.OpenFile (fs : FS) (path : String) (mode : Nat) : Except String FS :=
  match fs.lookup path with
  | some (Node.file _ _) => Except.ok fs
  | some (Node.dir _) => Except.error ("open " ++ path ++ ": is a directory")
  | none =>
    match fs.lookup (parentDir path) with
    | some (Node.dir _) => Except.ok (fs.set path (Node.file (Perm mode) []))
    | some (Node.file _ _) => Except.error ("open " ++ path ++ ": not a directory")
    | none =>
      Except.error ("open " ++ path ++ ": " ++ fs.resolveErr (pathChain (parentDir path)))

/-- Writing `data` from offset 0 through a freshly opened descriptor: the first
bytes of the file are overwritten, what lies beyond `data` stays. -/
def FS.WriteAt0 (fs : FS) (path : String) (data : List UInt8) : FS :=
  match fs.lookup path with
  | some (Node.file perm old) => fs.set path (Node.file perm (data ++ old.drop data.length))
  | _ => fs

/-- Model of `os.ReadFile`: the content of the regular file at `p`, an error for a
directory or a missing path. -/
def FS.ReadFile (fs : FS) (p : String) : Except String (List UInt8) :=
  match fs.lookup p with
  | some (Node.file _ content) => Except.ok content
  | some (Node.dir _) => Except.error ("read " ++ p ++ ": is a directory")
  | none => Except.error ("open " ++ p ++ ": " ++ fs.resolveErr (pathChain p))

/-- Model of `os.RemoveAll`: the object at `p` and everything below it is gone. -/
def FS.RemoveAll (fs : FS) (p : String) : FS :=
  { nodes := fs.nodes.filter (fun e => !(e.1 == p || HasPrefix e.1 (p ++ "/"))) }

/-! ## Archives (`archive/tar`) -/

/-- The type flags of `archive/tar` that the code or `FileInfo` look at. -/
def TypeReg : Char := '0'
/-- Type flag of a symbolic link. -/
def TypeSymlink : Char := '2'
/-- Type flag of a character device. -/
def TypeChar : Char := '3'
/-- Type flag of a block device. -/
def TypeBlock : Char := '4'
/-- Type flag of a directory. -/
def TypeDir : Char := '5'
/-- Type flag of a FIFO. -/
def TypeFifo : Char := '6'

/-- The fields of `tar.Header` that the extractor reads. -/
structure Header where
  Typeflag : Char
  Name : String
  Mode : Nat
deriving DecidableEq, Repr

/-- Model of `Header.FileInfo().Mode()` of `archive/tar`: the permission bits of the
header's mode, the setuid, setgid and sticky bits, and the type bits given by the
file-type part of the mode and by the type flag. -/
def Header.FileInfoMode (h : Header) : Nat :=
  let perm := h.Mode % 512
  let setuid := if h.Mode / 0o4000 % 2 = 1 then 2 ^ 23 else 0
  let setgid := if h.Mode / 0o2000 % 2 = 1 then 2 ^ 22 else 0
  let sticky := if h.Mode / 0o1000 % 2 = 1 then 2 ^ 20 else 0
  let m := h.Mode % 2 ^ 32 / 0o10000 * 0o10000
  let fromMode :=
    if m = 0o40000 then 2 ^ 31
    else if m = 0o10000 then 2 ^ 25
    else if m = 0o120000 then 2 ^ 27
    else if m = 0o60000 then 2 ^ 26
    else if m = 0o20000 then 2 ^ 26 + 2 ^ 21
    else if m = 0o140000 then 2 ^ 24
    else 0
  let fromFlag :=
    if h.Typeflag = TypeSymlink then 2 ^ 27
    else if h.Typeflag = TypeChar then 2 ^ 26 + 2 ^ 21
    else if h.Typeflag = TypeBlock then 2 ^ 26
    else if h.Typeflag = TypeDir then 2 ^ 31
    else if h.Typeflag = TypeFifo then 2 ^ 25
    else 0
  perm ||| setuid ||| setgid ||| sticky ||| fromMode ||| fromFlag

/-- One entry as `tar.Reader` delivers it: the header returned by `Next`, the bytes
that reading the entry yields, and the error, if any, that reading hits after them
in place of `io.EOF` (a damaged archive). -/
structure TarEntry where
  header : Header
  body : List UInt8
  bodyErr : Option String
deriving DecidableEq, Repr

/-- An archive as `tar.Reader` delivers it: the entries in order and how the calls of
`Next` end after them, with `io.EOF` (`none`) or with another error. -/
structure TarStream where
  entries : List TarEntry
  trailer : Option String
deriving DecidableEq, Repr

/-! ## The archive extractor -/

/-- A filesystem call of the extractor, for the log of what it touched: `Write` stands
for the `Write` calls that `io.CopyN` makes on the opened file. -/
inductive FsOp where
  | MkdirAll (path : String) (mode : Nat)
  | OpenFile (path : String) (mode : Nat)
  | Write (path : String) (data : List UInt8)
  | Close (path : String)
deriving DecidableEq, Repr

/-- The path a filesystem call is made on. -/
def FsOp.path : FsOp → String
  | FsOp.MkdirAll path _ => path
  | FsOp.OpenFile path _ => path
  | FsOp.Write path _ => path
  | FsOp.Close path => path

/-- The error of a read: `io.EOF`, or another one. -/
inductive ReadErr where
  | EOF
  | other (e : String)
deriving DecidableEq, Repr

/-- The errors of `extractArchive`, with the place that builds each. -/
inductive ExtractErr where
  /-- From `xerrors.Errorf("read template source archive: %w", err)`. -/
  | readArchive (inner : String)
  /-- From `xerrors.Errorf("refusing to extract to non-local path")`. -/
  | nonLocalPath
  /-- From `xerrors.New("tar attempts to target relative upper directory")`. -/
  | upperDirectory
  /-- From `xerrors.Errorf("mkdir %q: %w", headerPath, err)`. -/
  | mkdir (path : String) (inner : String)
  /-- From `xerrors.Errorf("create file %q (mode %s): %w", headerPath, mode, err)`. -/
  | createFile (path : String) (mode : Nat) (inner : String)
  /-- From `xerrors.Errorf("copy file %q: %w", headerPath, err)`. -/
  | copyFile (path : String) (inner : ReadErr)
deriving DecidableEq, Repr

/-- Model of `io.CopyN(file, reader, n)` on an entry: at most `n` bytes of the body are
copied; the error is nil when `n` bytes were copied, and otherwise what ended the
reading, `io.EOF` at the end of the body or the entry's read error. -/
def CopyN (body : List UInt8) (bodyErr : Option String) (n : Nat) :
    List UInt8 × Option ReadErr :=
  let data := body.take n
  if data.length = n then (data, none)
  else
    match bodyErr with
    | none => (data, some ReadErr.EOF)
    | some e => (data, some (ReadErr.other e))

/-- The cap on the bytes copied for one file, `10<<20`. -/
def maxFileSize : Nat := 10 <<< 20

/-- What `extractArchive` comes to: the returned error, the filesystem it leaves and
the filesystem calls it made, in order. -/
structure Extracted where
  err : Option ExtractErr
  fs : FS
  ops : List FsOp
deriving DecidableEq, Repr

/-- The loop of `Session.extractArchive` over the entries that `reader.Next()`
returns, `trailer` being how `Next` ends after them. -/
def extractEntries (WorkDirectory : String) (trailer : Option String) :
    List TarEntry → FS → Extracted
  | [], fs =>
    match trailer with
    | none => { err := none, fs := fs, ops := [] }
    | some e => { err := some (ExtractErr.readArchive e), fs := fs, ops := [] }
  | entry :: rest, fs =>
    let header := entry.header
    if !IsLocal header.Name then
      { err := some ExtractErr.nonLocalPath, fs := fs, ops := [] }
    else
      let headerPath := Join WorkDirectory header.Name
      if !HasPrefix headerPath (Clean WorkDirectory) then
        { err := some ExtractErr.upperDirectory, fs := fs, ops := [] }
      else
        let mode := if header.FileInfoMode = 0 then 0o600 else header.FileInfoMode
        if header.Typeflag = TypeDir then
          match fs.MkdirAll headerPath mode with
          | Except.error e =>
            { err := some (ExtractErr.mkdir headerPath e), fs := fs,
              ops := [FsOp.MkdirAll headerPath mode] }
          | Except.ok fs1 =>
            let r := extractEntries WorkDirectory trailer rest fs1
            { r with ops := FsOp.MkdirAll headerPath mode :: r.ops }
        else if header.Typeflag = TypeReg then
          match fs.OpenFile headerPath mode with
          | Except.error e =>
            { err := some (ExtractErr.createFile headerPath mode e), fs := fs,
              ops := [FsOp.OpenFile headerPath mode] }
          | Except.ok fs1 =>
            let copied := CopyN entry.body entry.bodyErr maxFileSize
            let fs2 := fs1.WriteAt0 headerPath copied.1
            let err : Option ReadErr :=
              if copied.2 = some ReadErr.EOF then none else copied.2
            match err with
            | some e =>
              { err := some (ExtractErr.copyFile headerPath e), fs := fs2,
                ops := [FsOp.OpenFile headerPath mode, FsOp.Write headerPath copied.1,
                        FsOp.Close headerPath] }
            | none =>
              let r := extractEntries WorkDirectory trailer rest fs2
              { r with ops := FsOp.OpenFile headerPath mode :: FsOp.Write headerPath copied.1
                                :: FsOp.Close headerPath :: r.ops }
        else
          extractEntries WorkDirectory trailer rest fs

/-- Model of `Session.extractArchive`: the archive of the configuration is unpacked
under `WorkDirectory`. -/
def extractArchive (WorkDirectory : String) (archive : TarStream) (fs : FS) : Extracted :=
  extractEntries WorkDirectory archive.trailer archive.entries fs

/-! ## The stale-session janitor -/

/-- The constant `sessionDirPrefix`. -/
def sessionDirPrefix : String := "Session"

/-- The constant `staleSessionRetention`, `7 * 24 * time.Hour`, in nanoseconds. -/
def staleSessionRetention : Int := 7 * 24 * (3600 * 1000000000)

/-- Model of `sessionDir`. -/
def sessionDir (sessID : String) : String := sessionDirPrefix ++ sessID

/-- Model of `isValidSessionDir`: `filepath.Match(sessionDirPrefix+"*", dirName)`
without error and with a match. The pattern is well formed; its literal part must
open the name, and its star matches any run of characters other than the separator. -/
def isValidSessionDir (dirName : String) : Bool :=
  sessionDirPrefix.data.isPrefixOf dirName.data
    && (dirName.data.drop sessionDirPrefix.data.length).all (fun c => c ≠ '/')

/-- What `times.Get(fi)` reads of a file: the access time, in nanoseconds since the
epoch. -/
structure FileInfo where
  AccessTime : Int
deriving DecidableEq, Repr

/-- An entry of `os.ReadDir`: its name, whether it is a directory, and what its
`Info()` returns. -/
structure DirEntry where
  Name : String
  IsDir : Bool
  Info : Except String FileInfo
deriving DecidableEq, Repr

/-- The errors of `cleanStaleSessions`. -/
inductive CleanErr where
  /-- From `xerrors.Errorf("can't read %q directory", workDirectory)`. -/
  | readDir (path : String)
  /-- From `xerrors.Errorf("can't read %q directory info: %w", sessionDirPath, err)`. -/
  | dirInfo (path : String) (inner : String)
  /-- From `xerrors.Errorf("can't remove %q directory: %w", sessionDirPath, err)`. -/
  | remove (path : String) (inner : String)
deriving DecidableEq, Repr

/-- The value of a panic: a run that ends in one does not return. -/
inductive Panic where
  /-- The panic of `cdr.dev/slog` with the text `field %q has no value`. -/
  | fieldHasNoValue (name : String)
deriving DecidableEq, Repr

/-- An argument that a logging call passes after its message: a field built by
`slog.F`, or a bare string. -/
inductive LogArg where
  | F (name : String) (value : String)
  | str (s : String)
deriving DecidableEq, Repr

/-- Model of how the logging methods of `cdr.dev/slog` (a library outside the
sources) read the arguments after the message: a field is taken as it is, a bare
string is the name of a field whose value is the argument after it, and a name
that is still waiting for its value when the arguments end is a panic. `wip` is the
name that waits, empty when none does. -/
def Logger.log (wip : String) : List LogArg → Option Panic
  | [] => if wip ≠ "" then some (Panic.fieldHasNoValue wip) else none
  | arg :: rest =>
    if wip ≠ "" then Logger.log "" rest
    else
      match arg with
      | LogArg.F _ _ => Logger.log "" rest
      | LogArg.str s => Logger.log s rest

/-- Model of `logger.Info(ctx, msg, fields...)`: the panic it ends in, if any. -/
def Logger.Info (_msg : String) (fields : List LogArg) : Option Panic :=
  Logger.log "" fields

/-- What `cleanStaleSessions` comes to: the panic it ended in, if any, and otherwise
the returned error; and the paths that `os.RemoveAll` removed, in order. -/
structure Cleaned where
  panicked : Option Panic
  err : Option CleanErr
  removed : List String
deriving DecidableEq, Repr

/-- The loop of `cleanStaleSessions` over the entries of the directory; `removeErr`
is the error, if any, that `os.RemoveAll` returns for a path. The logging call
before the removal passes the path as a bare string after the message. -/
def cleanEntries (workDirectory : String) (now : Int) (removeErr : String → Option String) :
    List DirEntry → Cleaned
  | [] => { panicked := none, err := none, removed := [] }
  | entry :: rest =>
    let dirName := entry.Name
    if entry.IsDir && isValidSessionDir dirName then
      let sessionDirPath := Join workDirectory dirName
      match entry.Info with
      | Except.error e =>
        { panicked := none, err := some (CleanErr.dirInfo sessionDirPath e), removed := [] }
      | Except.ok fi =>
        if fi.AccessTime + staleSessionRetention > now then
          cleanEntries workDirectory now removeErr rest
        else
          match Logger.Info "remove stale session directory: %s" [LogArg.str sessionDirPath] with
          | some v => { panicked := some v, err := none, removed := [] }
          | none =>
            match removeErr sessionDirPath with
            | some e =>
              { panicked := none, err := some (CleanErr.remove sessionDirPath e), removed := [] }
            | none =>
              let r := cleanEntries workDirectory now removeErr rest
              { r with removed := sessionDirPath :: r.removed }
    else
      cleanEntries workDirectory now removeErr rest

/-- Model of `cleanStaleSessions`; `readDir` is what `os.ReadDir(workDirectory)`
returns. -/
def cleanStaleSessions (readDir : Except String (List DirEntry)) (workDirectory : String)
    (now : Int) (removeErr : String → Option String) : Cleaned :=
  match readDir with
  | Except.error _ =>
    { panicked := none, err := some (CleanErr.readDir workDirectory), removed := [] }
  | Except.ok entries => cleanEntries workDirectory now removeErr entries

/-! ## Protocol messages (`provisionersdk/proto`) -/

/-- Modelled from the spec: the `Config` message of the proto package, whose
declaration is not part of the sources. It carries the template source archive (the
bytes, held here as what `tar.Reader` reads from them) and the requested log
verbosity. -/
structure Config where
  TemplateSourceArchive : TarStream
  ProvisionerLogLevel : String
deriving DecidableEq, Repr

/-- Modelled from the spec: the `ParseRequest` message; its fields are not read by the
session layer and are kept as one uninterpreted payload. -/
structure ParseRequest where
  payload : List UInt8
deriving DecidableEq, Repr

/-- Modelled from the spec: the `PlanRequest` message, payload uninterpreted. -/
structure PlanRequest where
  payload : List UInt8
deriving DecidableEq, Repr

/-- Modelled from the spec: the `ApplyRequest` message, payload uninterpreted. -/
structure ApplyRequest where
  payload : List UInt8
deriving DecidableEq, Repr

/-- Modelled from the spec: the completion of a Parse, with the domain-error string,
the attached documentation and an uninterpreted rest. -/
structure ParseComplete where
  Error : String
  Readme : List UInt8
  payload : List UInt8
deriving DecidableEq, Repr

/-- Modelled from the spec: the completion of a Plan, with the domain-error string. -/
structure PlanComplete where
  Error : String
  payload : List UInt8
deriving DecidableEq, Repr

/-- Modelled from the spec: the completion of an Apply, with the domain-error string. -/
structure ApplyComplete where
  Error : String
  payload : List UInt8
deriving DecidableEq, Repr

/-- Modelled from the spec: the `oneof` of a `Request`: exactly one of Config, Parse,
Plan, Apply, Cancel. -/
inductive RequestType where
  | Config (c : Config)
  | Parse (r : ParseRequest)
  | Plan (r : PlanRequest)
  | Apply (r : ApplyRequest)
  | Cancel
deriving DecidableEq, Repr

/-- Modelled from the spec: a `Request` as the stream delivers it; `Type_` is `none`
for a message that carries no payload at all. -/
structure Request where
  Type_ : Option RequestType
deriving DecidableEq, Repr

/-- Modelled from the spec: the `Log` message: a severity level (an `int32` enum)
and the text. -/
structure Log where
  Level : Int
  Output : String
deriving DecidableEq, Repr

/-- Modelled from the spec: the `oneof` of a `Response`. -/
inductive ResponseType where
  | Log (l : Log)
  | Parse (c : ParseComplete)
  | Plan (c : PlanComplete)
  | Apply (c : ApplyComplete)
deriving DecidableEq, Repr

/-- Modelled from the spec: a `Response`; `&proto.Response{}` has `Type_ = none`. -/
structure Response where
  Type_ : Option ResponseType
deriving DecidableEq, Repr

/-- Generated getter `GetConfig`: the payload when the message carries a Config. -/
def Request.GetConfig (req : Request) : Option Config :=
  match req.Type_ with
  | some (RequestType.Config c) => some c
  | _ => none

/-- Generated getter `GetParse`. -/
def Request.GetParse (req : Request) : Option ParseRequest :=
  match req.Type_ with
  | some (RequestType.Parse r) => some r
  | _ => none

/-- Generated getter `GetPlan`. -/
def Request.GetPlan (req : Request) : Option PlanRequest :=
  match req.Type_ with
  | some (RequestType.Plan r) => some r
  | _ => none

/-- Generated getter `GetApply`. -/
def Request.GetApply (req : Request) : Option ApplyRequest :=
  match req.Type_ with
  | some (RequestType.Apply r) => some r
  | _ => none

/-- Generated getter `GetCancel`, reduced to whether it is non-nil. On a nil
`*Request` the Go getter returns nil as well, see `chanGetCancel`. -/
def Request.GetCancel (req : Request) : Bool :=
  match req.Type_ with
  | some RequestType.Cancel => true
  | _ => false

/-- What `%T` prints for `req.Type_`. -/
def Request.typeName (req : Request) : String :=
  match req.Type_ with
  | none => "<nil>"
  | some (RequestType.Config _) => "*proto.Request_Config"
  | some (RequestType.Parse _) => "*proto.Request_Parse"
  | some (RequestType.Plan _) => "*proto.Request_Plan"
  | some (RequestType.Apply _) => "*proto.Request_Apply"
  | some RequestType.Cancel => "*proto.Request_Cancel"

/-! ## The session and its surroundings -/

/-- The errors the session layer returns, with the place that builds each. -/
inductive Err where
  /-- From `xerrors.New("cannot apply before successful plan")` in `handleRequests`. -/
  | applyBeforePlan
  /-- From `xerrors.New("got nil while old request still processing")` in `do`. -/
  | gotNil
  /-- From `xerrors.Errorf("got new request %T while old request still processing", ..)`. -/
  | gotNewRequest (typeName : String)
  /-- From `xerrors.Errorf("send response: %w", err)` in `handleRequests`. -/
  | sendResponse (inner : String)
deriving DecidableEq, Repr

/-- The text of an error (`err.Error()`). -/
def Err.Error : Err → String
  | Err.applyBeforePlan => "cannot apply before successful plan"
  | Err.gotNil => "got nil while old request still processing"
  | Err.gotNewRequest t => "got new request " ++ t ++ " while old request still processing"
  | Err.sendResponse inner => "send response: " ++ inner

/-- How the `select` of one `request.do` call is decided by the scheduler: the
backend's result is ready first, or a message (or the closing) of the request
channel is received first; in the second case `observed` tells whether the backend
noticed the closed cancel-notify channel before it produced its completion. -/
inductive Race where
  | resultFirst
  | messageFirst (observed : Bool)
deriving DecidableEq, Repr

/-- A backend call, for the event log. -/
inductive Call where
  | Parse (r : ParseRequest)
  | Plan (r : PlanRequest)
  | Apply (r : ApplyRequest)
deriving DecidableEq, Repr

/-- A backend completion, for the event log. -/
inductive Complete where
  | Parse (c : ParseComplete)
  | Plan (c : PlanComplete)
  | Apply (c : ApplyComplete)
deriving DecidableEq, Repr

/-- What the session does that is visible from outside, in the order it happens. -/
inductive Event where
  /-- The `for req := range requests` loop received `req`. -/
  | take (req : Request)
  /-- The goroutine of `do` called the backend function. -/
  | invoke (c : Call)
  /-- The `select` of `do` received from `r.cancels` before the result; `none` is
  the nil value of the closed channel. -/
  | interrupt (m : Option Request)
  /-- The call `close(canceledOrComplete)`. -/
  | closeNotify
  /-- The value of the backend function was received from the `result` channel. -/
  | complete (c : Complete)
  /-- A call `stream.Send(resp)` and the error it returned. -/
  | send (resp : Response) (err : Option String)
deriving DecidableEq, Repr

/-- What a backend function hands back: its new private state, the filesystem as it
left it, the `ProvisionLog` calls it made while running (level and text, in order),
and its completion. -/
structure ServerReply (σ C : Type) where
  state : σ
  fs : FS
  logs : List (Int × String)
  complete : C

/-- The `Server` interface: one function per phase. A function sees the private
state of the backend, the filesystem, the request and, as a boolean, whether the
cancel-notify channel was closed while it ran. It always returns (the contract of
the backend capability). -/
structure Server (σ : Type) where
  Parse : σ → FS → ParseRequest → Bool → ServerReply σ ParseComplete
  Plan : σ → FS → PlanRequest → Bool → ServerReply σ PlanComplete
  Apply : σ → FS → ApplyRequest → Bool → ServerReply σ ApplyComplete

/-- The sending side of the stream: the error, if any, that the `n`-th `Send` call
returns. The receiving side is the list of the results of the successive `Recv`
calls (after the last one `Recv` reports the end of the stream), given to the
functions that read from the stream. -/
structure Stream where
  sendErr : Nat → Option String

/-- The fields of `Session` that the request loop reads. -/
structure Session (σ : Type) where
  WorkDirectory : String
  server : Server σ
  stream : Stream
  logLevel : Int

/-- Everything that changes while the request loop runs. -/
structure LoopState (σ : Type) where
  /-- What the reader goroutine will still publish on the channel, then close. -/
  requests : List Request
  /-- The scheduler's decisions for the coming `do` calls (result first once used up). -/
  races : List Race
  backend : σ
  fs : FS
  /-- The number of `Send` calls made so far. -/
  sends : Nat
  /-- The local variable `planned`. -/
  planned : Bool

/-- The constant `ReadmeFile`. -/
def ReadmeFile : String := "README.md"

/-- Model of `Session.requestReader`: the messages that reach the channel. The goroutine
forwards each received request and stops at the first `Recv` error, whatever that
error is; the error is logged and goes nowhere else, and the channel is closed. -/
def requestReader : List (Except String Request) → List Request
  | [] => []
  | Except.error _ :: _ => []
  | Except.ok req :: rest => req :: requestReader rest

/-- One `stream.Send(resp)`: the error returned, the new count of calls, the event. -/
def Stream.Send (stream : Stream) (sends : Nat) (resp : Response) :
    Option String × Nat × Event :=
  (stream.sendErr sends, sends + 1, Event.send resp (stream.sendErr sends))

/-- Model of `Session.ProvisionLog`: nothing below the session's level; otherwise one `Send`
of a Log response, whose error is logged and dropped. -/
def Session.ProvisionLog {σ : Type} (s : Session σ) (sends : Nat) (level : Int)
    (output : String) : Nat × List Event :=
  if level < s.logLevel then
    (sends, [])
  else
    let r := s.stream.Send sends { Type_ := some (ResponseType.Log { Level := level, Output := output }) }
    (r.2.1, [r.2.2])

/-- The `ProvisionLog` calls of one backend run, in order. -/
def Session.provisionLogs {σ : Type} (s : Session σ) (sends : Nat) :
    List (Int × String) → Nat × List Event
  | [] => (sends, [])
  | (level, output) :: rest =>
    let r := s.ProvisionLog sends level output
    let r2 := Session.provisionLogs s r.1 rest
    (r2.1, r.2 ++ r2.2)

/-- The test `GetCancel() != nil` on the value received from the channel in `do`; the nil of
a closed channel has no Cancel. -/
def chanGetCancel : Option Request → Bool
  | none => false
  | some req => req.GetCancel

/-- The struct `request[R, C]`: the request and the backend function to run. The
session and the shared channel `cancels` are passed to `do` with the loop state. -/
structure request (σ R C : Type) where
  req : R
  serverFn : σ → FS → R → Bool → ServerReply σ C

/-- What `do` returns, with the state it leaves and the events it caused. -/
structure DoResult (σ C : Type) where
  complete : C
  err : Option Err
  state : LoopState σ
  events : List Event

/-- The end of the message branch of `do`: no error when the value received from the
channel is a Cancel, an error when it is the nil of a closed channel or any other
request. -/
def interruptErr (req : Option Request) : Option Err :=
  if chanGetCancel req then none
  else
    match req with
    | none => some Err.gotNil
    | some m => some (Err.gotNewRequest m.typeName)

/-- Model of `request.do`. The goroutine runs the backend function; the `select` is
decided by the next `Race`. When a message comes first it is taken off the channel
(nil if the channel is closed), the cancel-notify channel is closed, the result is
awaited, and the error depends on the message only. When the result comes first the
cancel-notify channel is closed afterwards. The Log lines of the backend, which the
program sends from the backend's goroutine while `do` waits, are put right before
the completion. `call` and `done` tag the request and the completion for the event
log. -/
def request.do {σ R C : Type} (r : request σ R C) (call : R → Call) (done : C → Complete)
    (s : Session σ) (st : LoopState σ) : DoResult σ C :=
  match st.races.headD Race.resultFirst with
  | Race.messageFirst observed =>
    let req := st.requests.head?
    let reply := r.serverFn st.backend st.fs r.req observed
    let logged := s.provisionLogs st.sends reply.logs
    { complete := reply.complete
      err := interruptErr req
      state :=
        { st with requests := st.requests.tail, races := st.races.tail,
                  backend := reply.state, fs := reply.fs, sends := logged.1 }
      events := [Event.invoke (call r.req), Event.interrupt req, Event.closeNotify]
        ++ logged.2 ++ [Event.complete (done reply.complete)] }
  | Race.resultFirst =>
    let reply := r.serverFn st.backend st.fs r.req false
    let logged := s.provisionLogs st.sends reply.logs
    { complete := reply.complete
      err := none
      state :=
        { st with races := st.races.tail, backend := reply.state, fs := reply.fs,
                  sends := logged.1 }
      events := [Event.invoke (call r.req)] ++ logged.2
        ++ [Event.complete (done reply.complete), Event.closeNotify] }

/-- How one iteration of the loop ends: `return err`, or on to the next iteration
(by `continue` or by reaching the end of the body). -/
inductive Step (σ : Type) where
  | ret (err : Err) (events : List Event)
  | next (st : LoopState σ) (events : List Event)

/-- The lines after a successful Parse: the content of the file `ReadmeFile` of the
work directory, when it can be read, is put on the completion. -/
def attachReadme (fs : FS) (WorkDirectory : String) (complete : ParseComplete) : ParseComplete :=
  match fs.ReadFile (Join WorkDirectory ReadmeFile) with
  | Except.ok readme => { complete with Readme := readme }
  | Except.error _ => complete

/-- The end of the loop body: `s.stream.Send(resp)`, the loop returning the wrapped
error when the send fails and going on otherwise. `events` is what the iteration
has done before. -/
def sendResponse {σ : Type} (s : Session σ) (st : LoopState σ) (resp : Response)
    (events : List Event) : Step σ :=
  let sent := s.stream.Send st.sends resp
  match sent.1 with
  | some e => Step.ret (Err.sendResponse e) (events ++ [sent.2.2])
  | none => Step.next { st with sends := sent.2.1 } (events ++ [sent.2.2])

/-- The body of the `for` loop of `handleRequests` for the request `req` just taken
from the channel, `st.requests` being what is still to come. The three `if` blocks
of the body run one after the other on the response and the state. -/
def handleRequest {σ : Type} (s : Session σ) (st : LoopState σ) (req : Request) : Step σ :=
  if req.GetCancel then
    Step.next st [Event.take req]
  else
    let resp : Response := { Type_ := none }
    -- if parse := req.GetParse(); parse != nil
    let afterParse : Except (Err × List Event) (LoopState σ × Response × List Event) :=
      match req.GetParse with
      | some parse =>
        let r : request σ ParseRequest ParseComplete := { req := parse, serverFn := s.server.Parse }
        let d := r.do Call.Parse Complete.Parse s st
        match d.err with
        | some err => Except.error (err, d.events)
        | none =>
          let complete := attachReadme d.state.fs s.WorkDirectory d.complete
          Except.ok (d.state, { Type_ := some (ResponseType.Parse complete) }, d.events)
      | none => Except.ok (st, resp, [])
    match afterParse with
    | Except.error (err, ev1) => Step.ret err (Event.take req :: ev1)
    | Except.ok (st1, resp1, ev1) =>
      -- if plan := req.GetPlan(); plan != nil
      let afterPlan : Except (Err × List Event) (LoopState σ × Response × List Event) :=
        match req.GetPlan with
        | some plan =>
          let r : request σ PlanRequest PlanComplete := { req := plan, serverFn := s.server.Plan }
          let d := r.do Call.Plan Complete.Plan s st1
          match d.err with
          | some err => Except.error (err, d.events)
          | none =>
            let st2 : LoopState σ :=
              if d.complete.Error = "" then { d.state with planned := true } else d.state
            Except.ok (st2, { Type_ := some (ResponseType.Plan d.complete) }, d.events)
        | none => Except.ok (st1, resp1, [])
      match afterPlan with
      | Except.error (err, ev2) => Step.ret err (Event.take req :: (ev1 ++ ev2))
      | Except.ok (st2, resp2, ev2) =>
        -- if apply := req.GetApply(); apply != nil
        let afterApply : Except (Err × List Event) (LoopState σ × Response × List Event) :=
          match req.GetApply with
          | some apply =>
            if !st2.planned then
              Except.error (Err.applyBeforePlan, [])
            else
              let r : request σ ApplyRequest ApplyComplete :=
                { req := apply, serverFn := s.server.Apply }
              let d := r.do Call.Apply Complete.Apply s st2
              match d.err with
              | some err => Except.error (err, d.events)
              | none =>
                Except.ok (d.state, { Type_ := some (ResponseType.Apply d.complete) }, d.events)
          | none => Except.ok (st2, resp2, [])
        match afterApply with
        | Except.error (err, ev3) => Step.ret err (Event.take req :: (ev1 ++ ev2 ++ ev3))
        | Except.ok (st3, resp3, ev3) =>
          sendResponse s st3 resp3 (Event.take req :: (ev1 ++ ev2 ++ ev3))

/-- What a run of the request loop comes to: the returned error and the events. -/
structure Outcome where
  err : Option Err
  events : List Event
deriving DecidableEq, Repr

/-- The `for req := range requests` loop. Each iteration takes at least one message
off the channel, so `fuel` larger than the number of messages is never used up. -/
def handleLoop {σ : Type} (s : Session σ) : Nat → LoopState σ → Outcome
  | 0, _ => { err := none, events := [] }
  | fuel + 1, st =>
    match st.requests with
    | [] => { err := none, events := [] }
    | req :: rest =>
      match handleRequest s { st with requests := rest } req with
      | Step.ret err events => { err := some err, events := events }
      | Step.next st1 events =>
        let o := handleLoop s fuel st1
        { o with events := events ++ o.events }

/-- Model of `Session.handleRequests`, started after `sends` earlier `Send` calls with the
`Recv` results `recvs` still to come, under the schedule `races`. -/
def handleRequests {σ : Type} (s : Session σ) (recvs : List (Except String Request))
    (races : List Race) (backend : σ) (fs : FS) (sends : Nat) : Outcome :=
  let requests := requestReader recvs
  handleLoop s (requests.length + 1)
    { requests := requests, races := races, backend := backend, fs := fs, sends := sends,
      planned := false }

/-! ## `protoServer.Session` -/

/-- The errors that `protoServer.Session` returns. -/
inductive SessionErr where
  /-- From `xerrors.Errorf("unable to clean stale sessions %q: %w", ..)`. -/
  | cleanStale (inner : CleanErr)
  /-- From `xerrors.Errorf("create work directory %q: %w", ..)`. -/
  | createWorkDir (path : String) (inner : String)
  /-- From `xerrors.Errorf("receive config: %w", err)`. -/
  | receiveConfig (inner : ReadErr)
  /-- From `xerrors.New("first request must be Config")`. -/
  | firstNotConfig
  /-- From `xerrors.Errorf("extract archive: %w", err)`. -/
  | extractArchive (inner : ExtractErr)
  /-- The error of `handleRequests`, returned as it is. -/
  | requests (inner : Err)
deriving DecidableEq, Repr

/-- The field of `ServeOptions` that `Session` reads. -/
structure ServeOptions where
  WorkDirectory : String

/-- The struct `protoServer`. -/
structure protoServer (σ : Type) where
  server : Server σ
  opts : ServeOptions

/-- What a session finds around it: the identifier `uuid.New()` draws, the clock, the
listing of the root work directory and the outcome of removals there, the table
lookup `proto.LogLevel_value[strings.ToUpper(name)]` (0 for a name that is not in the
table), the filesystem, the backend's state and the schedule of the `select`s. -/
structure Host (σ : Type) where
  sessID : String
  now : Int
  readDir : Except String (List DirEntry)
  removeErr : String → Option String
  levelOf : String → Int
  fs : FS
  backend : σ
  races : List Race

/-- What a session comes to: the panic it ended in, if any, and otherwise the returned
error; the stale directories removed, the filesystem calls of the extraction, and the
events of the stream and the backend. -/
structure SessionOutcome where
  panicked : Option Panic
  err : Option SessionErr
  removed : List String
  ops : List FsOp
  events : List Event
deriving DecidableEq, Repr

/-- Model of `protoServer.Session`. A panic of `cleanStaleSessions` comes before the
removal of the work directory is deferred and ends the session there. The deferred
removal runs after the error to return is fixed and never changes it (its own
failure is only logged); it is left out. -/
def protoServer.Session {σ : Type} (p : protoServer σ) (stream : Stream)
    (recvs : List (Except String Request)) (host : Host σ) : SessionOutcome :=
  let cleaned := cleanStaleSessions host.readDir p.opts.WorkDirectory host.now host.removeErr
  let fs0 := cleaned.removed.foldl FS.RemoveAll host.fs
  match cleaned.panicked with
  | some v =>
    { panicked := some v, err := none, removed := cleaned.removed, ops := [], events := [] }
  | none =>
  match cleaned.err with
  | some err =>
    { panicked := none, err := some (SessionErr.cleanStale err), removed := cleaned.removed,
      ops := [], events := [] }
  | none =>
    let WorkDirectory := Join p.opts.WorkDirectory (sessionDir host.sessID)
    match fs0.MkdirAll WorkDirectory 0o700 with
    | Except.error e =>
      { panicked := none, err := some (SessionErr.createWorkDir WorkDirectory e),
        removed := cleaned.removed, ops := [], events := [] }
    | Except.ok fs1 =>
      match recvs with
      | [] =>
        { panicked := none, err := some (SessionErr.receiveConfig ReadErr.EOF),
          removed := cleaned.removed, ops := [], events := [] }
      | Except.error e :: _ =>
        { panicked := none, err := some (SessionErr.receiveConfig (ReadErr.other e)),
          removed := cleaned.removed, ops := [], events := [] }
      | Except.ok req :: recvs =>
        match req.GetConfig with
        | none =>
          { panicked := none, err := some SessionErr.firstNotConfig,
            removed := cleaned.removed, ops := [], events := [] }
        | some config =>
          let logLevel : Int :=
            if config.ProvisionerLogLevel ≠ "" then host.levelOf config.ProvisionerLogLevel
            else 0
          let s : Coder.Session σ :=
            { WorkDirectory := WorkDirectory, server := p.server, stream := stream,
              logLevel := logLevel }
          let extracted := extractArchive WorkDirectory config.TemplateSourceArchive fs1
          match extracted.err with
          | some err =>
            { panicked := none, err := some (SessionErr.extractArchive err),
              removed := cleaned.removed, ops := extracted.ops, events := [] }
          | none =>
            let o := handleRequests s recvs host.races host.backend extracted.fs 0
            { panicked := none, err := o.err.map SessionErr.requests,
              removed := cleaned.removed, ops := extracted.ops, events := o.events }

/-! ## The cipher of `dbcrypt` (`coderd/database/dbcrypt/cipher.go`) -/

/-- The errors of the cipher, with the place that builds each. -/
inductive CipherErr where
  /-- From `xerrors.Errorf("key must be 32 bytes")` in `CipherAES256`. -/
  | keySize
  /-- The error of `aes.NewCipher` or `cipher.NewGCM`, returned as it is. -/
  | newCipher (inner : String)
  /-- The error of `io.ReadFull(rand.Reader, nonce)`, returned as it is. -/
  | random (inner : String)
  /-- From `xerrors.Errorf("ciphertext too short")` in `Decrypt`. -/
  | tooShort
  /-- The value `&DecryptFailedError{Inner: err}` in `Decrypt`. -/
  | DecryptFailedError (Inner : String)
deriving DecidableEq, Repr

/-- Model of `IsDecryptFailedError`: whether the error is, or wraps, a
`*DecryptFailedError`; none of the other errors of the cipher wraps one. -/
def IsDecryptFailedError : CipherErr → Bool
  | CipherErr.DecryptFailedError _ => true
  | _ => false

/-- The interface `cipher.AEAD` of the standard library, as the cipher uses it: the
nonce size, the sealed box for a nonce, a plaintext and additional data, and the
opening of a box, which fails when the box is not authentic. -/
structure AEAD where
  NonceSize : Nat
  sealBox : List UInt8 → List UInt8 → List UInt8 → List UInt8
  openBox : List UInt8 → List UInt8 → List UInt8 → Except String (List UInt8)

/-- The method `Seal(dst, nonce, plaintext, additionalData)`: the sealed box is
appended to `dst`. -/
def AEAD.Seal (a : AEAD) (dst nonce plaintext additionalData : List UInt8) : List UInt8 :=
  dst ++ a.sealBox nonce plaintext additionalData

/-- The method `Open(dst, nonce, ciphertext, additionalData)`: the plaintext, when the
box is authentic, is appended to `dst`. -/
def AEAD.Open (a : AEAD) (dst nonce ciphertext additionalData : List UInt8) :
    Except String (List UInt8) :=
  match a.openBox nonce ciphertext additionalData with
  | Except.ok plaintext => Except.ok (dst ++ plaintext)
  | Except.error e => Except.error e

/-- The contract of an AEAD: what was sealed under a nonce of the right size and
some additional data opens, under the same nonce and data, to the plaintext. -/
def AEAD.Correct (a : AEAD) : Prop :=
  ∀ nonce plaintext additionalData : List UInt8, nonce.length = a.NonceSize →
    a.openBox nonce (a.sealBox nonce plaintext additionalData) additionalData = Except.ok plaintext

/-- The struct `aes256`. -/
structure aes256 where
  aead : AEAD

/-- Model of `CipherAES256`; `newGCM` stands for `aes.NewCipher` followed by
`cipher.NewGCM` of the standard library. -/
def CipherAES256 (newGCM : List UInt8 → Except String AEAD) (key : List UInt8) :
    Except CipherErr aes256 :=
  if key.length ≠ 32 then Except.error CipherErr.keySize
  else
    match newGCM key with
    | Except.error e => Except.error (CipherErr.newCipher e)
    | Except.ok aead => Except.ok { aead := aead }

/-- Model of `aes256.Encrypt`; `readFull n` is what `io.ReadFull(rand.Reader, ..)`
gives for a buffer of `n` bytes: the bytes read, or an error. -/
def aes256.Encrypt (a : aes256) (readFull : Nat → Except String (List UInt8))
    (plaintext : List UInt8) : Except CipherErr (List UInt8) :=
  match readFull a.aead.NonceSize with
  | Except.error e => Except.error (CipherErr.random e)
  | Except.ok nonce => Except.ok (a.aead.Seal nonce nonce plaintext [])

/-- Model of `aes256.Decrypt`. -/
def aes256.Decrypt (a : aes256) (ciphertext : List UInt8) : Except CipherErr (List UInt8) :=
  if ciphertext.length < a.aead.NonceSize then Except.error CipherErr.tooShort
  else
    match a.aead.Open [] (ciphertext.take a.aead.NonceSize)
        (ciphertext.drop a.aead.NonceSize) [] with
    | Except.error e => Except.error (CipherErr.DecryptFailedError e)
    | Except.ok decrypted => Except.ok decrypted

/-! ## Vocabulary of the statements -/

/-- A path element that names something: not empty, not `.`, not `..`, and without a
separator. -/
def RealName (part : List Char) : Prop :=
  part ≠ [] ∧ part ≠ ['.'] ∧ part ≠ ['.', '.'] ∧ '/' ∉ part

/-- The path lies lexically inside the directory: its cleaned form is the cleaned form
of the directory followed by elements that are real names (none of them `..`). -/
def Inside (dir path : String) : Prop :=
  ∃ names : List (List Char), (∀ t ∈ names, RealName t) ∧
    path.data = renderPath (isRooted dir.data) (pathElems (isRooted dir.data) dir.data ++ names)


/-- No event of the list is the loop taking a request off the channel. -/
def NoTake (evs : List Event) : Prop := ∀ e ∈ evs, ∀ q, e ≠ Event.take q

/-- Some Plan of the list completed with an empty `Error`. -/
def PlanSucceeded (evs : List Event) : Prop :=
  ∃ c, Event.complete (Complete.Plan c) ∈ evs ∧ c.Error = ""

/-- The backend call that a request asks for, if it is a Parse, a Plan or an Apply. -/
def Request.call (req : Request) : Option Call :=
  match req.Type_ with
  | some (RequestType.Parse r) => some (Call.Parse r)
  | some (RequestType.Plan r) => some (Call.Plan r)
  | some (RequestType.Apply r) => some (Call.Apply r)
  | _ => none

/-- The backend function of a call, run on the backend's state and the filesystem,
its completion tagged with the phase. -/
def Server.run {σ : Type} (server : Server σ) (backend : σ) (fs : FS) (call : Call)
    (observed : Bool) : ServerReply σ Complete :=
  match call with
  | Call.Parse r =>
    let reply := server.Parse backend fs r observed
    { state := reply.state, fs := reply.fs, logs := reply.logs,
      complete := Complete.Parse reply.complete }
  | Call.Plan r =>
    let reply := server.Plan backend fs r observed
    { state := reply.state, fs := reply.fs, logs := reply.logs,
      complete := Complete.Plan reply.complete }
  | Call.Apply r =>
    let reply := server.Apply backend fs r observed
    { state := reply.state, fs := reply.fs, logs := reply.logs,
      complete := Complete.Apply reply.complete }

/-- The response that wraps a completion as the backend returned it. -/
def Complete.response : Complete → Response
  | Complete.Parse c => { Type_ := some (ResponseType.Parse c) }
  | Complete.Plan c => { Type_ := some (ResponseType.Plan c) }
  | Complete.Apply c => { Type_ := some (ResponseType.Apply c) }

/-- The completion as the loop puts it on the response: the one of a Parse with the
readme of the work directory attached, the others as they are. -/
def Complete.withReadme (fs : FS) (WorkDirectory : String) : Complete → Complete
  | Complete.Parse c => Complete.Parse (attachReadme fs WorkDirectory c)
  | c => c

/-- The value of `planned` after a completion: set by a Plan with an empty `Error`,
kept otherwise. -/
def plannedAfter (planned : Bool) : Complete → Bool
  | Complete.Plan c => if c.Error = "" then true else planned
  | _ => planned

/-- The error of `do` for a value received from the channel that is not a Cancel:
the nil of the closed channel, or a request. -/
def strayErr : Option Request → Err
  | none => Err.gotNil
  | some m => Err.gotNewRequest m.typeName

/-- The response of a `Send` event when it is not a Log. -/
def Event.nonLog : Event → Option Response
  | Event.send { Type_ := some (ResponseType.Log _) } _ => none
  | Event.send resp _ => some resp
  | _ => none

/-- The entry is a stale session directory at time `now`: a directory whose name starts
with `Session` and whose access time plus the retention of seven days is not after
`now`. -/
def DirEntry.isStaleSession (now : Int) (entry : DirEntry) : Bool :=
  entry.IsDir && "Session".data.isPrefixOf entry.Name.data &&
    (match entry.Info with
     | Except.ok fi => decide (¬ (fi.AccessTime + 7 * 24 * 3600 * 1000000000 > now))
     | Except.error _ => false)

/-! ## Sample values -/

/-- A backend without state: Parse and Apply complete without error, Plan completes
without error on an empty payload and with the error "bad" otherwise; Parse logs one
line at level 2. A completion made after the cancel signal was observed has the
payload 9. -/
def sampleServer : Server Unit :=
  { Parse := fun _ fs _ observed =>
      { state := (), fs := fs, logs := [(2, "parsing")],
        complete := { Error := "", Readme := [], payload := if observed then [9] else [1] } }
    Plan := fun _ fs r observed =>
      { state := (), fs := fs, logs := [],
        complete := { Error := if r.payload = [] then "" else "bad",
                      payload := if observed then [9] else [2] } }
    Apply := fun _ fs _ observed =>
      { state := (), fs := fs, logs := [],
        complete := { Error := "", payload := if observed then [9] else [3] } } }

/-- A session in the work directory `/w/Session1` whose stream accepts every `Send`. -/
def sampleSession : Session Unit :=
  { WorkDirectory := "/w/Session1", server := sampleServer,
    stream := { sendErr := fun _ => none }, logLevel := 0 }

/-- The same session on a stream that fails every `Send` with "broken pipe". -/
def brokenSession : Session Unit :=
  { WorkDirectory := "/w/Session1", server := sampleServer,
    stream := { sendErr := fun _ => some "broken pipe" }, logLevel := 0 }

/-- A received request with the given payload. -/
def received (t : RequestType) : Except String Request := Except.ok { Type_ := some t }

/-- A work directory that holds a `README.md` with the bytes 104, 105. -/
def sampleFS : FS :=
  { nodes := [("/w/Session1/README.md", Node.file 0o600 [104, 105]),
              ("/w/Session1", Node.dir 0o700), ("/w", Node.dir 0o755)] }

/-- A host with an empty root work directory `/w`, the clock at 0, the session
identifier `1`, and the sample backend. -/
def sampleHost : Host Unit :=
  { sessID := "1", now := 0, readDir := Except.ok [], removeErr := fun _ => none,
    levelOf := fun _ => 0, fs := { nodes := [("/w", Node.dir 0o755)] }, backend := (),
    races := [] }

/-- A host whose root `/w` holds a session directory in use, a cache directory and a
regular file, none of them stale at its clock of seven days after the epoch. -/
def busyHost : Host Unit :=
  { sessID := "2", now := 7 * 24 * 3600 * 1000000000,
    readDir := Except.ok
      [{ Name := "SessionNew", IsDir := true, Info := Except.ok { AccessTime := 1 } },
       { Name := "cache", IsDir := true, Info := Except.ok { AccessTime := 0 } },
       { Name := "SessionFile", IsDir := false, Info := Except.ok { AccessTime := 0 } }],
    removeErr := fun _ => none, levelOf := fun _ => 0,
    fs := { nodes := [("/w/SessionNew", Node.dir 0o700), ("/w/cache", Node.dir 0o755),
                      ("/w/SessionFile", Node.file 0o644 []), ("/w", Node.dir 0o755)] },
    backend := (), races := [] }

/-- The sample backend serving under the root work directory `/w`. -/
def sampleProtoServer : protoServer Unit :=
  { server := sampleServer, opts := { WorkDirectory := "/w" } }

/-- A Config message with an empty archive. -/
def sampleConfig : Request :=
  { Type_ := some (RequestType.Config
      { TemplateSourceArchive := { entries := [], trailer := none },
        ProvisionerLogLevel := "" }) }

/-- An archive with a directory, a file in it, an entry that climbs out of the work
directory, and one more file after it. -/
def sampleArchive : TarStream :=
  { entries :=
      [{ header := { Typeflag := TypeDir, Name := "a", Mode := 0o755 }, body := [],
         bodyErr := none },
       { header := { Typeflag := TypeReg, Name := "a/f.txt", Mode := 0o644 }, body := [1, 2],
         bodyErr := none },
       { header := { Typeflag := TypeReg, Name := "../evil", Mode := 0o644 }, body := [6, 6, 6],
         bodyErr := none },
       { header := { Typeflag := TypeReg, Name := "b", Mode := 0o644 }, body := [3],
         bodyErr := none }],
    trailer := none }

/-- A regular-file entry named `big` whose content is `n` zero bytes. -/
def bigEntry (n : Nat) : TarEntry :=
  { header := { Typeflag := TypeReg, Name := "big", Mode := 0o644 },
    body := List.replicate n 0, bodyErr := none }

/-- A root work directory at a time when exactly seven days have passed since the
epoch: a session directory last accessed at the epoch, one accessed a nanosecond
later, a directory of another name, and a regular file named like a session. -/
def sampleListing : List DirEntry :=
  [{ Name := "SessionABC", IsDir := true, Info := Except.ok { AccessTime := 0 } },
   { Name := "SessionNew", IsDir := true, Info := Except.ok { AccessTime := 1 } },
   { Name := "cache", IsDir := true, Info := Except.ok { AccessTime := 0 } },
   { Name := "SessionFile", IsDir := false, Info := Except.ok { AccessTime := 0 } }]

/-- A stand-in AEAD with nonces of 12 bytes, for trying the cipher out: the box is the
plaintext reversed, followed by the nonce as the tag; opening checks the tag. It
keeps the contract of the interface and has nothing of the secrecy of AES-GCM. -/
def sampleAEAD : AEAD :=
  { NonceSize := 12
    sealBox := fun nonce plaintext _ => plaintext.reverse ++ nonce
    openBox := fun nonce box _ =>
      if box.drop (box.length - nonce.length) = nonce ∧ nonce.length ≤ box.length then
        Except.ok (box.take (box.length - nonce.length)).reverse
      else Except.error "cipher: message authentication failed" }

/-- A key of 32 zero bytes. -/
def sampleKey : List UInt8 := List.replicate 32 0

/-- A random source that yields the bytes 1, 2, 3, ... -/
def sampleReadFull (n : Nat) : Except String (List UInt8) :=
  Except.ok ((List.range n).map (fun i => UInt8.ofNat (i + 1)))

/-- A directory entry named `d` with the given header mode. -/
def dirEntry (mode : Nat) : TarEntry :=
  { header := { Typeflag := TypeDir, Name := "d", Mode := mode }, body := [], bodyErr := none }

/-- A regular-file entry with the given name and content. -/
def fileEntry (name : String) (body : List UInt8) : TarEntry :=
  { header := { Typeflag := TypeReg, Name := name, Mode := 0o644 }, body := body,
    bodyErr := none }

/-! ## The request loop, one request at a time -/

theorem provisionLogs_send {σ : Type} (s : Session σ) (logs : List (Int × String)) (n : Nat) :
    ∀ e ∈ (s.provisionLogs n logs).2,
      ∃ l err, e = Event.send { Type_ := some (ResponseType.Log l) } err := by
  induction logs generalizing n with
  | nil => intro e he; simp [Session.provisionLogs] at he
  | cons hd tl ih =>
    obtain ⟨level, output⟩ := hd
    intro e he
    simp only [Session.provisionLogs, List.mem_append] at he
    rcases he with he | he
    · unfold Session.ProvisionLog at he
      split at he
      · simp at he
      · simp only [Stream.Send, List.mem_singleton] at he
        exact ⟨_, _, he⟩
    · exact ih _ e he

theorem do_events {σ R C : Type} (r : request σ R C) (call : R → Call) (done : C → Complete)
    (s : Session σ) (st : LoopState σ) :
    ∀ e ∈ (r.do call done s st).events,
      e = Event.invoke (call r.req) ∨ (∃ m, e = Event.interrupt m) ∨ e = Event.closeNotify
      ∨ (∃ l err, e = Event.send { Type_ := some (ResponseType.Log l) } err)
      ∨ e = Event.complete (done (r.do call done s st).complete) := by
  intro e he
  unfold request.do at he ⊢
  split at he
  · simp only [List.mem_append, List.mem_cons, List.mem_singleton, List.not_mem_nil, or_false] at he
    rcases he with ((he | he | he) | he) | he
    · exact Or.inl he
    · exact Or.inr (Or.inl ⟨_, he⟩)
    · exact Or.inr (Or.inr (Or.inl he))
    · exact Or.inr (Or.inr (Or.inr (Or.inl (provisionLogs_send s _ _ e he))))
    · rename_i h; simp only [h]; exact Or.inr (Or.inr (Or.inr (Or.inr he)))
  · simp only [List.mem_append, List.mem_cons, List.mem_singleton, List.not_mem_nil, or_false] at he
    rcases he with (he | he) | he | he
    · exact Or.inl he
    · exact Or.inr (Or.inr (Or.inr (Or.inl (provisionLogs_send s _ _ e he))))
    · rename_i h; simp only [h]; exact Or.inr (Or.inr (Or.inr (Or.inr he)))
    · exact Or.inr (Or.inr (Or.inl he))

theorem do_noTake {σ R C : Type} (r : request σ R C) (call : R → Call) (done : C → Complete)
    (s : Session σ) (st : LoopState σ) : NoTake (r.do call done s st).events := by
  intro e he q hq
  rcases do_events r call done s st e he with h | ⟨m, h⟩ | h | ⟨l, err, h⟩ | h <;>
    · rw [h] at hq; cases hq

theorem do_planned {σ R C : Type} (r : request σ R C) (call : R → Call) (done : C → Complete)
    (s : Session σ) (st : LoopState σ) : (r.do call done s st).state.planned = st.planned := by
  unfold request.do
  split <;> rfl

theorem do_complete_mem {σ R C : Type} (r : request σ R C) (call : R → Call) (done : C → Complete)
    (s : Session σ) (st : LoopState σ) :
    Event.complete (done (r.do call done s st).complete) ∈ (r.do call done s st).events := by
  unfold request.do
  split <;> simp

theorem handleRequest_cancel {σ : Type} (s : Session σ) (st : LoopState σ) (req : Request)
    (h : req.Type_ = some RequestType.Cancel) :
    handleRequest s st req = Step.next st [Event.take req] := by
  simp [handleRequest, Request.GetCancel, h]

theorem handleRequest_parse {σ : Type} (s : Session σ) (st : LoopState σ) (req : Request)
    (parse : ParseRequest) (h : req.Type_ = some (RequestType.Parse parse)) :
    handleRequest s st req =
      (let d := ({ req := parse, serverFn := s.server.Parse } :
          request σ ParseRequest ParseComplete).do Call.Parse Complete.Parse s st
       match d.err with
       | some err => Step.ret err (Event.take req :: d.events)
       | none =>
         sendResponse s d.state
           { Type_ := some (ResponseType.Parse (attachReadme d.state.fs s.WorkDirectory d.complete)) }
           (Event.take req :: d.events)) := by
  simp only [handleRequest, Request.GetCancel, Request.GetParse, Request.GetPlan,
    Request.GetApply, h]
  simp only [Bool.false_eq_true, if_false, List.nil_append, List.append_nil]
  cases hd : (({ req := parse, serverFn := s.server.Parse } :
      request σ ParseRequest ParseComplete).do Call.Parse Complete.Parse s st).err with
  | some err => simp [hd]
  | none => simp [hd]

theorem handleRequest_plan {σ : Type} (s : Session σ) (st : LoopState σ) (req : Request)
    (plan : PlanRequest) (h : req.Type_ = some (RequestType.Plan plan)) :
    handleRequest s st req =
      (let d := ({ req := plan, serverFn := s.server.Plan } :
          request σ PlanRequest PlanComplete).do Call.Plan Complete.Plan s st
       match d.err with
       | some err => Step.ret err (Event.take req :: d.events)
       | none =>
         sendResponse s (if d.complete.Error = "" then { d.state with planned := true } else d.state)
           { Type_ := some (ResponseType.Plan d.complete) } (Event.take req :: d.events)) := by
  simp only [handleRequest, Request.GetCancel, Request.GetParse, Request.GetPlan,
    Request.GetApply, h]
  simp only [Bool.false_eq_true, if_false, List.nil_append, List.append_nil]
  cases hd : (({ req := plan, serverFn := s.server.Plan } :
      request σ PlanRequest PlanComplete).do Call.Plan Complete.Plan s st).err with
  | some err => simp [hd]
  | none => simp [hd]

theorem handleRequest_apply {σ : Type} (s : Session σ) (st : LoopState σ) (req : Request)
    (apply : ApplyRequest) (h : req.Type_ = some (RequestType.Apply apply)) :
    handleRequest s st req =
      (if st.planned = false then Step.ret Err.applyBeforePlan [Event.take req]
       else
        let d := ({ req := apply, serverFn := s.server.Apply } :
          request σ ApplyRequest ApplyComplete).do Call.Apply Complete.Apply s st
        match d.err with
        | some err => Step.ret err (Event.take req :: d.events)
        | none =>
          sendResponse s d.state { Type_ := some (ResponseType.Apply d.complete) }
            (Event.take req :: d.events)) := by
  simp only [handleRequest, Request.GetCancel, Request.GetParse, Request.GetPlan,
    Request.GetApply, h]
  simp only [Bool.false_eq_true, if_false, List.nil_append, List.append_nil]
  cases hp : st.planned with
  | false => simp
  | true =>
    simp only [Bool.not_true, Bool.false_eq_true, if_false]
    cases hd : (({ req := apply, serverFn := s.server.Apply } :
      request σ ApplyRequest ApplyComplete).do Call.Apply Complete.Apply s st).err with
    | some err => simp [hd]
    | none => simp [hd]

theorem handleRequest_other {σ : Type} (s : Session σ) (st : LoopState σ) (req : Request)
    (h : req.Type_ = none ∨ ∃ c, req.Type_ = some (RequestType.Config c)) :
    handleRequest s st req = sendResponse s st { Type_ := none } [Event.take req] := by
  rcases h with h | ⟨c, h⟩ <;>
    simp [handleRequest, Request.GetCancel, Request.GetParse, Request.GetPlan,
      Request.GetApply, h]

theorem sendResponse_ret {σ : Type} {s : Session σ} {st : LoopState σ} {resp : Response}
    {ev : Event} {events : List Event} {err : Err} {evs : List Event}
    (h : sendResponse s st resp (ev :: events) = Step.ret err evs) :
    ∃ e, err = Err.sendResponse e ∧ evs = ev :: (events ++ [Event.send resp (some e)]) := by
  unfold sendResponse at h
  simp only [Stream.Send] at h
  cases hs : s.stream.sendErr st.sends with
  | none => simp [hs] at h
  | some e =>
    simp only [hs, Step.ret.injEq] at h
    exact ⟨e, h.1.symm, h.2.symm⟩

theorem sendResponse_next {σ : Type} {s : Session σ} {st : LoopState σ} {resp : Response}
    {ev : Event} {events : List Event} {st1 : LoopState σ} {evs : List Event}
    (h : sendResponse s st resp (ev :: events) = Step.next st1 evs) :
    st1 = { st with sends := st.sends + 1 } ∧ evs = ev :: (events ++ [Event.send resp none])
      ∧ s.stream.sendErr st.sends = none := by
  unfold sendResponse at h
  simp only [Stream.Send] at h
  cases hs : s.stream.sendErr st.sends with
  | some e => simp [hs] at h
  | none =>
    simp only [hs, Step.next.injEq] at h
    exact ⟨h.1.symm, h.2.symm, rfl⟩

theorem noTake_append {xs ys : List Event} (hx : NoTake xs) (hy : NoTake ys) :
    NoTake (xs ++ ys) := by
  intro e he
  rcases List.mem_append.mp he with h | h
  · exact hx e h
  · exact hy e h

theorem noTake_send (resp : Response) (err : Option String) : NoTake [Event.send resp err] := by
  intro e he q hq
  rw [List.mem_singleton] at he
  rw [he] at hq
  cases hq

theorem noTake_nil : NoTake [] := by
  intro e he
  cases he

theorem planSucceeded_append {xs ys : List Event} :
    PlanSucceeded (xs ++ ys) ↔ PlanSucceeded xs ∨ PlanSucceeded ys := by
  constructor
  · rintro ⟨c, hc, he⟩
    rcases List.mem_append.mp hc with h | h
    · exact Or.inl ⟨c, h, he⟩
    · exact Or.inr ⟨c, h, he⟩
  · rintro (⟨c, hc, he⟩ | ⟨c, hc, he⟩)
    · exact ⟨c, List.mem_append_left _ hc, he⟩
    · exact ⟨c, List.mem_append_right _ hc, he⟩

theorem not_planSucceeded_send (resp : Response) (err : Option String) :
    ¬ PlanSucceeded [Event.send resp err] := by
  rintro ⟨c, hc, _⟩
  rw [List.mem_singleton] at hc
  cases hc

theorem not_planSucceeded_nil : ¬ PlanSucceeded [] := by
  rintro ⟨c, hc, _⟩
  cases hc

theorem do_planSucceeded {σ R C : Type} (r : request σ R C) (call : R → Call)
    (done : C → Complete) (s : Session σ) (st : LoopState σ) :
    PlanSucceeded (r.do call done s st).events ↔
      ∃ c, done (r.do call done s st).complete = Complete.Plan c ∧ c.Error = "" := by
  constructor
  · rintro ⟨c, hc, he⟩
    rcases do_events r call done s st _ hc with h | ⟨m, h⟩ | h | ⟨l, err, h⟩ | h
    · cases h
    · cases h
    · cases h
    · cases h
    · exact ⟨c, (Event.complete.inj h).symm, he⟩
  · rintro ⟨c, hc, he⟩
    exact ⟨c, hc ▸ do_complete_mem r call done s st, he⟩

/-- How an iteration that returns looks: the events start with the taking of the
request and hold no other taking; an Apply met with `planned` false is refused
right there. -/
theorem handleRequest_ret {σ : Type} {s : Session σ} {st : LoopState σ} {req : Request}
    {err : Err} {evs : List Event} (h : handleRequest s st req = Step.ret err evs) :
    ∃ tail, evs = Event.take req :: tail ∧ NoTake tail ∧
      (∀ a, req.GetApply = some a → st.planned = false →
        err = Err.applyBeforePlan ∧ tail = []) := by
  obtain ⟨ty⟩ := req
  rcases ty with _ | c | parse | plan | apply | _
  · rw [handleRequest_other s st _ (Or.inl rfl)] at h
    obtain ⟨e, -, h2⟩ := sendResponse_ret h
    exact ⟨_, h2, noTake_send _ _, by simp [Request.GetApply]⟩
  · rw [handleRequest_other s st _ (Or.inr ⟨c, rfl⟩)] at h
    obtain ⟨e, -, h2⟩ := sendResponse_ret h
    exact ⟨_, h2, noTake_send _ _, by simp [Request.GetApply]⟩
  · rw [handleRequest_parse s st _ parse rfl] at h
    simp only at h
    split at h
    · simp only [Step.ret.injEq] at h
      exact ⟨_, h.2.symm, do_noTake _ _ _ _ _, by simp [Request.GetApply]⟩
    · obtain ⟨e, -, h2⟩ := sendResponse_ret h
      exact ⟨_, h2, noTake_append (do_noTake _ _ _ _ _) (noTake_send _ _),
        by simp [Request.GetApply]⟩
  · rw [handleRequest_plan s st _ plan rfl] at h
    simp only at h
    split at h
    · simp only [Step.ret.injEq] at h
      exact ⟨_, h.2.symm, do_noTake _ _ _ _ _, by simp [Request.GetApply]⟩
    · obtain ⟨e, -, h2⟩ := sendResponse_ret h
      exact ⟨_, h2, noTake_append (do_noTake _ _ _ _ _) (noTake_send _ _),
        by simp [Request.GetApply]⟩
  · rw [handleRequest_apply s st _ apply rfl] at h
    split at h
    · simp only [Step.ret.injEq] at h
      exact ⟨[], h.2.symm, noTake_nil, fun _ _ _ => ⟨h.1.symm, rfl⟩⟩
    · rename_i hp
      simp only at h
      split at h
      · simp only [Step.ret.injEq] at h
        exact ⟨_, h.2.symm, do_noTake _ _ _ _ _, fun _ _ hf => absurd hf hp⟩
      · obtain ⟨e, -, h2⟩ := sendResponse_ret h
        exact ⟨_, h2, noTake_append (do_noTake _ _ _ _ _) (noTake_send _ _),
          fun _ _ hf => absurd hf hp⟩
  · rw [handleRequest_cancel s st _ rfl] at h
    cases h

/-- How an iteration that goes on looks: the events start with the taking of the
request and hold no other taking; `planned` is true afterwards exactly when it was
before or a Plan of this iteration completed with an empty error; and an Apply was
only let through with `planned` true. -/
theorem handleRequest_next {σ : Type} {s : Session σ} {st : LoopState σ} {req : Request}
    {st1 : LoopState σ} {evs : List Event} (h : handleRequest s st req = Step.next st1 evs) :
    ∃ tail, evs = Event.take req :: tail ∧ NoTake tail ∧
      (st1.planned = true ↔ st.planned = true ∨ PlanSucceeded tail) ∧
      (∀ a, req.GetApply = some a → st.planned = true) := by
  obtain ⟨ty⟩ := req
  rcases ty with _ | c | parse | plan | apply | _
  · rw [handleRequest_other s st _ (Or.inl rfl)] at h
    obtain ⟨h1, h2, -⟩ := sendResponse_next h
    refine ⟨_, h2, noTake_send _ _, ?_, by simp [Request.GetApply]⟩
    simp [h1, not_planSucceeded_send]
  · rw [handleRequest_other s st _ (Or.inr ⟨c, rfl⟩)] at h
    obtain ⟨h1, h2, -⟩ := sendResponse_next h
    refine ⟨_, h2, noTake_send _ _, ?_, by simp [Request.GetApply]⟩
    simp [h1, not_planSucceeded_send]
  · rw [handleRequest_parse s st _ parse rfl] at h
    simp only at h
    split at h
    · cases h
    · obtain ⟨h1, h2, -⟩ := sendResponse_next h
      refine ⟨_, h2, noTake_append (do_noTake _ _ _ _ _) (noTake_send _ _), ?_,
        by simp [Request.GetApply]⟩
      rw [h1, planSucceeded_append, do_planSucceeded]
      simp [do_planned, not_planSucceeded_send]
  · rw [handleRequest_plan s st _ plan rfl] at h
    simp only at h
    split at h
    · cases h
    · obtain ⟨h1, h2, -⟩ := sendResponse_next h
      refine ⟨_, h2, noTake_append (do_noTake _ _ _ _ _) (noTake_send _ _), ?_,
        by simp [Request.GetApply]⟩
      rw [h1, planSucceeded_append, do_planSucceeded]
      by_cases hc : (({ req := plan, serverFn := s.server.Plan } :
          request σ PlanRequest PlanComplete).do Call.Plan Complete.Plan s st).complete.Error = ""
      · simp [hc]
      · simp [hc, do_planned, not_planSucceeded_send]
  · rw [handleRequest_apply s st _ apply rfl] at h
    split at h
    · cases h
    · rename_i hp
      simp only at h
      split at h
      · cases h
      · obtain ⟨h1, h2, -⟩ := sendResponse_next h
        refine ⟨_, h2, noTake_append (do_noTake _ _ _ _ _) (noTake_send _ _), ?_,
          fun _ _ => by simpa using hp⟩
        rw [h1, planSucceeded_append, do_planSucceeded]
        simp [do_planned, not_planSucceeded_send]
  · rw [handleRequest_cancel s st _ rfl] at h
    simp only [Step.next.injEq] at h
    refine ⟨[], h.2.symm, noTake_nil, ?_, by simp [Request.GetApply]⟩
    rw [← h.1]
    simp [not_planSucceeded_nil]

/-! ## The gate of Apply -/

theorem split_at_take {xs ys pre post : List Event} {req : Request} (hx : NoTake xs)
    (h : xs ++ ys = pre ++ Event.take req :: post) :
    ∃ pre2, pre = xs ++ pre2 ∧ ys = pre2 ++ Event.take req :: post := by
  induction xs generalizing pre with
  | nil => exact ⟨pre, rfl, h⟩
  | cons x xs ih =>
    cases pre with
    | nil =>
      simp only [List.cons_append, List.nil_append, List.cons.injEq] at h
      exact absurd h.1 (hx x (List.mem_cons_self _ _) req)
    | cons p pre =>
      simp only [List.cons_append, List.cons.injEq] at h
      obtain ⟨pre2, h1, h2⟩ := ih (fun e he => hx e (List.mem_cons_of_mem _ he)) h.2
      exact ⟨pre2, by rw [h.1, h1]; rfl, h2⟩

theorem handleLoop_zero {σ : Type} (s : Session σ) (st : LoopState σ) :
    handleLoop s 0 st = { err := none, events := [] } := rfl

theorem handleLoop_nil {σ : Type} (s : Session σ) (fuel : Nat) (st : LoopState σ)
    (h : st.requests = []) :
    handleLoop s (fuel + 1) st = { err := none, events := [] } := by
  simp [handleLoop, h]

theorem handleLoop_ret {σ : Type} (s : Session σ) (fuel : Nat) (st : LoopState σ)
    {req : Request} {rest : List Request} {err : Err} {evs : List Event}
    (h : st.requests = req :: rest)
    (hstep : handleRequest s { st with requests := rest } req = Step.ret err evs) :
    handleLoop s (fuel + 1) st = { err := some err, events := evs } := by
  simp [handleLoop, h, hstep]

theorem handleLoop_next {σ : Type} (s : Session σ) (fuel : Nat) (st : LoopState σ)
    {req : Request} {rest : List Request} {st1 : LoopState σ} {evs : List Event}
    (h : st.requests = req :: rest)
    (hstep : handleRequest s { st with requests := rest } req = Step.next st1 evs) :
    handleLoop s (fuel + 1) st =
      { handleLoop s fuel st1 with events := evs ++ (handleLoop s fuel st1).events } := by
  simp [handleLoop, h, hstep]

theorem handleLoop_apply_refused {σ : Type} (s : Session σ) (fuel : Nat) :
    ∀ (st : LoopState σ) (pre post : List Event) (req : Request) (apply : ApplyRequest),
      req.GetApply = some apply →
      (handleLoop s fuel st).events = pre ++ Event.take req :: post →
      st.planned = false → ¬ PlanSucceeded pre →
      (handleLoop s fuel st).err = some Err.applyBeforePlan ∧ post = [] := by
  induction fuel with
  | zero =>
    intro st pre post req apply _ hev
    rw [handleLoop_zero] at hev
    simp at hev
  | succ fuel ih =>
    intro st pre post req apply hreq hev hpl hpre
    cases hrq : st.requests with
    | nil =>
      rw [handleLoop_nil s fuel st hrq] at hev
      simp at hev
    | cons r rest =>
      cases hstep : handleRequest s { st with requests := rest } r with
      | ret err evs =>
        rw [handleLoop_ret s fuel st hrq hstep] at hev ⊢
        obtain ⟨tail, h1, h2, h3⟩ := handleRequest_ret hstep
        simp only at hev
        rw [h1] at hev
        cases pre with
        | nil =>
          simp only [List.nil_append, List.cons.injEq, Event.take.injEq] at hev
          obtain ⟨h4, h5⟩ := h3 apply (hev.1 ▸ hreq) hpl
          exact ⟨by rw [h4], by rw [← hev.2, h5]⟩
        | cons p pre =>
          simp only [List.cons_append, List.cons.injEq] at hev
          have hmem : Event.take req ∈ tail := by rw [hev.2]; simp
          exact absurd rfl (h2 _ hmem req)
      | next st1 evs =>
        rw [handleLoop_next s fuel st hrq hstep] at hev ⊢
        obtain ⟨tail, h1, h2, h3, h4⟩ := handleRequest_next hstep
        simp only at hev
        rw [h1] at hev
        cases pre with
        | nil =>
          simp only [List.nil_append, List.cons_append, List.cons.injEq, Event.take.injEq] at hev
          have := h4 apply (hev.1 ▸ hreq)
          simp [hpl] at this
        | cons p pre =>
          simp only [List.cons_append, List.cons.injEq] at hev
          obtain ⟨pre2, h5, h6⟩ := split_at_take h2 hev.2
          have hno : ¬ PlanSucceeded tail := by
            rintro ⟨c, hc, he⟩
            exact hpre ⟨c, by rw [h5]; simp [hc], he⟩
          have hno2 : ¬ PlanSucceeded pre2 := by
            rintro ⟨c, hc, he⟩
            exact hpre ⟨c, by rw [h5]; simp [hc], he⟩
          have hpl1 : st1.planned = false := by
            cases hb : st1.planned with
            | false => rfl
            | true =>
              rcases h3.mp hb with h | h
              · rw [hpl] at h; cases h
              · exact absurd h hno
          exact ih st1 pre2 post req apply hreq h6 hpl1 hno2

/-- C1. In every run of `handleRequests` (any stream, schedule and backend): when the
loop takes an Apply request off the channel and no Plan has completed with an empty
`Error` before, `handleRequests` returns the error "cannot apply before successful
plan" and nothing at all happens after the taking: the backend's Apply is not
invoked and no response is sent. -/
theorem apply_before_successful_plan_refused {σ : Type} (s : Session σ)
    (recvs : List (Except String Request)) (races : List Race) (backend : σ) (fs : FS)
    (sends : Nat) (pre post : List Event) (req : Request) (apply : ApplyRequest)
    (hreq : req.GetApply = some apply)
    (hrun : (handleRequests s recvs races backend fs sends).events
              = pre ++ Event.take req :: post)
    (hplan : ∀ c, Event.complete (Complete.Plan c) ∈ pre → c.Error ≠ "") :
    (handleRequests s recvs races backend fs sends).err = some Err.applyBeforePlan
      ∧ Err.applyBeforePlan.Error = "cannot apply before successful plan"
      ∧ post = [] := by
  have h := handleLoop_apply_refused s _ _ pre post req apply hreq hrun rfl
    (fun ⟨c, hc, he⟩ => hplan c hc he)
  exact ⟨h.1, rfl, h.2⟩

/-- Witness of C1: a Plan that completes with the error "bad", then an Apply. -/
theorem apply_before_successful_plan_refused_witness :
    (handleRequests sampleSession
        [received (RequestType.Plan { payload := [1] }),
         received (RequestType.Apply { payload := [] })] [] () sampleFS 0).events
      = [Event.take { Type_ := some (RequestType.Plan { payload := [1] }) },
         Event.invoke (Call.Plan { payload := [1] }),
         Event.complete (Complete.Plan { Error := "bad", payload := [2] }),
         Event.closeNotify,
         Event.send { Type_ := some (ResponseType.Plan { Error := "bad", payload := [2] }) } none]
        ++ Event.take { Type_ := some (RequestType.Apply { payload := [] }) } :: []
    ∧ ((handleRequests sampleSession
        [received (RequestType.Plan { payload := [1] }),
         received (RequestType.Apply { payload := [] })] [] () sampleFS 0).err
          = some Err.applyBeforePlan
      ∧ Err.applyBeforePlan.Error = "cannot apply before successful plan"
      ∧ ([] : List Event) = []) :=
  ⟨by decide,
   apply_before_successful_plan_refused sampleSession
    [received (RequestType.Plan { payload := [1] }), received (RequestType.Apply { payload := [] })]
    [] () sampleFS 0
    [Event.take { Type_ := some (RequestType.Plan { payload := [1] }) },
     Event.invoke (Call.Plan { payload := [1] }),
     Event.complete (Complete.Plan { Error := "bad", payload := [2] }),
     Event.closeNotify,
     Event.send { Type_ := some (ResponseType.Plan { Error := "bad", payload := [2] }) } none]
    [] { Type_ := some (RequestType.Apply { payload := [] }) } { payload := [] }
    (by decide) (by decide)
    (by
      intro c hc
      simp only [List.mem_cons, List.mem_singleton, List.not_mem_nil, or_false,
        Event.complete.injEq, Complete.Plan.injEq, reduceCtorEq, false_or] at hc
      rw [hc]
      decide)⟩

theorem do_events_head {σ R C : Type} (r : request σ R C) (call : R → Call)
    (done : C → Complete) (s : Session σ) (st : LoopState σ) :
    ∃ tail, (r.do call done s st).events = Event.invoke (call r.req) :: tail := by
  unfold request.do
  split <;> exact ⟨_, rfl⟩

theorem do_err {σ R C : Type} (r : request σ R C) (call : R → Call)
    (done : C → Complete) (s : Session σ) (st : LoopState σ) (err : Err)
    (h : (r.do call done s st).err = some err) : err ≠ Err.applyBeforePlan := by
  unfold request.do at h
  split at h
  · simp only [interruptErr] at h
    split at h
    · cases h
    · split at h <;>
      · simp only [Option.some.injEq] at h
        rw [← h]
        exact fun h2 => Err.noConfusion h2
  · cases h

/-- An iteration that starts with `planned` true does not return the refusal of
Apply, and an Apply taken then starts with the call of the backend. -/
theorem handleRequest_planned {σ : Type} (s : Session σ) (st : LoopState σ) (req : Request)
    (hpl : st.planned = true) :
    (∀ err evs, handleRequest s st req = Step.ret err evs → err ≠ Err.applyBeforePlan) ∧
    (∀ apply, req.GetApply = some apply →
      (∀ err evs, handleRequest s st req = Step.ret err evs →
          ∃ tail, evs = Event.take req :: Event.invoke (Call.Apply apply) :: tail) ∧
      (∀ st1 evs, handleRequest s st req = Step.next st1 evs →
          ∃ tail, evs = Event.take req :: Event.invoke (Call.Apply apply) :: tail)) := by
  obtain ⟨ty⟩ := req
  rcases ty with _ | c | parse | plan | apply | _
  · refine ⟨?_, by simp [Request.GetApply]⟩
    intro err evs h
    rw [handleRequest_other s st _ (Or.inl rfl)] at h
    obtain ⟨e, h1, -⟩ := sendResponse_ret h
    rw [h1]; exact fun h2 => Err.noConfusion h2
  · refine ⟨?_, by simp [Request.GetApply]⟩
    intro err evs h
    rw [handleRequest_other s st _ (Or.inr ⟨c, rfl⟩)] at h
    obtain ⟨e, h1, -⟩ := sendResponse_ret h
    rw [h1]; exact fun h2 => Err.noConfusion h2
  · refine ⟨?_, by simp [Request.GetApply]⟩
    intro err evs h
    rw [handleRequest_parse s st _ parse rfl] at h
    simp only at h
    split at h
    · rename_i e he
      simp only [Step.ret.injEq] at h
      rw [← h.1]; exact do_err _ _ _ _ _ _ he
    · obtain ⟨e, h1, -⟩ := sendResponse_ret h
      rw [h1]; exact fun h2 => Err.noConfusion h2
  · refine ⟨?_, by simp [Request.GetApply]⟩
    intro err evs h
    rw [handleRequest_plan s st _ plan rfl] at h
    simp only at h
    split at h
    · rename_i e he
      simp only [Step.ret.injEq] at h
      rw [← h.1]; exact do_err _ _ _ _ _ _ he
    · obtain ⟨e, h1, -⟩ := sendResponse_ret h
      rw [h1]; exact fun h2 => Err.noConfusion h2
  · have heq := handleRequest_apply s st { Type_ := some (RequestType.Apply apply) } apply rfl
    simp only [hpl, Bool.true_eq_false, if_false] at heq
    obtain ⟨tail, htail⟩ := do_events_head ({ req := apply, serverFn := s.server.Apply } :
      request σ ApplyRequest ApplyComplete) Call.Apply Complete.Apply s st
    constructor
    · intro err evs h
      rw [heq] at h
      split at h
      · rename_i e he
        simp only [Step.ret.injEq] at h
        rw [← h.1]; exact do_err _ _ _ _ _ _ he
      · obtain ⟨e, h1, -⟩ := sendResponse_ret h
        rw [h1]; exact fun h2 => Err.noConfusion h2
    · intro a ha
      simp only [Request.GetApply, Option.some.injEq] at ha
      subst ha
      constructor
      · intro err evs h
        rw [heq] at h
        split at h
        · simp only [Step.ret.injEq] at h
          exact ⟨tail, by rw [← h.2, htail]⟩
        · obtain ⟨e, -, h2⟩ := sendResponse_ret h
          exact ⟨tail ++ [Event.send _ (some e)], by rw [h2, htail]; rfl⟩
      · intro st1 evs h
        rw [heq] at h
        split at h
        · cases h
        · obtain ⟨-, h2, -⟩ := sendResponse_next h
          exact ⟨tail ++ [Event.send _ none], by rw [h2, htail]; rfl⟩
  · refine ⟨?_, by simp [Request.GetApply]⟩
    intro err evs h
    rw [handleRequest_cancel s st _ rfl] at h
    cases h

theorem handleLoop_planned_err {σ : Type} (s : Session σ) (fuel : Nat) :
    ∀ st : LoopState σ, st.planned = true →
      (handleLoop s fuel st).err ≠ some Err.applyBeforePlan := by
  induction fuel with
  | zero => intro st _; rw [handleLoop_zero]; simp
  | succ fuel ih =>
    intro st hpl
    cases hrq : st.requests with
    | nil => rw [handleLoop_nil s fuel st hrq]; simp
    | cons r rest =>
      have hpl2 : ({ st with requests := rest } : LoopState σ).planned = true := hpl
      cases hstep : handleRequest s { st with requests := rest } r with
      | ret err evs =>
        rw [handleLoop_ret s fuel st hrq hstep]
        have := (handleRequest_planned s _ r hpl2).1 err evs hstep
        simpa using this
      | next st1 evs =>
        rw [handleLoop_next s fuel st hrq hstep]
        obtain ⟨tail, -, -, h3, -⟩ := handleRequest_next hstep
        exact ih st1 (h3.mpr (Or.inl hpl))

theorem handleLoop_apply_let_through {σ : Type} (s : Session σ) (fuel : Nat) :
    ∀ (st : LoopState σ) (pre post : List Event) (req : Request) (apply : ApplyRequest),
      req.GetApply = some apply →
      (handleLoop s fuel st).events = pre ++ Event.take req :: post →
      (st.planned = true ∨ PlanSucceeded pre) →
      (handleLoop s fuel st).err ≠ some Err.applyBeforePlan ∧
        ∃ post2, post = Event.invoke (Call.Apply apply) :: post2 := by
  induction fuel with
  | zero =>
    intro st pre post req apply _ hev
    rw [handleLoop_zero] at hev
    simp at hev
  | succ fuel ih =>
    intro st pre post req apply hreq hev hpl
    cases hrq : st.requests with
    | nil =>
      rw [handleLoop_nil s fuel st hrq] at hev
      simp at hev
    | cons r rest =>
      cases hstep : handleRequest s { st with requests := rest } r with
      | ret err evs =>
        rw [handleLoop_ret s fuel st hrq hstep] at hev ⊢
        obtain ⟨tail, h1, h2, -⟩ := handleRequest_ret hstep
        simp only at hev
        rw [h1] at hev
        cases pre with
        | nil =>
          simp only [List.nil_append, List.cons.injEq, Event.take.injEq] at hev
          have hpl2 : ({ st with requests := rest } : LoopState σ).planned = true := by
            rcases hpl with h | h
            · exact h
            · exact absurd h not_planSucceeded_nil
          obtain ⟨hA, hB⟩ := handleRequest_planned s _ r hpl2
          obtain ⟨tail2, h5⟩ := (hB apply (hev.1 ▸ hreq)).1 err evs hstep
          refine ⟨by simpa using hA err evs hstep, tail2, ?_⟩
          rw [h1] at h5
          simp only [List.cons.injEq, true_and] at h5
          rw [← hev.2, h5]
        | cons p pre =>
          simp only [List.cons_append, List.cons.injEq] at hev
          have hmem : Event.take req ∈ tail := by rw [hev.2]; simp
          exact absurd rfl (h2 _ hmem req)
      | next st1 evs =>
        rw [handleLoop_next s fuel st hrq hstep] at hev ⊢
        obtain ⟨tail, h1, h2, h3, -⟩ := handleRequest_next hstep
        simp only at hev
        rw [h1] at hev
        cases pre with
        | nil =>
          simp only [List.nil_append, List.cons_append, List.cons.injEq, Event.take.injEq] at hev
          have hpl2 : ({ st with requests := rest } : LoopState σ).planned = true := by
            rcases hpl with h | h
            · exact h
            · exact absurd h not_planSucceeded_nil
          obtain ⟨-, hB⟩ := handleRequest_planned s _ r hpl2
          obtain ⟨tail2, h5⟩ := (hB apply (hev.1 ▸ hreq)).2 st1 evs hstep
          refine ⟨handleLoop_planned_err s fuel st1 (h3.mpr (Or.inl hpl2)), ?_⟩
          rw [h1] at h5
          simp only [List.cons.injEq, true_and] at h5
          rw [h5] at hev
          exact ⟨_, hev.2.symm⟩
        | cons p pre =>
          simp only [List.cons_append, List.cons.injEq] at hev
          obtain ⟨pre2, h5, h6⟩ := split_at_take h2 hev.2
          refine ih st1 pre2 post req apply hreq h6 ?_
          by_cases hb : st1.planned = true
          · exact Or.inl hb
          · right
            have hnt : ¬ PlanSucceeded tail := fun h => hb (h3.mpr (Or.inr h))
            have hnp : ¬ st.planned = true := fun h => hb (h3.mpr (Or.inl h))
            rcases hpl with h | ⟨c, hc, he⟩
            · exact absurd h hnp
            · rw [h5] at hc
              simp only [List.mem_cons, List.mem_append] at hc
              rcases hc with hc | hc | hc
              · rw [← hc] at hev; cases hev.1
              · exact absurd ⟨c, hc, he⟩ hnt
              · exact ⟨c, hc, he⟩

/-- C2, counterexample. A Plan that completes without error, then a Plan that
completes with the error "bad", then an Apply: the most recently completed Plan
carried an error, and still the Apply is run by the backend, answered, and
`handleRequests` returns nil. -/
theorem apply_after_failed_latest_plan_not_refused :
    (handleRequests sampleSession
        [received (RequestType.Plan { payload := [] }),
         received (RequestType.Plan { payload := [1] }),
         received (RequestType.Apply { payload := [] })] [] () sampleFS 0).events
      = [Event.take { Type_ := some (RequestType.Plan { payload := [] }) },
         Event.invoke (Call.Plan { payload := [] }),
         Event.complete (Complete.Plan { Error := "", payload := [2] }),
         Event.closeNotify,
         Event.send { Type_ := some (ResponseType.Plan { Error := "", payload := [2] }) } none,
         Event.take { Type_ := some (RequestType.Plan { payload := [1] }) },
         Event.invoke (Call.Plan { payload := [1] }),
         Event.complete (Complete.Plan { Error := "bad", payload := [2] }),
         Event.closeNotify,
         Event.send { Type_ := some (ResponseType.Plan { Error := "bad", payload := [2] }) } none,
         Event.take { Type_ := some (RequestType.Apply { payload := [] }) },
         Event.invoke (Call.Apply { payload := [] }),
         Event.complete (Complete.Apply { Error := "", payload := [3] }),
         Event.closeNotify,
         Event.send { Type_ := some (ResponseType.Apply { Error := "", payload := [3] }) } none]
    ∧ (handleRequests sampleSession
        [received (RequestType.Plan { payload := [] }),
         received (RequestType.Plan { payload := [1] }),
         received (RequestType.Apply { payload := [] })] [] () sampleFS 0).err = none := by
  decide

/-- C2, amended. In every run of `handleRequests`, an Apply request that the loop
takes off the channel is refused with "cannot apply before successful plan" (and
nothing happens after the taking) exactly when no Plan of the session has completed
with an empty `Error` before it. Once some Plan has so completed, whatever later
Plans did, the Apply goes to the backend and that error is not the one returned. -/
theorem apply_gate_opened_by_any_successful_plan {σ : Type} (s : Session σ)
    (recvs : List (Except String Request)) (races : List Race) (backend : σ) (fs : FS)
    (sends : Nat) (pre post : List Event) (req : Request) (apply : ApplyRequest)
    (hreq : req.GetApply = some apply)
    (hrun : (handleRequests s recvs races backend fs sends).events
              = pre ++ Event.take req :: post) :
    (((handleRequests s recvs races backend fs sends).err = some Err.applyBeforePlan
        ∧ post = []) ↔ ¬ PlanSucceeded pre)
    ∧ (PlanSucceeded pre →
        (handleRequests s recvs races backend fs sends).err ≠ some Err.applyBeforePlan
        ∧ ∃ post2, post = Event.invoke (Call.Apply apply) :: post2) := by
  have hopen : PlanSucceeded pre →
      (handleRequests s recvs races backend fs sends).err ≠ some Err.applyBeforePlan
        ∧ ∃ post2, post = Event.invoke (Call.Apply apply) :: post2 :=
    fun h => handleLoop_apply_let_through s _ _ pre post req apply hreq hrun (Or.inr h)
  refine ⟨⟨?_, ?_⟩, hopen⟩
  · rintro ⟨h1, -⟩ h2
    exact (hopen h2).1 h1
  · intro h
    exact handleLoop_apply_refused s _ _ pre post req apply hreq hrun rfl h

/-- Witness of the amended C2, on the run of its counterexample. -/
theorem apply_gate_opened_by_any_successful_plan_witness :
    ((handleRequests sampleSession
        [received (RequestType.Plan { payload := [] }),
         received (RequestType.Plan { payload := [1] }),
         received (RequestType.Apply { payload := [] })] [] () sampleFS 0).err
        ≠ some Err.applyBeforePlan)
    ∧ ∃ post2, [Event.invoke (Call.Apply { payload := [] }),
         Event.complete (Complete.Apply { Error := "", payload := [3] }),
         Event.closeNotify,
         Event.send { Type_ := some (ResponseType.Apply { Error := "", payload := [3] }) } none]
        = Event.invoke (Call.Apply { payload := [] }) :: post2 :=
  (apply_gate_opened_by_any_successful_plan sampleSession
    [received (RequestType.Plan { payload := [] }),
     received (RequestType.Plan { payload := [1] }),
     received (RequestType.Apply { payload := [] })] [] () sampleFS 0
    [Event.take { Type_ := some (RequestType.Plan { payload := [] }) },
     Event.invoke (Call.Plan { payload := [] }),
     Event.complete (Complete.Plan { Error := "", payload := [2] }),
     Event.closeNotify,
     Event.send { Type_ := some (ResponseType.Plan { Error := "", payload := [2] }) } none,
     Event.take { Type_ := some (RequestType.Plan { payload := [1] }) },
     Event.invoke (Call.Plan { payload := [1] }),
     Event.complete (Complete.Plan { Error := "bad", payload := [2] }),
     Event.closeNotify,
     Event.send { Type_ := some (ResponseType.Plan { Error := "bad", payload := [2] }) } none]
    [Event.invoke (Call.Apply { payload := [] }),
     Event.complete (Complete.Apply { Error := "", payload := [3] }),
     Event.closeNotify,
     Event.send { Type_ := some (ResponseType.Apply { Error := "", payload := [3] }) } none]
    { Type_ := some (RequestType.Apply { payload := [] }) } { payload := [] }
    (by decide) (by decide)).2
    ⟨{ Error := "", payload := [2] }, by decide, by decide⟩

/-! ## One phase under each outcome of the race -/

theorem do_resultFirst {σ R C : Type} (r : request σ R C) (call : R → Call)
    (done : C → Complete) (s : Session σ) (st : LoopState σ)
    (hrace : st.races.headD Race.resultFirst = Race.resultFirst) :
    r.do call done s st =
      { complete := (r.serverFn st.backend st.fs r.req false).complete
        err := none
        state :=
          { st with races := st.races.tail,
                    backend := (r.serverFn st.backend st.fs r.req false).state,
                    fs := (r.serverFn st.backend st.fs r.req false).fs,
                    sends := (s.provisionLogs st.sends
                      (r.serverFn st.backend st.fs r.req false).logs).1 }
        events := [Event.invoke (call r.req)]
          ++ (s.provisionLogs st.sends (r.serverFn st.backend st.fs r.req false).logs).2
          ++ [Event.complete (done (r.serverFn st.backend st.fs r.req false).complete),
              Event.closeNotify] } := by
  unfold request.do
  rw [hrace]

theorem do_messageFirst {σ R C : Type} (r : request σ R C) (call : R → Call)
    (done : C → Complete) (s : Session σ) (st : LoopState σ) (observed : Bool)
    (hrace : st.races.headD Race.resultFirst = Race.messageFirst observed) :
    r.do call done s st =
      { complete := (r.serverFn st.backend st.fs r.req observed).complete
        err := interruptErr st.requests.head?
        state :=
          { st with requests := st.requests.tail, races := st.races.tail,
                    backend := (r.serverFn st.backend st.fs r.req observed).state,
                    fs := (r.serverFn st.backend st.fs r.req observed).fs,
                    sends := (s.provisionLogs st.sends
                      (r.serverFn st.backend st.fs r.req observed).logs).1 }
        events := [Event.invoke (call r.req), Event.interrupt st.requests.head?,
                   Event.closeNotify]
          ++ (s.provisionLogs st.sends (r.serverFn st.backend st.fs r.req observed).logs).2
          ++ [Event.complete (done (r.serverFn st.backend st.fs r.req observed).complete)] } := by
  unfold request.do
  rw [hrace]

/-- The loop body on a Parse, Plan or Apply (with `planned` true) whose result comes
before any message. -/
theorem handleRequest_resultFirst {σ : Type} (s : Session σ) (st : LoopState σ)
    (req : Request) (call : Call) (hcall : req.call = some call)
    (hgate : ∀ a, call = Call.Apply a → st.planned = true)
    (hrace : st.races.headD Race.resultFirst = Race.resultFirst) :
    handleRequest s st req =
      sendResponse s
        { st with races := st.races.tail,
                  backend := (s.server.run st.backend st.fs call false).state,
                  fs := (s.server.run st.backend st.fs call false).fs,
                  sends := (s.provisionLogs st.sends
                    (s.server.run st.backend st.fs call false).logs).1,
                  planned := plannedAfter st.planned
                    (s.server.run st.backend st.fs call false).complete }
        (((s.server.run st.backend st.fs call false).complete.withReadme
            (s.server.run st.backend st.fs call false).fs s.WorkDirectory).response)
        (Event.take req :: Event.invoke call ::
          ((s.provisionLogs st.sends (s.server.run st.backend st.fs call false).logs).2
            ++ [Event.complete (s.server.run st.backend st.fs call false).complete,
                Event.closeNotify])) := by
  obtain ⟨ty⟩ := req
  rcases ty with _ | c | parse | plan | apply | _
  · simp [Request.call] at hcall
  · simp [Request.call] at hcall
  · simp only [Request.call, Option.some.injEq] at hcall
    subst hcall
    rw [handleRequest_parse s st _ parse rfl, do_resultFirst _ _ _ _ _ hrace]
    simp [Server.run, Complete.withReadme, Complete.response, plannedAfter]
  · simp only [Request.call, Option.some.injEq] at hcall
    subst hcall
    rw [handleRequest_plan s st _ plan rfl, do_resultFirst _ _ _ _ _ hrace]
    simp only [Server.run, Complete.withReadme, Complete.response, plannedAfter]
    split <;> simp
  · simp only [Request.call, Option.some.injEq] at hcall
    subst hcall
    have hp := hgate apply rfl
    rw [handleRequest_apply s st _ apply rfl, do_resultFirst _ _ _ _ _ hrace]
    simp [Server.run, Complete.withReadme, Complete.response, plannedAfter, hp]
  · simp [Request.call] at hcall

/-- The loop body on a Parse, Plan or Apply (with `planned` true) during which a
message, or the closing of the channel, is received before the result. -/
theorem handleRequest_messageFirst {σ : Type} (s : Session σ) (st : LoopState σ)
    (req : Request) (call : Call) (observed : Bool) (hcall : req.call = some call)
    (hgate : ∀ a, call = Call.Apply a → st.planned = true)
    (hrace : st.races.headD Race.resultFirst = Race.messageFirst observed) :
    handleRequest s st req =
      (match interruptErr st.requests.head? with
       | some err =>
         Step.ret err
           (Event.take req :: Event.invoke call :: Event.interrupt st.requests.head?
             :: Event.closeNotify ::
             ((s.provisionLogs st.sends (s.server.run st.backend st.fs call observed).logs).2
               ++ [Event.complete (s.server.run st.backend st.fs call observed).complete]))
       | none =>
         sendResponse s
           { st with requests := st.requests.tail, races := st.races.tail,
                     backend := (s.server.run st.backend st.fs call observed).state,
                     fs := (s.server.run st.backend st.fs call observed).fs,
                     sends := (s.provisionLogs st.sends
                       (s.server.run st.backend st.fs call observed).logs).1,
                     planned := plannedAfter st.planned
                       (s.server.run st.backend st.fs call observed).complete }
           (((s.server.run st.backend st.fs call observed).complete.withReadme
               (s.server.run st.backend st.fs call observed).fs s.WorkDirectory).response)
           (Event.take req :: Event.invoke call :: Event.interrupt st.requests.head?
             :: Event.closeNotify ::
             ((s.provisionLogs st.sends (s.server.run st.backend st.fs call observed).logs).2
               ++ [Event.complete (s.server.run st.backend st.fs call observed).complete]))) := by
  obtain ⟨ty⟩ := req
  rcases ty with _ | c | parse | plan | apply | _
  · simp [Request.call] at hcall
  · simp [Request.call] at hcall
  · simp only [Request.call, Option.some.injEq] at hcall
    subst hcall
    rw [handleRequest_parse s st _ parse rfl, do_messageFirst _ _ _ _ _ _ hrace]
    cases hi : interruptErr st.requests.head? <;>
      simp [Server.run, Complete.withReadme, Complete.response, plannedAfter, hi]
  · simp only [Request.call, Option.some.injEq] at hcall
    subst hcall
    rw [handleRequest_plan s st _ plan rfl, do_messageFirst _ _ _ _ _ _ hrace]
    cases hi : interruptErr st.requests.head?
    · simp only [Server.run, Complete.withReadme, Complete.response, plannedAfter, hi]
      split <;> simp
    · simp [Server.run, Complete.withReadme, Complete.response, plannedAfter, hi]
  · simp only [Request.call, Option.some.injEq] at hcall
    subst hcall
    have hp := hgate apply rfl
    rw [handleRequest_apply s st _ apply rfl, do_messageFirst _ _ _ _ _ _ hrace]
    cases hi : interruptErr st.requests.head? <;>
      simp [Server.run, Complete.withReadme, Complete.response, plannedAfter, hp, hi]
  · simp [Request.call] at hcall

/-! ## Cancel, or anything else, while a phase is outstanding -/

theorem sendResponse_eq {σ : Type} (s : Session σ) (st : LoopState σ) (resp : Response)
    (ev : Event) (events : List Event) :
    sendResponse s st resp (ev :: events) =
      (match s.stream.sendErr st.sends with
       | some e =>
         Step.ret (Err.sendResponse e) (ev :: (events ++ [Event.send resp (some e)]))
       | none =>
         Step.next { st with sends := st.sends + 1 } (ev :: (events ++ [Event.send resp none]))) := by
  unfold sendResponse
  simp only [Stream.Send]
  cases s.stream.sendErr st.sends <;> rfl

theorem interruptErr_cancel (m : Request) (h : m.GetCancel = true) :
    interruptErr (some m) = none := by
  simp [interruptErr, chanGetCancel, h]

theorem interruptErr_other (msg : Option Request) (h : chanGetCancel msg = false) :
    interruptErr msg = some (strayErr msg) := by
  unfold interruptErr
  rw [h]
  cases msg <;> rfl

/-- C5, counterexample. A Parse is outstanding, the Cancel arrives before the result
(and is observed), the work directory has a `README.md`, and the stream fails its
`Send` calls. The response handed to `Send` does not carry the completion as the
backend returned it (its `Readme` is the file's content), and `handleRequests`
returns the send error at once: the Plan that follows is never taken. -/
theorem cancel_during_parse_on_broken_stream :
    (handleRequests brokenSession
        [received (RequestType.Parse { payload := [] }), received RequestType.Cancel,
         received (RequestType.Plan { payload := [] })]
        [Race.messageFirst true] () sampleFS 0)
      = { err := some (Err.sendResponse "broken pipe"),
          events :=
            [Event.take { Type_ := some (RequestType.Parse { payload := [] }) },
             Event.invoke (Call.Parse { payload := [] }),
             Event.interrupt (some { Type_ := some RequestType.Cancel }),
             Event.closeNotify,
             Event.send { Type_ := some (ResponseType.Log { Level := 2, Output := "parsing" }) }
               (some "broken pipe"),
             Event.complete (Complete.Parse { Error := "", Readme := [], payload := [9] }),
             Event.send { Type_ := some (ResponseType.Parse
               { Error := "", Readme := [104, 105], payload := [9] }) } (some "broken pipe")] } := by
  decide

/-- C5, amended. A Parse, Plan or Apply (past the gate) is outstanding, the next
message of the channel is a Cancel and it is received before the result. Then `do`
closes the cancel-notify channel, still receives the backend's completion and
returns it with a nil error; the loop calls `Send` exactly once for it, with the
response that wraps that completion (for a Parse with the readme of the work
directory attached); when that `Send` succeeds the loop goes on with the messages
after the Cancel, and when it fails `handleRequests` returns the send error. -/
theorem cancel_during_phase_answered {σ : Type} (s : Session σ) (st0 : LoopState σ)
    (fuel : Nat) (req m : Request) (rest : List Request) (call : Call) (observed : Bool)
    (hreq : st0.requests = req :: m :: rest) (hcall : req.call = some call)
    (hgate : ∀ a, call = Call.Apply a → st0.planned = true)
    (hrace : st0.races.headD Race.resultFirst = Race.messageFirst observed)
    (hcancel : m.GetCancel = true) :
    (∀ (R C : Type) (r : request σ R C) (tag : R → Call) (done : C → Complete),
      r.do tag done s { st0 with requests := m :: rest } =
        { complete := (r.serverFn st0.backend st0.fs r.req observed).complete
          err := none
          state :=
            { st0 with requests := rest, races := st0.races.tail,
                       backend := (r.serverFn st0.backend st0.fs r.req observed).state,
                       fs := (r.serverFn st0.backend st0.fs r.req observed).fs,
                       sends := (s.provisionLogs st0.sends
                         (r.serverFn st0.backend st0.fs r.req observed).logs).1 }
          events := [Event.invoke (tag r.req), Event.interrupt (some m), Event.closeNotify]
            ++ (s.provisionLogs st0.sends (r.serverFn st0.backend st0.fs r.req observed).logs).2
            ++ [Event.complete (done (r.serverFn st0.backend st0.fs r.req observed).complete)] })
    ∧ handleLoop s (fuel + 1) st0 =
      (match s.stream.sendErr
          (s.provisionLogs st0.sends (s.server.run st0.backend st0.fs call observed).logs).1 with
       | some e =>
         { err := some (Err.sendResponse e),
           events := Event.take req :: Event.invoke call :: Event.interrupt (some m)
             :: Event.closeNotify ::
             ((s.provisionLogs st0.sends (s.server.run st0.backend st0.fs call observed).logs).2
               ++ [Event.complete (s.server.run st0.backend st0.fs call observed).complete]
               ++ [Event.send
                    (((s.server.run st0.backend st0.fs call observed).complete.withReadme
                      (s.server.run st0.backend st0.fs call observed).fs s.WorkDirectory).response)
                    (some e)]) }
       | none =>
         { err := (handleLoop s fuel
              { requests := rest, races := st0.races.tail,
                backend := (s.server.run st0.backend st0.fs call observed).state,
                fs := (s.server.run st0.backend st0.fs call observed).fs,
                sends := (s.provisionLogs st0.sends
                  (s.server.run st0.backend st0.fs call observed).logs).1 + 1,
                planned := plannedAfter st0.planned
                  (s.server.run st0.backend st0.fs call observed).complete }).err,
           events := (Event.take req :: Event.invoke call :: Event.interrupt (some m)
             :: Event.closeNotify ::
             ((s.provisionLogs st0.sends (s.server.run st0.backend st0.fs call observed).logs).2
               ++ [Event.complete (s.server.run st0.backend st0.fs call observed).complete]
               ++ [Event.send
                    (((s.server.run st0.backend st0.fs call observed).complete.withReadme
                      (s.server.run st0.backend st0.fs call observed).fs s.WorkDirectory).response)
                    none]))
             ++ (handleLoop s fuel
              { requests := rest, races := st0.races.tail,
                backend := (s.server.run st0.backend st0.fs call observed).state,
                fs := (s.server.run st0.backend st0.fs call observed).fs,
                sends := (s.provisionLogs st0.sends
                  (s.server.run st0.backend st0.fs call observed).logs).1 + 1,
                planned := plannedAfter st0.planned
                  (s.server.run st0.backend st0.fs call observed).complete }).events }) := by
  constructor
  · intro R C r tag done
    rw [do_messageFirst r tag done s { st0 with requests := m :: rest } observed hrace]
    simp [interruptErr_cancel m hcancel]
  · have hstep := handleRequest_messageFirst s { st0 with requests := m :: rest } req call
      observed hcall hgate hrace
    simp only [List.head?_cons, interruptErr_cancel m hcancel, List.tail_cons] at hstep
    rw [sendResponse_eq] at hstep
    cases hs : s.stream.sendErr
        (s.provisionLogs st0.sends (s.server.run st0.backend st0.fs call observed).logs).1 with
    | some e =>
      simp only [hs] at hstep
      rw [handleLoop_ret s fuel st0 hreq hstep]
      simp
    | none =>
      simp only [hs] at hstep
      rw [handleLoop_next s fuel st0 hreq hstep]
      simp

/-- Witness of the amended C5: a Plan is outstanding when the Cancel comes; the stream
works. -/
theorem cancel_during_phase_answered_witness :
    handleLoop sampleSession 3
        { requests := [{ Type_ := some (RequestType.Plan { payload := [] }) },
                       { Type_ := some RequestType.Cancel },
                       { Type_ := some (RequestType.Apply { payload := [] }) }],
          races := [Race.messageFirst true], backend := (), fs := sampleFS, sends := 0,
          planned := false }
      = { err := none,
          events :=
            [Event.take { Type_ := some (RequestType.Plan { payload := [] }) },
             Event.invoke (Call.Plan { payload := [] }),
             Event.interrupt (some { Type_ := some RequestType.Cancel }),
             Event.closeNotify,
             Event.complete (Complete.Plan { Error := "", payload := [9] }),
             Event.send { Type_ := some (ResponseType.Plan { Error := "", payload := [9] }) } none,
             Event.take { Type_ := some (RequestType.Apply { payload := [] }) },
             Event.invoke (Call.Apply { payload := [] }),
             Event.complete (Complete.Apply { Error := "", payload := [3] }),
             Event.closeNotify,
             Event.send { Type_ := some (ResponseType.Apply { Error := "", payload := [3] }) }
               none] } :=
  (cancel_during_phase_answered sampleSession
    { requests := [{ Type_ := some (RequestType.Plan { payload := [] }) },
                   { Type_ := some RequestType.Cancel },
                   { Type_ := some (RequestType.Apply { payload := [] }) }],
      races := [Race.messageFirst true], backend := (), fs := sampleFS, sends := 0,
      planned := false }
    2 { Type_ := some (RequestType.Plan { payload := [] }) } { Type_ := some RequestType.Cancel }
    [{ Type_ := some (RequestType.Apply { payload := [] }) }] (Call.Plan { payload := [] }) true
    (by decide) (by decide) (by intro a h; cases h) (by decide) (by decide)).2.trans (by decide)

/-- C6. A Parse, Plan or Apply (past the gate) is outstanding and what the `select` of
`do` receives before the result is not a Cancel: another request, a message without
payload, or the nil of the closed channel. Then `do` still receives the backend's
completion and returns it with a non-nil error (`got nil ...` for the closed
channel, `got new request ...` otherwise); `handleRequests` returns that error, and
its events end with the completion: no `Send` follows, and the only `Send` calls of
the iteration are the Log lines of the backend. -/
theorem request_during_phase_fatal {σ : Type} (s : Session σ) (st0 : LoopState σ)
    (fuel : Nat) (req : Request) (rest : List Request) (call : Call) (observed : Bool)
    (hreq : st0.requests = req :: rest) (hcall : req.call = some call)
    (hgate : ∀ a, call = Call.Apply a → st0.planned = true)
    (hrace : st0.races.headD Race.resultFirst = Race.messageFirst observed)
    (hmsg : chanGetCancel rest.head? = false) :
    (∀ (R C : Type) (r : request σ R C) (tag : R → Call) (done : C → Complete),
      (r.do tag done s { st0 with requests := rest }).complete
          = (r.serverFn st0.backend st0.fs r.req observed).complete
      ∧ (r.do tag done s { st0 with requests := rest }).err
          = some (strayErr rest.head?)
      ∧ (r.do tag done s { st0 with requests := rest }).events
          = [Event.invoke (tag r.req), Event.interrupt rest.head?, Event.closeNotify]
            ++ (s.provisionLogs st0.sends (r.serverFn st0.backend st0.fs r.req observed).logs).2
            ++ [Event.complete (done (r.serverFn st0.backend st0.fs r.req observed).complete)])
    ∧ handleLoop s (fuel + 1) st0 =
        { err := some (strayErr rest.head?),
          events := Event.take req :: Event.invoke call :: Event.interrupt rest.head?
            :: Event.closeNotify ::
            ((s.provisionLogs st0.sends (s.server.run st0.backend st0.fs call observed).logs).2
              ++ [Event.complete (s.server.run st0.backend st0.fs call observed).complete]) }
    ∧ (∀ resp e, Event.send resp e ∈ (handleLoop s (fuel + 1) st0).events →
        ∃ l, resp = { Type_ := some (ResponseType.Log l) })
    ∧ strayErr none = Err.gotNil
    ∧ (∀ m, strayErr (some m) = Err.gotNewRequest m.typeName) := by
  have hloop : handleLoop s (fuel + 1) st0 =
        { err := some (strayErr rest.head?),
          events := Event.take req :: Event.invoke call :: Event.interrupt rest.head?
            :: Event.closeNotify ::
            ((s.provisionLogs st0.sends (s.server.run st0.backend st0.fs call observed).logs).2
              ++ [Event.complete (s.server.run st0.backend st0.fs call observed).complete]) } := by
    have hstep := handleRequest_messageFirst s { st0 with requests := rest } req call
      observed hcall hgate hrace
    simp only [interruptErr_other _ hmsg] at hstep
    rw [handleLoop_ret s fuel st0 hreq hstep]
  refine ⟨?_, hloop, ?_, rfl, fun _ => rfl⟩
  · intro R C r tag done
    rw [do_messageFirst r tag done s { st0 with requests := rest } observed hrace]
    simp [interruptErr_other _ hmsg]
  · intro resp e hmem
    rw [hloop] at hmem
    simp only [List.mem_cons, List.mem_append, List.mem_singleton, reduceCtorEq, false_or,
      or_false, List.not_mem_nil] at hmem
    obtain ⟨l, err, h⟩ := provisionLogs_send s _ _ _ hmem
    exact ⟨l, (Event.send.inj h).1⟩

/-- Witness of C6: a Parse is outstanding when a Plan request arrives. -/
theorem request_during_phase_fatal_witness :
    handleLoop sampleSession 3
        { requests := [{ Type_ := some (RequestType.Parse { payload := [] }) },
                       { Type_ := some (RequestType.Plan { payload := [] }) }],
          races := [Race.messageFirst false], backend := (), fs := sampleFS, sends := 0,
          planned := false }
      = { err := some (Err.gotNewRequest "*proto.Request_Plan"),
          events :=
            [Event.take { Type_ := some (RequestType.Parse { payload := [] }) },
             Event.invoke (Call.Parse { payload := [] }),
             Event.interrupt (some { Type_ := some (RequestType.Plan { payload := [] }) }),
             Event.closeNotify,
             Event.send { Type_ := some (ResponseType.Log { Level := 2, Output := "parsing" }) }
               none,
             Event.complete (Complete.Parse { Error := "", Readme := [], payload := [1] })] } :=
  (request_during_phase_fatal sampleSession
    { requests := [{ Type_ := some (RequestType.Parse { payload := [] }) },
                   { Type_ := some (RequestType.Plan { payload := [] }) }],
      races := [Race.messageFirst false], backend := (), fs := sampleFS, sends := 0,
      planned := false }
    2 { Type_ := some (RequestType.Parse { payload := [] }) }
    [{ Type_ := some (RequestType.Plan { payload := [] }) }] (Call.Parse { payload := [] }) false
    (by decide) (by decide) (by intro a h; cases h) (by decide) (by decide)).2.1.trans (by decide)

/-! ## Parse, Plan, Apply from end to end -/

theorem provisionLogs_nonLog {σ : Type} (s : Session σ) (logs : List (Int × String)) (n : Nat) :
    (s.provisionLogs n logs).2.filterMap Event.nonLog = [] := by
  rw [List.filterMap_eq_nil_iff]
  intro e he
  obtain ⟨l, err, h⟩ := provisionLogs_send s logs n e he
  rw [h]
  rfl

theorem requestReader_three (a b c : Request) (closure : List (Except String Request))
    (hclosure : closure = [] ∨ ∃ e rest, closure = Except.error e :: rest) :
    requestReader ([Except.ok a, Except.ok b, Except.ok c] ++ closure) = [a, b, c] := by
  rcases hclosure with h | ⟨e, rest, h⟩ <;> simp [h, requestReader]

theorem races_resultFirst (races : List Race)
    (h : ∀ i, i < 3 → races.getD i Race.resultFirst = Race.resultFirst) :
    races.headD Race.resultFirst = Race.resultFirst
      ∧ races.tail.headD Race.resultFirst = Race.resultFirst
      ∧ races.tail.tail.headD Race.resultFirst = Race.resultFirst := by
  rcases races with _ | ⟨r1, _ | ⟨r2, _ | ⟨r3, rs⟩⟩⟩
  · simp
  · have := h 0 (by omega); simp_all
  · have h0 := h 0 (by omega); have h1 := h 1 (by omega); simp_all
  · have h0 := h 0 (by omega); have h1 := h 1 (by omega); have h2 := h 2 (by omega)
    simp_all

/-- C7, counterexample. The requests Parse, Plan, Apply, each result before the next
message, the Plan completing without error. On a stream whose `Send` fails,
`handleRequests` makes one `Send` call for a non-Log response and returns the send
error; and on a working stream, with a `README.md` in the work directory, the first
response carries the file's content as `Readme`, which the completion returned by
the backend did not. -/
theorem parse_plan_apply_send_failure_and_readme :
    (handleRequests brokenSession
        [received (RequestType.Parse { payload := [] }),
         received (RequestType.Plan { payload := [] }),
         received (RequestType.Apply { payload := [] })] [] () sampleFS 0)
      = { err := some (Err.sendResponse "broken pipe"),
          events :=
            [Event.take { Type_ := some (RequestType.Parse { payload := [] }) },
             Event.invoke (Call.Parse { payload := [] }),
             Event.send { Type_ := some (ResponseType.Log { Level := 2, Output := "parsing" }) }
               (some "broken pipe"),
             Event.complete (Complete.Parse { Error := "", Readme := [], payload := [1] }),
             Event.closeNotify,
             Event.send { Type_ := some (ResponseType.Parse
               { Error := "", Readme := [104, 105], payload := [1] }) } (some "broken pipe")] }
    ∧ (handleRequests sampleSession
        [received (RequestType.Parse { payload := [] }),
         received (RequestType.Plan { payload := [] }),
         received (RequestType.Apply { payload := [] })] [] () sampleFS 0).events.filterMap
          Event.nonLog
      = [{ Type_ := some (ResponseType.Parse { Error := "", Readme := [104, 105], payload := [1] }) },
         { Type_ := some (ResponseType.Plan { Error := "", payload := [2] }) },
         { Type_ := some (ResponseType.Apply { Error := "", payload := [3] }) }]
    ∧ (sampleServer.Parse () sampleFS { payload := [] } false).complete
      = { Error := "", Readme := [], payload := [1] } := by
  decide

/-- C7, amended. On a stream whose `Send` calls all succeed, for every backend whose
Plan completes with an empty `Error`: the requests Parse, Plan, Apply followed by
the end of the stream, each backend result coming before the next message, make
`handleRequests` send exactly three non-Log responses, in the order Parse, Plan,
Apply, each wrapping the completion the backend returned for that request (the one
of Parse with the readme of the work directory attached), and return nil. -/
theorem parse_plan_apply_answered_in_order {σ : Type} (s : Session σ)
    (parse : ParseRequest) (plan : PlanRequest) (apply : ApplyRequest)
    (closure : List (Except String Request)) (races : List Race) (backend : σ) (fs : FS)
    (sends : Nat)
    (hclosure : closure = [] ∨ ∃ e rest, closure = Except.error e :: rest)
    (hraces : ∀ i, i < 3 → races.getD i Race.resultFirst = Race.resultFirst)
    (hsend : ∀ n, s.stream.sendErr n = none)
    (hplan : (s.server.Plan (s.server.Parse backend fs parse false).state
                (s.server.Parse backend fs parse false).fs plan false).complete.Error = "") :
    (handleRequests s
        ([Except.ok { Type_ := some (RequestType.Parse parse) },
          Except.ok { Type_ := some (RequestType.Plan plan) },
          Except.ok { Type_ := some (RequestType.Apply apply) }] ++ closure)
        races backend fs sends).err = none
    ∧ (handleRequests s
        ([Except.ok { Type_ := some (RequestType.Parse parse) },
          Except.ok { Type_ := some (RequestType.Plan plan) },
          Except.ok { Type_ := some (RequestType.Apply apply) }] ++ closure)
        races backend fs sends).events.filterMap Event.nonLog
      = [{ Type_ := some (ResponseType.Parse
            (attachReadme (s.server.Parse backend fs parse false).fs s.WorkDirectory
              (s.server.Parse backend fs parse false).complete)) },
         { Type_ := some (ResponseType.Plan
            (s.server.Plan (s.server.Parse backend fs parse false).state
              (s.server.Parse backend fs parse false).fs plan false).complete) },
         { Type_ := some (ResponseType.Apply
            (s.server.Apply
              (s.server.Plan (s.server.Parse backend fs parse false).state
                (s.server.Parse backend fs parse false).fs plan false).state
              (s.server.Plan (s.server.Parse backend fs parse false).state
                (s.server.Parse backend fs parse false).fs plan false).fs
              apply false).complete) }] := by
  obtain ⟨hr0, hr1, hr2⟩ := races_resultFirst races hraces
  unfold handleRequests
  rw [requestReader_three _ _ _ closure hclosure]
  simp only [List.length_cons, List.length_nil]
  -- Parse
  have h1 := handleRequest_resultFirst s
    { requests := [{ Type_ := some (RequestType.Plan plan) },
                   { Type_ := some (RequestType.Apply apply) }],
      races := races, backend := backend, fs := fs, sends := sends, planned := false }
    { Type_ := some (RequestType.Parse parse) } (Call.Parse parse) rfl
    (by intro a h; cases h) hr0
  rw [sendResponse_eq] at h1
  simp only [hsend] at h1
  rw [handleLoop_next s _ _ rfl h1]
  -- Plan
  have h2 := handleRequest_resultFirst s
    { requests := [{ Type_ := some (RequestType.Apply apply) }],
      races := races.tail, backend := (s.server.run backend fs (Call.Parse parse) false).state,
      fs := (s.server.run backend fs (Call.Parse parse) false).fs,
      sends := (s.provisionLogs sends (s.server.run backend fs (Call.Parse parse) false).logs).1 + 1,
      planned := plannedAfter false (s.server.run backend fs (Call.Parse parse) false).complete }
    { Type_ := some (RequestType.Plan plan) } (Call.Plan plan) rfl
    (by intro a h; cases h) hr1
  rw [sendResponse_eq] at h2
  simp only [hsend] at h2
  rw [handleLoop_next s _ _ rfl h2]
  -- Apply
  have hplanned : plannedAfter
      (plannedAfter false (s.server.run backend fs (Call.Parse parse) false).complete)
      (s.server.run (s.server.run backend fs (Call.Parse parse) false).state
        (s.server.run backend fs (Call.Parse parse) false).fs (Call.Plan plan) false).complete
      = true := by
    simp [Server.run, plannedAfter, hplan]
  have h3 := handleRequest_resultFirst s
    { requests := [],
      races := races.tail.tail,
      backend := (s.server.run (s.server.run backend fs (Call.Parse parse) false).state
        (s.server.run backend fs (Call.Parse parse) false).fs (Call.Plan plan) false).state,
      fs := (s.server.run (s.server.run backend fs (Call.Parse parse) false).state
        (s.server.run backend fs (Call.Parse parse) false).fs (Call.Plan plan) false).fs,
      sends := (s.provisionLogs
        ((s.provisionLogs sends (s.server.run backend fs (Call.Parse parse) false).logs).1 + 1)
        (s.server.run (s.server.run backend fs (Call.Parse parse) false).state
          (s.server.run backend fs (Call.Parse parse) false).fs (Call.Plan plan) false).logs).1 + 1,
      planned := plannedAfter
        (plannedAfter false (s.server.run backend fs (Call.Parse parse) false).complete)
        (s.server.run (s.server.run backend fs (Call.Parse parse) false).state
          (s.server.run backend fs (Call.Parse parse) false).fs (Call.Plan plan) false).complete }
    { Type_ := some (RequestType.Apply apply) } (Call.Apply apply) rfl
    (by intro a _; exact hplanned) hr2
  rw [sendResponse_eq] at h3
  simp only [hsend] at h3
  rw [handleLoop_next s _ _ rfl h3, handleLoop_nil s _ _ rfl]
  refine ⟨rfl, ?_⟩
  simp [List.filterMap_append, List.filterMap_cons, provisionLogs_nonLog, Event.nonLog,
    Server.run, Complete.withReadme, Complete.response]

/-- Witness of the amended C7, on the sample backend and a working stream. -/
theorem parse_plan_apply_answered_in_order_witness :
    (handleRequests sampleSession
        ([Except.ok { Type_ := some (RequestType.Parse { payload := [] }) },
          Except.ok { Type_ := some (RequestType.Plan { payload := [] }) },
          Except.ok { Type_ := some (RequestType.Apply { payload := [] }) }] ++ [])
        [] () sampleFS 0).err = none
    ∧ (handleRequests sampleSession
        ([Except.ok { Type_ := some (RequestType.Parse { payload := [] }) },
          Except.ok { Type_ := some (RequestType.Plan { payload := [] }) },
          Except.ok { Type_ := some (RequestType.Apply { payload := [] }) }] ++ [])
        [] () sampleFS 0).events.filterMap Event.nonLog
      = [{ Type_ := some (ResponseType.Parse
            { Error := "", Readme := [104, 105], payload := [1] }) },
         { Type_ := some (ResponseType.Plan { Error := "", payload := [2] }) },
         { Type_ := some (ResponseType.Apply { Error := "", payload := [3] }) }] :=
  parse_plan_apply_answered_in_order sampleSession { payload := [] } { payload := [] }
    { payload := [] } [] [] () sampleFS 0 (Or.inl rfl) (by intro i _; rfl) (fun _ => rfl)
    (by decide)

/-! ## A receive error while the loop waits -/

theorem requestReader_error (msgs : List Request) (e : String)
    (rest : List (Except String Request)) :
    requestReader (msgs.map Except.ok ++ Except.error e :: rest) = msgs := by
  induction msgs with
  | nil => rfl
  | cons m msgs ih => simp [requestReader, ih]

theorem requestReader_ok (msgs : List Request) :
    requestReader (msgs.map Except.ok) = msgs := by
  induction msgs with
  | nil => rfl
  | cons m msgs ih => simp [requestReader, ih]

/-- C9, counterexample. The Config is received and the next `Recv` fails with a
garbled message while the request loop waits for its first request: the session
handler returns nil. -/
theorem garbled_receive_returns_nil :
    (sampleProtoServer.Session { sendErr := fun _ => none }
        [Except.ok sampleConfig, Except.error "garbled message"] sampleHost)
      = { panicked := none, err := none, removed := [], ops := [], events := [] } := by
  decide

/-- C9, amended. A `Recv` error of any kind, a garbled message as much as the normal
end of the stream, only stops the reader and closes the channel: the run of
`handleRequests` is the one it would be had the stream ended normally at that
point, whatever `Recv` would return later, and the same holds for the session
handler after its Config; in particular a loop that is waiting for its next
request when the error comes ends there and returns nil. -/
theorem receive_error_ends_loop_like_end_of_stream {σ : Type} (s : Session σ)
    (p : protoServer σ) (host : Host σ) (stream : Stream)
    (first : Request) (msgs : List Request) (e : String)
    (rest : List (Except String Request)) (races : List Race) (backend : σ) (fs : FS)
    (sends : Nat) (fuel : Nat) (st : LoopState σ) :
    handleRequests s (msgs.map Except.ok ++ Except.error e :: rest) races backend fs sends
        = handleRequests s (msgs.map Except.ok) races backend fs sends
    ∧ handleRequests s (Except.error e :: rest) races backend fs sends
        = { err := none, events := [] }
    ∧ handleLoop s fuel { st with requests := requestReader (Except.error e :: rest) }
        = { err := none, events := [] }
    ∧ p.Session stream (Except.ok first :: (msgs.map Except.ok ++ Except.error e :: rest)) host
        = p.Session stream (Except.ok first :: msgs.map Except.ok) host := by
  refine ⟨?_, ?_, ?_, ?_⟩
  · unfold handleRequests
    rw [requestReader_error, requestReader_ok]
  · rfl
  · cases fuel <;> rfl
  · unfold protoServer.Session
    simp only [handleRequests, requestReader_error, requestReader_ok]

/-! ## Paths -/

theorem splitPath_ne_nil (p : List Char) : splitPath p ≠ [] := by
  cases p with
  | nil => simp [splitPath]
  | cons c cs =>
    simp only [splitPath]
    split <;> simp

theorem splitPath_append (a b : List Char) :
    splitPath (a ++ '/' :: b) = splitPath a ++ splitPath b := by
  induction a with
  | nil => simp [splitPath]
  | cons c a ih =>
    cases ha : splitPath a with
    | nil => exact absurd ha (splitPath_ne_nil a)
    | cons part parts =>
      have e : splitPath (c :: (a ++ '/' :: b)) =
          (if c = '/' then [] :: splitPath (a ++ '/' :: b)
           else (c :: (splitPath (a ++ '/' :: b)).headD []) :: (splitPath (a ++ '/' :: b)).tail) :=
        rfl
      rw [List.cons_append, e, ih, ha]
      simp only [splitPath, ha]
      split <;> simp

theorem splitPath_no_sep (p : List Char) : ∀ part ∈ splitPath p, '/' ∉ part := by
  induction p with
  | nil => simp [splitPath]
  | cons c cs ih =>
    cases hs : splitPath cs with
    | nil => exact absurd hs (splitPath_ne_nil cs)
    | cons part parts =>
      rw [hs] at ih
      simp only [splitPath, hs]
      split
      · intro q hq
        simp only [List.mem_cons] at hq
        rcases hq with hq | hq | hq
        · simp [hq]
        · exact ih q (by simp [hq])
        · exact ih q (by simp [hq])
      · rename_i hc
        intro q hq
        simp only [List.mem_cons, List.headD_cons, List.tail_cons] at hq
        rcases hq with hq | hq
        · rw [hq]
          simp only [List.mem_cons, not_or]
          exact ⟨fun h => hc h.symm, ih part (by simp)⟩
        · exact ih q (by simp [hq])

theorem cleanStep_head_dotdot (stack : List (List Char)) (part : List Char)
    (h : stack.head? = some ['.', '.']) :
    (cleanStep false stack part).head? = some ['.', '.'] := by
  obtain ⟨rest, rfl⟩ : ∃ rest, stack = ['.', '.'] :: rest := by
    cases stack with
    | nil => simp at h
    | cons x xs => simp at h; exact ⟨xs, by rw [h]⟩
  unfold cleanStep
  split
  · rfl
  · split
    · split
      · rename_i last hlast
        split
        · simp
        · rename_i hne
          cases rest with
          | nil => simp at hlast; exact absurd hlast.symm hne
          | cons y ys => simp [List.dropLast]
      · rename_i hlast
        simp at hlast
    · simp

theorem foldl_head_dotdot (parts : List (List Char)) :
    ∀ stack : List (List Char), stack.head? = some ['.', '.'] →
      (parts.foldl (cleanStep false) stack).head? = some ['.', '.'] := by
  induction parts with
  | nil => intro stack h; exact h
  | cons p ps ih =>
    intro stack h
    exact ih _ (cleanStep_head_dotdot stack p h)

/-- Cleaning the elements of a path that never climbs above its start gives the same
on top of any kept elements `S`: those are left alone and only real names are
added. -/
theorem foldl_cleanStep_on_top (rooted : Bool) (S : List (List Char))
    (parts : List (List Char)) :
    ∀ T : List (List Char), (∀ t ∈ T, RealName t) → (∀ p ∈ parts, '/' ∉ p) →
      ['.', '.'] ∉ parts.foldl (cleanStep false) T →
      parts.foldl (cleanStep rooted) (S ++ T) = S ++ parts.foldl (cleanStep false) T
        ∧ ∀ t ∈ parts.foldl (cleanStep false) T, RealName t := by
  induction parts with
  | nil => intro T hT _ _; exact ⟨rfl, hT⟩
  | cons p ps ih =>
    intro T hT hsep hdd
    have hsep2 : ∀ q ∈ ps, '/' ∉ q := fun q hq => hsep q (List.mem_cons_of_mem _ hq)
    simp only [List.foldl_cons] at hdd ⊢
    by_cases h1 : p = [] ∨ p = ['.']
    · have e1 : cleanStep rooted (S ++ T) p = S ++ T := by simp [cleanStep, h1]
      have e2 : cleanStep false T p = T := by simp [cleanStep, h1]
      rw [e1]
      rw [e2] at hdd ⊢
      exact ih T hT hsep2 hdd
    · by_cases h2 : p = ['.', '.']
      · cases hlast : T.getLast? with
        | none =>
          have hnil : T = [] := by simpa using hlast
          subst hnil
          have e2 : cleanStep false [] p = [['.', '.']] := by
            simp [cleanStep, h2]
          rw [e2] at hdd
          have := foldl_head_dotdot ps [['.', '.']] rfl
          exact absurd (List.mem_of_mem_head? this) hdd
        | some last =>
          have hmem : last ∈ T := List.mem_of_mem_getLast? hlast
          have hne : last ≠ ['.', '.'] := (hT last hmem).2.2.1
          have hTne : T ≠ [] := List.ne_nil_of_mem hmem
          have e2 : cleanStep false T p = T.dropLast := by
            simp [cleanStep, h2, hlast, hne]
          have hlast2 : (S ++ T).getLast? = some last := by
            rw [List.getLast?_append_of_ne_nil _ hTne, hlast]
          have e1 : cleanStep rooted (S ++ T) p = S ++ T.dropLast := by
            simp [cleanStep, h2, hlast2, hne, List.dropLast_append_of_ne_nil _ hTne]
          rw [e1]
          rw [e2] at hdd ⊢
          exact ih T.dropLast (fun t ht => hT t (List.dropLast_subset T ht)) hsep2 hdd
      · have e2 : cleanStep false T p = T ++ [p] := by
          simp [cleanStep, h1, h2]
        have e1 : cleanStep rooted (S ++ T) p = S ++ (T ++ [p]) := by
          simp [cleanStep, h1, h2]
        rw [e1]
        rw [e2] at hdd ⊢
        refine ih (T ++ [p]) ?_ hsep2 hdd
        intro t ht
        rcases List.mem_append.mp ht with ht | ht
        · exact hT t ht
        · rw [List.mem_singleton] at ht
          rw [ht]
          push_neg at h1
          exact ⟨h1.1, h1.2, h2, hsep p (List.mem_cons_self _ _)⟩

theorem cleanStep_mem (rooted : Bool) (stack : List (List Char)) (p : List Char) :
    ∀ t ∈ cleanStep rooted stack p, t ∈ stack ∨ t = p := by
  intro t ht
  unfold cleanStep at ht
  split at ht
  · exact Or.inl ht
  · split at ht
    · split at ht
      · split at ht
        · rcases List.mem_append.mp ht with h | h
          · exact Or.inl h
          · exact Or.inr (List.mem_singleton.mp h)
        · exact Or.inl (List.dropLast_subset _ ht)
      · split at ht
        · exact Or.inl ht
        · exact Or.inr (List.mem_singleton.mp ht)
    · rcases List.mem_append.mp ht with h | h
      · exact Or.inl h
      · exact Or.inr (List.mem_singleton.mp h)

theorem foldl_cleanStep_mem (rooted : Bool) (parts : List (List Char)) :
    ∀ stack : List (List Char), ∀ t ∈ parts.foldl (cleanStep rooted) stack,
      t ∈ stack ∨ t ∈ parts := by
  induction parts with
  | nil => intro stack t ht; exact Or.inl ht
  | cons p ps ih =>
    intro stack t ht
    rcases ih _ t ht with h | h
    · rcases cleanStep_mem rooted stack p t h with h2 | h2
      · exact Or.inl h2
      · exact Or.inr (by rw [h2]; exact List.mem_cons_self _ _)
    · exact Or.inr (List.mem_cons_of_mem _ h)

theorem cleanStep_dotdot_first (stack : List (List Char)) (p : List Char)
    (h : ['.', '.'] ∈ stack → stack.head? = some ['.', '.']) :
    ['.', '.'] ∈ cleanStep false stack p →
      (cleanStep false stack p).head? = some ['.', '.'] := by
  intro hmem
  by_cases hin : ['.', '.'] ∈ stack
  · exact cleanStep_head_dotdot stack p (h hin)
  · unfold cleanStep at hmem ⊢
    split
    · rename_i h1; rw [if_pos h1] at hmem; exact absurd hmem hin
    · rename_i h1
      rw [if_neg h1] at hmem
      split
      · rename_i h2
        rw [if_pos h2] at hmem
        cases hl : stack.getLast? with
        | none =>
          have : stack = [] := by simpa using hl
          subst this
          simp [h2]
        | some last =>
          have hne : last ≠ ['.', '.'] := fun e => hin (e ▸ List.mem_of_mem_getLast? hl)
          simp only [hl, hne, if_false] at hmem
          exact absurd (List.dropLast_subset _ hmem) hin
      · rename_i h2
        rw [if_neg h2] at hmem
        rcases List.mem_append.mp hmem with h3 | h3
        · exact absurd h3 hin
        · exact absurd (List.mem_singleton.mp h3).symm h2

theorem foldl_dotdot_first (parts : List (List Char)) :
    ∀ stack : List (List Char), (['.', '.'] ∈ stack → stack.head? = some ['.', '.']) →
      ['.', '.'] ∈ parts.foldl (cleanStep false) stack →
      (parts.foldl (cleanStep false) stack).head? = some ['.', '.'] := by
  induction parts with
  | nil => intro stack h hm; exact h hm
  | cons p ps ih =>
    intro stack h hm
    exact ih _ (cleanStep_dotdot_first stack p h) hm

theorem joinPath_dotdot (rest : List (List Char)) :
    joinPath (['.', '.'] :: rest) = ['.', '.']
      ∨ ∃ tl, joinPath (['.', '.'] :: rest) = '.' :: '.' :: '/' :: tl := by
  cases rest with
  | nil => exact Or.inl rfl
  | cons r rs => exact Or.inr ⟨joinPath (r :: rs), rfl⟩

theorem isPrefixOf_sep (l : List Char) : ['/'].isPrefixOf l = isRooted l := by
  cases l with
  | nil => rfl
  | cons c cs =>
    simp only [List.isPrefixOf, isRooted, List.head?_cons, Bool.and_true]
    by_cases hc : c = '/'
    · subst hc; rfl
    · have h1 : ('/' == c) = false := by
        rw [beq_eq_false_iff_ne]; exact fun h => hc h.symm
      have h2 : decide (some c = some '/') = false :=
        decide_eq_false (fun h => hc (Option.some.inj h))
      rw [h1, h2]

/-- The elements kept of a local path hold no `..`. -/
theorem isLocal_no_dotdot (name : String) (h : IsLocal name = true) :
    ['.', '.'] ∉ pathElems false name.data := by
  intro hmem
  unfold IsLocal at h
  split at h
  · cases h
  · rename_i hfirst
    simp only [Bool.or_eq_true, decide_eq_true_eq, not_or, Bool.not_eq_true] at hfirst
    obtain ⟨habs, hne⟩ := hfirst
    by_cases hd : (splitPath name.data).any (fun part => part = ['.'] || part = ['.', '.']) = true
    · simp only [hd, if_true] at h
      have hhead := foldl_dotdot_first (splitPath name.data) [] (by simp) hmem
      have hdata : name.data ≠ [] := fun e => hne (String.ext e)
      have hroot : isRooted name.data = false := by
        rw [← isPrefixOf_sep]; exact habs
      obtain ⟨rest, hrest⟩ : ∃ rest, pathElems false name.data = ['.', '.'] :: rest := by
        unfold pathElems
        cases hp : (splitPath name.data).foldl (cleanStep false) [] with
        | nil => rw [hp] at hhead; simp at hhead
        | cons x xs =>
          rw [hp] at hhead
          simp only [List.head?_cons, Option.some.injEq] at hhead
          exact ⟨xs, by rw [hhead]⟩
      have hclean : (Clean name).data = joinPath (['.', '.'] :: rest) := by
        simp [Clean, cleanChars, hdata, hroot, hrest, renderPath]
      simp only [Bool.or_eq_true, decide_eq_true_eq] at h
      split at h
      · cases h
      · rename_i hneg
        apply hneg
        rcases joinPath_dotdot rest with hj | ⟨tl, hj⟩
        · left
          exact String.ext (by rw [hclean, hj])
        · right
          simp only [HasPrefix, hclean, hj]
          rw [List.isPrefixOf_iff_prefix]
          exact ⟨tl, rfl⟩
    · have hnone : ['.', '.'] ∉ splitPath name.data := by
        intro hin
        apply hd
        rw [List.any_eq_true]
        exact ⟨_, hin, by decide⟩
      rcases foldl_cleanStep_mem false (splitPath name.data) [] _ hmem with h2 | h2
      · cases h2
      · exact hnone h2

theorem isLocal_relative (name : String) (h : IsLocal name = true) :
    name ≠ "" ∧ isRooted name.data = false := by
  unfold IsLocal at h
  split at h
  · cases h
  · rename_i hfirst
    simp only [Bool.or_eq_true, decide_eq_true_eq, not_or, Bool.not_eq_true] at hfirst
    exact ⟨hfirst.2, by rw [← isPrefixOf_sep]; exact hfirst.1⟩

/-- Joining a directory with a local name gives a path lexically inside the
directory. -/
theorem join_inside (dir name : String) (h : IsLocal name = true) :
    Inside dir (Join dir name) := by
  obtain ⟨hne, hrel⟩ := isLocal_relative name h
  have hdata : name.data ≠ [] := fun e => hne (String.ext e)
  have htop := foldl_cleanStep_on_top (isRooted dir.data) (pathElems (isRooted dir.data) dir.data)
    (splitPath name.data) [] (by intro t ht; cases ht) (splitPath_no_sep name.data)
    (isLocal_no_dotdot name h)
  refine ⟨pathElems false name.data, htop.2, ?_⟩
  unfold Join
  by_cases hd : dir = ""
  · subst hd
    simp only [ne_eq, not_true_eq_false, if_false, hne, not_false_eq_true, if_true]
    simp only [Clean, cleanChars, hdata, if_false, hrel]
    rfl
  · have hddata : dir.data ≠ [] := fun e => hd (String.ext e)
    simp only [ne_eq, hd, not_false_eq_true, if_true]
    have e1 : (dir ++ "/" ++ name).data = dir.data ++ '/' :: name.data := by
      simp [String.data_append]
    have e2 : isRooted (dir.data ++ '/' :: name.data) = isRooted dir.data := by
      cases hdd : dir.data with
      | nil => exact absurd hdd hddata
      | cons c cs => rfl
    have e3 : dir.data ++ '/' :: name.data ≠ [] := by
      intro e
      exact hddata (List.append_eq_nil.mp e).1
    simp only [Clean, e1, cleanChars, e3, if_false, e2]
    congr 1
    unfold pathElems
    rw [splitPath_append, List.foldl_append]
    have := htop.1
    simp only [List.append_nil] at this
    exact this

/-! ## The archive extractor -/

theorem extractEntries_ops (W : String) (trailer : Option String) (entries : List TarEntry) :
    ∀ fs : FS, ∀ op ∈ (extractEntries W trailer entries fs).ops,
      ∃ entry ∈ entries, IsLocal entry.header.Name = true
        ∧ op.path = Join W entry.header.Name
        ∧ HasPrefix op.path (Clean W) = true := by
  induction entries with
  | nil =>
    intro fs op hop
    unfold extractEntries at hop
    split at hop <;> cases hop
  | cons entry rest ih =>
    intro fs op hop
    have lift : (∃ e ∈ rest, IsLocal e.header.Name = true ∧ op.path = Join W e.header.Name
        ∧ HasPrefix op.path (Clean W) = true) →
        ∃ e ∈ entry :: rest, IsLocal e.header.Name = true ∧ op.path = Join W e.header.Name
          ∧ HasPrefix op.path (Clean W) = true := by
      rintro ⟨e, he, h⟩
      exact ⟨e, List.mem_cons_of_mem _ he, h⟩
    unfold extractEntries at hop
    simp only at hop
    split at hop
    · cases hop
    · rename_i hlocal
      replace hlocal : IsLocal entry.header.Name = true := by simpa using hlocal
      split at hop
      · cases hop
      · rename_i hpfx
        replace hpfx : HasPrefix (Join W entry.header.Name) (Clean W) = true := by
          simpa using hpfx
        have here : ∀ o : FsOp, op = o → o.path = Join W entry.header.Name →
            ∃ e ∈ entry :: rest, IsLocal e.header.Name = true ∧ op.path = Join W e.header.Name
              ∧ HasPrefix op.path (Clean W) = true := by
          intro o hop ho
          subst hop
          exact ⟨entry, List.mem_cons_self _ _, hlocal, ho, by rw [ho]; exact hpfx⟩
        split at hop
        · split at hop
          · simp only [List.mem_singleton] at hop
            exact here _ hop rfl
          · simp only [List.mem_cons] at hop
            rcases hop with hop | hop
            · exact here _ hop rfl
            · exact lift (ih _ op hop)
        · split at hop
          · split at hop
            · simp only [List.mem_singleton] at hop
              exact here _ hop rfl
            · split at hop
              · simp only [List.mem_cons, List.mem_singleton, List.not_mem_nil, or_false] at hop
                rcases hop with hop | hop | hop
                · exact here _ hop rfl
                · exact here _ hop rfl
                · exact here _ hop rfl
              · simp only [List.mem_cons] at hop
                rcases hop with hop | hop | hop | hop
                · exact here _ hop rfl
                · exact here _ hop rfl
                · exact here _ hop rfl
                · exact lift (ih _ op hop)
          · exact lift (ih _ op hop)

theorem extractEntries_stops_at_nonLocal (W : String) (trailer : Option String)
    (pre : List TarEntry) (entry : TarEntry) (post : List TarEntry)
    (hentry : IsLocal entry.header.Name = false) :
    ∀ fs : FS,
      (extractEntries W trailer (pre ++ entry :: post) fs).ops
          = (extractEntries W none pre fs).ops
      ∧ (extractEntries W trailer (pre ++ entry :: post) fs).fs
          = (extractEntries W none pre fs).fs
      ∧ (extractEntries W trailer (pre ++ entry :: post) fs).err
          = (match (extractEntries W none pre fs).err with
             | some e => some e
             | none => some ExtractErr.nonLocalPath) := by
  induction pre with
  | nil =>
    intro fs
    simp [extractEntries, hentry]
  | cons p pre ih =>
    intro fs
    simp only [List.cons_append]
    unfold extractEntries
    simp only
    split
    · simp
    · split
      · simp
      · split
        · split
          · simp
          · simp [ih]
        · split
          · split
            · simp
            · split
              · simp
              · simp [ih]
          · exact ih fs

/-- C3. Every filesystem call of `extractArchive` (`MkdirAll`, `OpenFile`, the writes
and the close) is made on the join of `WorkDirectory` with the name of an entry
that is local; that path has the cleaned `WorkDirectory` as a prefix and lies
lexically inside it: it is the cleaned work directory followed by real names, none
of them `..`. And an entry whose name is not local stops everything: an error is
returned (the non-local one unless an earlier entry already failed), and the
filesystem calls and the resulting filesystem are those of the entries before it
alone, so nothing is done for that entry or any later one. -/
theorem extract_stays_inside_work_directory (WorkDirectory : String) (archive : TarStream)
    (fs : FS) :
    (∀ op ∈ (extractArchive WorkDirectory archive fs).ops,
      ∃ entry ∈ archive.entries, IsLocal entry.header.Name = true
        ∧ op.path = Join WorkDirectory entry.header.Name
        ∧ HasPrefix op.path (Clean WorkDirectory) = true
        ∧ Inside WorkDirectory op.path)
    ∧ (∀ (pre : List TarEntry) (entry : TarEntry) (post : List TarEntry),
        archive.entries = pre ++ entry :: post → IsLocal entry.header.Name = false →
        (extractArchive WorkDirectory archive fs).err ≠ none
        ∧ ((extractArchive WorkDirectory { entries := pre, trailer := none } fs).err = none →
            (extractArchive WorkDirectory archive fs).err = some ExtractErr.nonLocalPath)
        ∧ (extractArchive WorkDirectory archive fs).ops
            = (extractArchive WorkDirectory { entries := pre, trailer := none } fs).ops
        ∧ (extractArchive WorkDirectory archive fs).fs
            = (extractArchive WorkDirectory { entries := pre, trailer := none } fs).fs) := by
  constructor
  · intro op hop
    obtain ⟨entry, he, h1, h2, h3⟩ := extractEntries_ops WorkDirectory archive.trailer
      archive.entries fs op hop
    exact ⟨entry, he, h1, h2, h3, h2 ▸ join_inside WorkDirectory entry.header.Name h1⟩
  · intro pre entry post hsplit hentry
    obtain ⟨h1, h2, h3⟩ := extractEntries_stops_at_nonLocal WorkDirectory archive.trailer pre
      entry post hentry fs
    unfold extractArchive
    simp only
    rw [hsplit]
    refine ⟨?_, ?_, h1, h2⟩
    · rw [h3]
      split <;> simp
    · intro hnone
      rw [h3, hnone]

/-- Witness of C3 on the sample archive: the directory and the file in it are
extracted, the entry `../evil` stops the extraction, the file after it is not
touched. -/
theorem extract_stays_inside_work_directory_witness :
    (extractArchive "/w/Session1" sampleArchive sampleFS).err = some ExtractErr.nonLocalPath
    ∧ (extractArchive "/w/Session1" sampleArchive sampleFS).ops
        = [FsOp.MkdirAll "/w/Session1/a" (2 ^ 31 + 0o755),
           FsOp.OpenFile "/w/Session1/a/f.txt" 0o644,
           FsOp.Write "/w/Session1/a/f.txt" [1, 2],
           FsOp.Close "/w/Session1/a/f.txt"] :=
  have h := (extract_stays_inside_work_directory "/w/Session1" sampleArchive sampleFS).2
    (sampleArchive.entries.take 2) { header := { Typeflag := TypeReg, Name := "../evil", Mode := 0o644 }, body := [6, 6, 6], bodyErr := none }
    [{ header := { Typeflag := TypeReg, Name := "b", Mode := 0o644 }, body := [3], bodyErr := none }]
    (by decide) (by decide)
  ⟨h.2.1 (by decide), h.2.2.1.trans (by decide)⟩

theorem joinPath_prefix (S T : List (List Char)) : joinPath S <+: joinPath (S ++ T) := by
  induction S with
  | nil => exact List.nil_prefix
  | cons p S ih =>
    cases S with
    | nil =>
      cases T with
      | nil => exact List.prefix_rfl
      | cons t T => exact ⟨'/' :: joinPath (t :: T), rfl⟩
    | cons q S =>
      obtain ⟨tl, htl⟩ := ih
      refine ⟨tl, ?_⟩
      show (p ++ '/' :: joinPath (q :: S)) ++ tl = p ++ '/' :: joinPath (q :: S ++ T)
      rw [← htl]
      simp

/-- In a work directory that is absolute, or that keeps at least one element when
cleaned, the prefix check of the extractor passes for every local name. -/
theorem prefix_check_passes (dir name : String) (h : IsLocal name = true)
    (hdir : isRooted dir.data = true ∨ pathElems false dir.data ≠ []) :
    HasPrefix (Join dir name) (Clean dir) = true := by
  obtain ⟨names, -, hjoin⟩ := join_inside dir name h
  have hne : dir.data ≠ [] := by
    intro e
    rw [e] at hdir
    rcases hdir with h1 | h1
    · cases h1
    · exact h1 rfl
  unfold HasPrefix
  rw [List.isPrefixOf_iff_prefix, hjoin]
  simp only [Clean, cleanChars, hne, if_false]
  cases hr : isRooted dir.data with
  | true =>
    simp only [renderPath, if_true]
    obtain ⟨tl, htl⟩ := joinPath_prefix (pathElems true dir.data) names
    exact ⟨tl, by rw [← htl]; rfl⟩
  | false =>
    rw [hr] at hdir
    have hS : pathElems false dir.data ≠ [] := by
      rcases hdir with h1 | h1
      · cases h1
      · exact h1
    have hS2 : pathElems false dir.data ++ names ≠ [] := by
      intro e
      exact hS (List.append_eq_nil.mp e).1
    simp only [renderPath, Bool.false_eq_true, if_false, hS, hS2]
    exact joinPath_prefix _ _

theorem copyN_intact (body : List UInt8) (n : Nat) :
    (CopyN body none n).1 = body.take n
      ∧ ((CopyN body none n).2 = none ∨ (CopyN body none n).2 = some ReadErr.EOF) := by
  unfold CopyN
  simp only
  split <;> simp

/-- A regular-file entry with a local name, in a work directory that passes the
prefix check, whose file can be opened and whose bytes can be read to their end:
the first `maxFileSize` bytes are written and the extraction goes on. -/
theorem extractEntries_regular (W : String) (trailer : Option String) (entry : TarEntry)
    (rest : List TarEntry) (fs fs1 : FS)
    (hreg : entry.header.Typeflag = TypeReg) (hlocal : IsLocal entry.header.Name = true)
    (hpfx : HasPrefix (Join W entry.header.Name) (Clean W) = true)
    (hopen : fs.OpenFile (Join W entry.header.Name)
      (if entry.header.FileInfoMode = 0 then 0o600 else entry.header.FileInfoMode)
        = Except.ok fs1)
    (hbody : entry.bodyErr = none) :
    extractEntries W trailer (entry :: rest) fs =
      { err := (extractEntries W trailer rest
            (fs1.WriteAt0 (Join W entry.header.Name) (entry.body.take maxFileSize))).err,
        fs := (extractEntries W trailer rest
            (fs1.WriteAt0 (Join W entry.header.Name) (entry.body.take maxFileSize))).fs,
        ops := FsOp.OpenFile (Join W entry.header.Name)
            (if entry.header.FileInfoMode = 0 then 0o600 else entry.header.FileInfoMode)
          :: FsOp.Write (Join W entry.header.Name) (entry.body.take maxFileSize)
          :: FsOp.Close (Join W entry.header.Name)
          :: (extractEntries W trailer rest
            (fs1.WriteAt0 (Join W entry.header.Name) (entry.body.take maxFileSize))).ops } := by
  have hnd : TypeReg ≠ TypeDir := by decide
  obtain ⟨hc1, hc2⟩ := copyN_intact entry.body maxFileSize
  rw [extractEntries]
  simp only [hlocal, hpfx, Bool.not_true, Bool.false_eq_true, if_false, hreg, hnd, if_true,
    hopen, hbody, hc1]
  rcases hc2 with hc2 | hc2 <;> simp [hc2]

/-- C4, counterexample. A regular-file entry of 10 MiB + 1 byte, with a local name and
every filesystem call succeeding: `extractArchive` returns no error; it writes the
first 10 MiB and drops the last byte. -/
theorem oversize_file_extracted_without_error :
    (extractArchive "/w/Session1" { entries := [bigEntry (10 * 2 ^ 20 + 1)], trailer := none }
        sampleFS).err = none
    ∧ (extractArchive "/w/Session1" { entries := [bigEntry (10 * 2 ^ 20 + 1)], trailer := none }
        sampleFS).ops
      = [FsOp.OpenFile "/w/Session1/big" 0o644,
         FsOp.Write "/w/Session1/big" (List.replicate (10 * 2 ^ 20) 0),
         FsOp.Close "/w/Session1/big"] := by
  have h := extractEntries_regular "/w/Session1" none (bigEntry (10 * 2 ^ 20 + 1)) [] sampleFS
    (sampleFS.set "/w/Session1/big" (Node.file 0o644 [])) rfl (by decide) (by decide)
    (by decide) rfl
  have htake : (bigEntry (10 * 2 ^ 20 + 1)).body.take maxFileSize
      = List.replicate (10 * 2 ^ 20) 0 := by
    simp only [bigEntry, List.take_replicate]
    congr 1
  have hmode : (if (bigEntry (10 * 2 ^ 20 + 1)).header.FileInfoMode = 0 then 0o600
      else (bigEntry (10 * 2 ^ 20 + 1)).header.FileInfoMode) = 0o644 := by decide
  have hpath : Join "/w/Session1" (bigEntry (10 * 2 ^ 20 + 1)).header.Name = "/w/Session1/big" := by
    decide
  unfold extractArchive
  rw [h, htake, hmode, hpath]
  exact ⟨rfl, rfl⟩

/-- C4, amended. A regular-file entry with a local name, in a work directory that is
absolute or keeps an element when cleaned, whose file can be opened and whose bytes
can be read to their end, is extracted without error whatever the length of its
content: the first `10 * 2^20` bytes are written, which is all of it when it is at
most 10 MiB long (exactly 10 MiB included), and the extraction goes on with the
next entry. -/
theorem regular_file_extracted_up_to_cap (W : String) (trailer : Option String)
    (entry : TarEntry) (rest : List TarEntry) (fs fs1 : FS)
    (hreg : entry.header.Typeflag = TypeReg) (hlocal : IsLocal entry.header.Name = true)
    (hdir : isRooted W.data = true ∨ pathElems false W.data ≠ [])
    (hopen : fs.OpenFile (Join W entry.header.Name)
      (if entry.header.FileInfoMode = 0 then 0o600 else entry.header.FileInfoMode)
        = Except.ok fs1)
    (hbody : entry.bodyErr = none) :
    extractEntries W trailer (entry :: rest) fs =
      { err := (extractEntries W trailer rest
            (fs1.WriteAt0 (Join W entry.header.Name) (entry.body.take maxFileSize))).err,
        fs := (extractEntries W trailer rest
            (fs1.WriteAt0 (Join W entry.header.Name) (entry.body.take maxFileSize))).fs,
        ops := FsOp.OpenFile (Join W entry.header.Name)
            (if entry.header.FileInfoMode = 0 then 0o600 else entry.header.FileInfoMode)
          :: FsOp.Write (Join W entry.header.Name) (entry.body.take maxFileSize)
          :: FsOp.Close (Join W entry.header.Name)
          :: (extractEntries W trailer rest
            (fs1.WriteAt0 (Join W entry.header.Name) (entry.body.take maxFileSize))).ops }
    ∧ (extractArchive W { entries := [entry], trailer := none } fs).err = none
    ∧ maxFileSize = 10 * 2 ^ 20
    ∧ (entry.body.take maxFileSize).length = min (10 * 2 ^ 20) entry.body.length
    ∧ (entry.body.length ≤ 10 * 2 ^ 20 → entry.body.take maxFileSize = entry.body) := by
  have hpfx := prefix_check_passes W entry.header.Name hlocal hdir
  have hmax : maxFileSize = 10 * 2 ^ 20 := by decide
  refine ⟨extractEntries_regular W trailer entry rest fs fs1 hreg hlocal hpfx hopen hbody,
    ?_, hmax, ?_, ?_⟩
  · unfold extractArchive
    rw [extractEntries_regular W none entry [] fs fs1 hreg hlocal hpfx hopen hbody]
    rfl
  · rw [List.length_take, hmax]
  · intro hle
    rw [hmax]
    exact List.take_of_length_le hle

/-- Witness of the amended C4: a file of three bytes in the sample work directory. -/
theorem regular_file_extracted_up_to_cap_witness :
    (extractArchive "/w/Session1"
        { entries := [{ header := { Typeflag := TypeReg, Name := "small", Mode := 0o644 },
                        body := [7, 8, 9], bodyErr := none }],
          trailer := none } sampleFS).err = none :=
  (regular_file_extracted_up_to_cap "/w/Session1" none
    { header := { Typeflag := TypeReg, Name := "small", Mode := 0o644 }, body := [7, 8, 9],
      bodyErr := none } [] sampleFS
    (sampleFS.set "/w/Session1/small" (Node.file 0o644 [])) rfl (by decide)
    (Or.inl (by decide)) (by decide) rfl).2.1

/-! ## The stale-session janitor -/

theorem isValidSessionDir_prefix (name : String) (h : '/' ∉ name.data) :
    isValidSessionDir name = "Session".data.isPrefixOf name.data := by
  unfold isValidSessionDir
  have hall : (name.data.drop sessionDirPrefix.data.length).all (fun c => c ≠ '/') = true := by
    rw [List.all_eq_true]
    intro c hc
    have hmem : c ∈ name.data := List.mem_of_mem_drop hc
    simp only [ne_eq, decide_not, Bool.not_eq_true', decide_eq_false_iff_not]
    intro e
    exact h (e ▸ hmem)
  rw [hall, Bool.and_true]
  rfl

theorem cleanStep_ne_nil (rooted : Bool) (stack : List (List Char)) (p : List Char)
    (h : ∀ t ∈ stack, t ≠ []) : ∀ t ∈ cleanStep rooted stack p, t ≠ [] := by
  intro t ht
  by_cases hp : p = [] ∨ p = ['.']
  · rw [cleanStep, if_pos hp] at ht
    exact h t ht
  · rcases cleanStep_mem rooted stack p t ht with h1 | h1
    · exact h t h1
    · rw [h1]
      exact fun e => hp (Or.inl e)

theorem foldl_cleanStep_ne_nil (rooted : Bool) (parts : List (List Char)) :
    ∀ stack : List (List Char), (∀ t ∈ stack, t ≠ []) →
      ∀ t ∈ parts.foldl (cleanStep rooted) stack, t ≠ [] := by
  induction parts with
  | nil => intro stack h t ht; exact h t ht
  | cons p ps ih =>
    intro stack h t ht
    exact ih _ (cleanStep_ne_nil rooted stack p h) t ht

theorem joinPath_ne_nil (parts : List (List Char)) (hne : parts ≠ [])
    (h : ∀ t ∈ parts, t ≠ []) : joinPath parts ≠ [] := by
  cases parts with
  | nil => exact absurd rfl hne
  | cons part rest =>
    have hpart : part ≠ [] := h part (List.mem_cons_self _ _)
    cases rest with
    | nil => simp [joinPath, hpart]
    | cons q qs => simp [joinPath, hpart]

theorem cleanChars_ne_nil (path : List Char) : cleanChars path ≠ [] := by
  unfold cleanChars renderPath
  split
  · simp
  · split
    · simp
    · split
      · simp
      · rename_i hout
        exact joinPath_ne_nil _ hout
          (foldl_cleanStep_ne_nil _ _ [] (by simp))

theorem clean_ne_empty (path : String) : Clean path ≠ "" := by
  intro h
  have h2 : (Clean path).data = [] := by rw [h]
  exact cleanChars_ne_nil path.data h2

theorem join_ne_empty (a b : String) (h : b ≠ "") : Join a b ≠ "" := by
  unfold Join
  split_ifs
  · exact clean_ne_empty _
  · exact clean_ne_empty _

theorem logger_info_bare_string (msg s : String) (h : s ≠ "") :
    Logger.Info msg [LogArg.str s] = some (Panic.fieldHasNoValue s) := by
  simp [Logger.Info, Logger.log, h]

theorem isPrefixOf_session_ne_empty (name : String)
    (h : "Session".data.isPrefixOf name.data = true) : name ≠ "" := by
  intro e
  rw [e] at h
  revert h
  decide

theorem cleanEntries_stops_at_stale (workDirectory : String) (now : Int)
    (removeErr : String → Option String)
    (entries : List DirEntry) (hnames : ∀ e ∈ entries, '/' ∉ e.Name.data)
    (hinfo : ∀ e ∈ entries, ∃ fi, e.Info = Except.ok fi) :
    cleanEntries workDirectory now removeErr entries =
      { panicked := ((entries.filter (DirEntry.isStaleSession now)).head?).map
          (fun e => Panic.fieldHasNoValue (Join workDirectory e.Name)),
        err := none, removed := [] } := by
  induction entries with
  | nil => rfl
  | cons entry rest ih =>
    have ih2 := ih (fun e he => hnames e (List.mem_cons_of_mem _ he))
      (fun e he => hinfo e (List.mem_cons_of_mem _ he))
    obtain ⟨fi, hfi⟩ := hinfo entry (List.mem_cons_self _ _)
    have hv := isValidSessionDir_prefix entry.Name (hnames entry (List.mem_cons_self _ _))
    have hret : staleSessionRetention = 7 * 24 * 3600 * 1000000000 := by decide
    unfold cleanEntries
    simp only [hv, hfi, ih2, List.filter_cons, DirEntry.isStaleSession, hret]
    by_cases h1 : entry.IsDir = true
    · by_cases h2 : "Session".data.isPrefixOf entry.Name.data = true
      · by_cases h3 : now < fi.AccessTime + 604800000000000
        · have h4 : ¬ fi.AccessTime + 604800000000000 ≤ now := not_le.mpr h3
          simp [h1, h2, h3, h4]
        · have h4 : fi.AccessTime + 604800000000000 ≤ now := not_lt.mp h3
          have hlog := logger_info_bare_string "remove stale session directory: %s"
            (Join workDirectory entry.Name)
            (join_ne_empty workDirectory entry.Name (isPrefixOf_session_ne_empty _ h2))
          simp [h1, h2, h3, h4, hlog]
      · simp [h1, h2]
    · simp [h1]

/-- C8, what the code does. When the listing of the root and every `Info` succeed,
`cleanStaleSessions` removes nothing at all, whatever `os.RemoveAll` would return:
at the first child that is a directory, has a name starting with `Session` and has
an access time plus seven days that is not after `now`, the logging call that comes
before the removal panics, because it passes the path as a bare string after the
message. So the function ends in a panic as soon as one child is stale, and returns
nil, having removed nothing, only when none is. -/
theorem stale_session_directory_panics_before_removal (entries : List DirEntry)
    (workDirectory : String) (now : Int) (removeErr : String → Option String)
    (hnames : ∀ e ∈ entries, '/' ∉ e.Name.data)
    (hinfo : ∀ e ∈ entries, ∃ fi, e.Info = Except.ok fi) :
    cleanStaleSessions (Except.ok entries) workDirectory now removeErr =
      { panicked := ((entries.filter (DirEntry.isStaleSession now)).head?).map
          (fun e => Panic.fieldHasNoValue (Join workDirectory e.Name)),
        err := none, removed := [] }
    ∧ ((∃ e ∈ entries, ∃ fi, e.IsDir = true ∧ "Session".data.isPrefixOf e.Name.data = true
          ∧ e.Info = Except.ok fi ∧ fi.AccessTime + 7 * 24 * 3600 * 1000000000 ≤ now) →
        (cleanStaleSessions (Except.ok entries) workDirectory now removeErr).panicked ≠ none)
    ∧ ((∀ e ∈ entries, DirEntry.isStaleSession now e = false) →
        cleanStaleSessions (Except.ok entries) workDirectory now removeErr =
          { panicked := none, err := none, removed := [] }) := by
  have heq : cleanStaleSessions (Except.ok entries) workDirectory now removeErr =
      { panicked := ((entries.filter (DirEntry.isStaleSession now)).head?).map
          (fun e => Panic.fieldHasNoValue (Join workDirectory e.Name)),
        err := none, removed := [] } :=
    cleanEntries_stops_at_stale workDirectory now removeErr entries hnames hinfo
  refine ⟨heq, ?_, ?_⟩
  · rintro ⟨e, he, fi, h1, h2, h3, h4⟩
    rw [heq]
    have h5 : fi.AccessTime + 604800000000000 ≤ now := by simpa using h4
    have hst : DirEntry.isStaleSession now e = true := by
      simp [DirEntry.isStaleSession, h1, h2, h3, h5]
    have hmem : e ∈ entries.filter (DirEntry.isStaleSession now) :=
      List.mem_filter.mpr ⟨he, hst⟩
    cases hf : entries.filter (DirEntry.isStaleSession now) with
    | nil => rw [hf] at hmem; cases hmem
    | cons x xs => simp
  · intro hnone
    rw [heq]
    have hf : entries.filter (DirEntry.isStaleSession now) = [] := by
      rw [List.filter_eq_nil_iff]
      intro e he
      rw [hnone e he]
      decide
    rw [hf]
    rfl

/-- Witness of C8, at the failing input: of the sample listing, at seven days after
the epoch, `SessionABC` (accessed at the epoch) is stale; the run ends in the panic
of its logging call and nothing is removed. -/
theorem stale_session_directory_panics_before_removal_witness :
    cleanStaleSessions (Except.ok sampleListing) "/w" (7 * 24 * 3600 * 1000000000)
        (fun _ => none)
      = { panicked := some (Panic.fieldHasNoValue "/w/SessionABC"), err := none,
          removed := [] } :=
  (stale_session_directory_panics_before_removal sampleListing "/w"
    (7 * 24 * 3600 * 1000000000) (fun _ => none) (by decide)
    (by
      intro e he
      simp only [sampleListing, List.mem_cons, List.mem_singleton, List.not_mem_nil,
        or_false] at he
      rcases he with rfl | rfl | rfl | rfl <;> exact ⟨_, rfl⟩)).1.trans (by decide)

/-! ## The cipher -/

theorem sampleAEAD_correct : sampleAEAD.Correct := by
  intro nonce plaintext ad hlen
  simp [sampleAEAD]

/-- C10. For every key of 32 bytes, with the cipher that `CipherAES256` returns for it
(the AEAD of the standard library keeping its contract), and every plaintext:
whenever the random source yields the nonce, `Encrypt` succeeds, its result is the
nonce followed by the sealed box, and `Decrypt` of that result returns exactly the
plaintext, with no error, whatever nonce was drawn. -/
theorem decrypt_encrypt_roundtrip (newGCM : List UInt8 → Except String AEAD)
    (readFull : Nat → Except String (List UInt8)) (key : List UInt8) (aead : AEAD)
    (nonce plaintext : List UInt8)
    (hkey : key.length = 32) (hgcm : newGCM key = Except.ok aead) (hcorrect : aead.Correct)
    (hrand : readFull aead.NonceSize = Except.ok nonce)
    (hnonce : nonce.length = aead.NonceSize) :
    CipherAES256 newGCM key = Except.ok { aead := aead }
    ∧ ({ aead := aead } : aes256).Encrypt readFull plaintext
        = Except.ok (nonce ++ aead.sealBox nonce plaintext [])
    ∧ ({ aead := aead } : aes256).Decrypt (nonce ++ aead.sealBox nonce plaintext [])
        = Except.ok plaintext := by
  refine ⟨?_, ?_, ?_⟩
  · simp [CipherAES256, hkey, hgcm]
  · simp [aes256.Encrypt, hrand, AEAD.Seal]
  · have hlen : ¬ (nonce ++ aead.sealBox nonce plaintext []).length < aead.NonceSize := by
      rw [List.length_append, hnonce]; omega
    simp only [aes256.Decrypt, hlen, if_false, AEAD.Open]
    rw [← hnonce, List.take_left', List.drop_left', hcorrect nonce plaintext [] hnonce]
    · rfl
    · rfl
    · rfl

/-- Witness of C10, on the stand-in AEAD: the plaintext 104, 105 under the nonce
1, 2, ..., 12. -/
theorem decrypt_encrypt_roundtrip_witness :
    CipherAES256 (fun _ => Except.ok sampleAEAD) sampleKey = Except.ok { aead := sampleAEAD }
    ∧ ({ aead := sampleAEAD } : aes256).Encrypt sampleReadFull [104, 105]
        = Except.ok ([1, 2, 3, 4, 5, 6, 7, 8, 9, 10, 11, 12]
            ++ sampleAEAD.sealBox [1, 2, 3, 4, 5, 6, 7, 8, 9, 10, 11, 12] [104, 105] [])
    ∧ ({ aead := sampleAEAD } : aes256).Decrypt ([1, 2, 3, 4, 5, 6, 7, 8, 9, 10, 11, 12]
            ++ sampleAEAD.sealBox [1, 2, 3, 4, 5, 6, 7, 8, 9, 10, 11, 12] [104, 105] [])
        = Except.ok [104, 105] :=
  decrypt_encrypt_roundtrip (fun _ => Except.ok sampleAEAD) sampleReadFull sampleKey sampleAEAD
    [1, 2, 3, 4, 5, 6, 7, 8, 9, 10, 11, 12] [104, 105] (by decide) rfl sampleAEAD_correct
    (by decide) (by decide)

/-! ## The fuel of the loop is never used up -/

theorem do_requests_length {σ R C : Type} (r : request σ R C) (call : R → Call)
    (done : C → Complete) (s : Session σ) (st : LoopState σ) :
    (r.do call done s st).state.requests.length ≤ st.requests.length := by
  unfold request.do
  split
  · simp only [List.length_tail]
    omega
  · exact Nat.le_refl _

theorem handleRequest_requests_length {σ : Type} {s : Session σ} {st : LoopState σ}
    {req : Request} {st1 : LoopState σ} {evs : List Event}
    (h : handleRequest s st req = Step.next st1 evs) :
    st1.requests.length ≤ st.requests.length := by
  obtain ⟨ty⟩ := req
  rcases ty with _ | c | parse | plan | apply | _
  · rw [handleRequest_other s st _ (Or.inl rfl)] at h
    obtain ⟨h1, -, -⟩ := sendResponse_next h
    rw [h1]
  · rw [handleRequest_other s st _ (Or.inr ⟨c, rfl⟩)] at h
    obtain ⟨h1, -, -⟩ := sendResponse_next h
    rw [h1]
  · rw [handleRequest_parse s st _ parse rfl] at h
    simp only at h
    split at h
    · cases h
    · obtain ⟨h1, -, -⟩ := sendResponse_next h
      rw [h1]
      exact do_requests_length _ _ _ _ _
  · rw [handleRequest_plan s st _ plan rfl] at h
    simp only at h
    split at h
    · cases h
    · obtain ⟨h1, -, -⟩ := sendResponse_next h
      rw [h1]
      simp only
      split <;> exact do_requests_length _ _ _ _ _
  · rw [handleRequest_apply s st _ apply rfl] at h
    split at h
    · cases h
    · simp only at h
      split at h
      · cases h
      · obtain ⟨h1, -, -⟩ := sendResponse_next h
        rw [h1]
        exact do_requests_length _ _ _ _ _
  · rw [handleRequest_cancel s st _ rfl] at h
    simp only [Step.next.injEq] at h
    rw [← h.1]

/-- With more fuel than messages left, one more unit of fuel changes nothing: the
loop of `handleRequests` ends at the closed channel or at a `return`, never for lack
of fuel. -/
theorem handleLoop_fuel {σ : Type} (s : Session σ) (fuel : Nat) :
    ∀ st : LoopState σ, st.requests.length < fuel →
      handleLoop s (fuel + 1) st = handleLoop s fuel st := by
  induction fuel with
  | zero => intro st h; exact absurd h (Nat.not_lt_zero _)
  | succ fuel ih =>
    intro st hlen
    cases hrq : st.requests with
    | nil => rw [handleLoop_nil s _ st hrq, handleLoop_nil s _ st hrq]
    | cons r rest =>
      cases hstep : handleRequest s { st with requests := rest } r with
      | ret err evs =>
        rw [handleLoop_ret s _ st hrq hstep, handleLoop_ret s _ st hrq hstep]
      | next st1 evs =>
        rw [handleLoop_next s _ st hrq hstep, handleLoop_next s _ st hrq hstep]
        have h1 := handleRequest_requests_length hstep
        simp only at h1
        rw [hrq, List.length_cons] at hlen
        rw [ih st1 (by omega)]

/-! ## What `Decrypt` refuses -/

/-- C11, counterexample. With the cipher that `CipherAES256` builds on an AEAD with
nonces of 12 bytes (the size of the standard GCM nonce), `Decrypt` of the three
bytes 1, 2, 3 returns the error "ciphertext too short", and that error is not a
`*DecryptFailedError`. -/
theorem short_ciphertext_is_not_decrypt_failed :
    CipherAES256 (fun _ => Except.ok sampleAEAD) sampleKey = Except.ok { aead := sampleAEAD }
    ∧ ({ aead := sampleAEAD } : aes256).Decrypt [1, 2, 3] = Except.error CipherErr.tooShort
    ∧ IsDecryptFailedError CipherErr.tooShort = false :=
  ⟨rfl, by decide, rfl⟩

/-- C11, amended. For every cipher and every byte string that `Decrypt` does not
accept, no plaintext is returned and: when the string is at least as long as the
nonce, the error is a `*DecryptFailedError` that wraps the error of `Open`, so
`IsDecryptFailedError` is true; when it is shorter than the nonce, the error is
"ciphertext too short", for which `IsDecryptFailedError` is false. A string shorter
than the nonce is never accepted. -/
theorem decrypt_error_kinds (a : aes256) (ciphertext : List UInt8) (err : CipherErr)
    (h : a.Decrypt ciphertext = Except.error err) :
    (a.aead.NonceSize ≤ ciphertext.length →
      (∃ inner, a.aead.Open [] (ciphertext.take a.aead.NonceSize)
            (ciphertext.drop a.aead.NonceSize) [] = Except.error inner
          ∧ err = CipherErr.DecryptFailedError inner)
      ∧ IsDecryptFailedError err = true)
    ∧ (ciphertext.length < a.aead.NonceSize →
        err = CipherErr.tooShort ∧ IsDecryptFailedError err = false)
    ∧ (∀ short : List UInt8, short.length < a.aead.NonceSize →
        a.Decrypt short = Except.error CipherErr.tooShort) := by
  refine ⟨?_, ?_, ?_⟩
  · intro hlen
    have hnot : ¬ ciphertext.length < a.aead.NonceSize := Nat.not_lt.mpr hlen
    unfold aes256.Decrypt at h
    rw [if_neg hnot] at h
    cases hopen : a.aead.Open [] (ciphertext.take a.aead.NonceSize)
        (ciphertext.drop a.aead.NonceSize) [] with
    | error inner =>
      rw [hopen] at h
      simp only [Except.error.injEq] at h
      exact ⟨⟨inner, rfl, h.symm⟩, by rw [← h]; rfl⟩
    | ok decrypted =>
      rw [hopen] at h
      cases h
  · intro hlen
    unfold aes256.Decrypt at h
    rw [if_pos hlen] at h
    simp only [Except.error.injEq] at h
    exact ⟨h.symm, by rw [← h]; rfl⟩
  · intro short hshort
    unfold aes256.Decrypt
    rw [if_pos hshort]

/-- Witness of the amended C11: a string of thirteen bytes whose tag is wrong is
refused with a `*DecryptFailedError`. -/
theorem decrypt_error_kinds_witness :
    IsDecryptFailedError
      (CipherErr.DecryptFailedError "cipher: message authentication failed") = true :=
  ((decrypt_error_kinds { aead := sampleAEAD } [0, 0, 0, 0, 0, 0, 0, 0, 0, 0, 0, 0, 7]
    (CipherErr.DecryptFailedError "cipher: message authentication failed")
    (by decide)).1 (by decide)).2

/-! ## `ProvisionLog` -/

/-- C12. For every session, level and text, `ProvisionLog` makes exactly one `Send`,
of the Log response with that level and that text, when the level is at least the
session's `logLevel`, and none when it is below; nothing else decides, and the
error of the `Send` is only recorded: the function returns no error, and the count
of `Send` calls it leaves does not depend on how the `Send` ended. -/
theorem provisionLog_level_filter {σ : Type} (s : Session σ) (sends : Nat) (level : Int)
    (output : String) :
    (s.logLevel ≤ level →
      s.ProvisionLog sends level output
        = (sends + 1,
           [Event.send { Type_ := some (ResponseType.Log { Level := level, Output := output }) }
              (s.stream.sendErr sends)]))
    ∧ (level < s.logLevel → s.ProvisionLog sends level output = (sends, []))
    ∧ (s.ProvisionLog sends level output).1 = (if level < s.logLevel then sends else sends + 1) := by
  refine ⟨?_, ?_, ?_⟩
  · intro h
    have hnot : ¬ level < s.logLevel := Int.not_lt.mpr h
    simp [Session.ProvisionLog, hnot, Stream.Send]
  · intro h
    simp [Session.ProvisionLog, h]
  · unfold Session.ProvisionLog
    split <;> rfl

/-! ## The first message of a session -/

/-- C13. Whenever the housekeeping of the stale session directories does not end in a
panic (it does not when no directory of the root is stale), and the first `Recv`
fails (the end of the stream included) or the first message carries no Config,
`protoServer.Session` returns, with a non-nil error, makes no filesystem call of the
extraction, invokes no backend function and sends nothing: the session has no event
at all. When the housekeeping returned nil and the work directory was created, the
error is "receive config" or "first request must be Config". -/
theorem session_needs_config_first {σ : Type} (p : protoServer σ) (stream : Stream)
    (recvs : List (Except String Request)) (host : Host σ)
    (hclean : (cleanStaleSessions host.readDir p.opts.WorkDirectory host.now
        host.removeErr).panicked = none)
    (hfirst : recvs = [] ∨ (∃ e rest, recvs = Except.error e :: rest)
      ∨ (∃ req rest, recvs = Except.ok req :: rest ∧ req.GetConfig = none)) :
    (p.Session stream recvs host).panicked = none
    ∧ (p.Session stream recvs host).err ≠ none
    ∧ (p.Session stream recvs host).ops = []
    ∧ (p.Session stream recvs host).events = []
    ∧ ((cleanStaleSessions host.readDir p.opts.WorkDirectory host.now host.removeErr).err = none →
        (∃ fs1, ((cleanStaleSessions host.readDir p.opts.WorkDirectory host.now
              host.removeErr).removed.foldl FS.RemoveAll host.fs).MkdirAll
            (Join p.opts.WorkDirectory (sessionDir host.sessID)) 0o700 = Except.ok fs1) →
        (recvs = [] →
          (p.Session stream recvs host).err = some (SessionErr.receiveConfig ReadErr.EOF))
        ∧ (∀ e rest, recvs = Except.error e :: rest →
          (p.Session stream recvs host).err
            = some (SessionErr.receiveConfig (ReadErr.other e)))
        ∧ (∀ req rest, recvs = Except.ok req :: rest → req.GetConfig = none →
          (p.Session stream recvs host).err = some SessionErr.firstNotConfig)) := by
  unfold protoServer.Session
  simp only [hclean]
  cases hcl : (cleanStaleSessions host.readDir p.opts.WorkDirectory host.now
      host.removeErr).err with
  | some e => simp
  | none =>
    cases hmk : ((cleanStaleSessions host.readDir p.opts.WorkDirectory host.now
        host.removeErr).removed.foldl FS.RemoveAll host.fs).MkdirAll
        (Join p.opts.WorkDirectory (sessionDir host.sessID)) 0o700 with
    | error e => simp
    | ok fs1 =>
      rcases hfirst with h | ⟨e, rest, h⟩ | ⟨req, rest, h, hcfg⟩
      · subst h; simp
      · subst h; simp
      · subst h
        simp only [hcfg, true_implies, reduceCtorEq, false_implies, implies_true, and_true,
          true_and, ne_eq, not_false_eq_true, List.cons.injEq, and_imp, forall_apply_eq_imp_iff,
          forall_eq', Except.ok.injEq]

/-- Witness of C13: the first message is a Parse request, on a host whose root holds
directories that are not stale. -/
theorem session_needs_config_first_witness :
    (sampleProtoServer.Session { sendErr := fun _ => none }
        [received (RequestType.Parse { payload := [] })] busyHost).panicked = none
    ∧ (sampleProtoServer.Session { sendErr := fun _ => none }
        [received (RequestType.Parse { payload := [] })] busyHost).err
        = some SessionErr.firstNotConfig
    ∧ (sampleProtoServer.Session { sendErr := fun _ => none }
        [received (RequestType.Parse { payload := [] })] busyHost).ops = []
    ∧ (sampleProtoServer.Session { sendErr := fun _ => none }
        [received (RequestType.Parse { payload := [] })] busyHost).events = [] :=
  have h := session_needs_config_first sampleProtoServer { sendErr := fun _ => none }
    [received (RequestType.Parse { payload := [] })] busyHost (by decide)
    (Or.inr (Or.inr ⟨{ Type_ := some (RequestType.Parse { payload := [] }) }, [], rfl, rfl⟩))
  ⟨h.1, (h.2.2.2.2 (by decide) ⟨_, rfl⟩).2.2 _ _ rfl rfl, h.2.2.1, h.2.2.2.1⟩

/-! ## A request that asks for nothing -/

/-- C16. A request that the loop takes off the channel and that carries none of
Cancel, Parse, Plan and Apply (a Config, or no payload at all): the loop invokes no
backend function, makes exactly one `Send`, of the response with a nil `Type`, and
leaves `planned`, the channel, the schedule, the backend and the filesystem as they
were; when the `Send` succeeds it goes on, and when it fails it returns the send
error. A bare Cancel taken in the same position causes no `Send` and changes
nothing. -/
theorem empty_request_answered_with_empty_response {σ : Type} (s : Session σ)
    (st : LoopState σ) (req cancel : Request)
    (hreq : req.Type_ = none ∨ ∃ c, req.Type_ = some (RequestType.Config c))
    (hcancel : cancel.Type_ = some RequestType.Cancel) :
    handleRequest s st req =
      (match s.stream.sendErr st.sends with
       | none =>
         Step.next { st with sends := st.sends + 1 }
           [Event.take req, Event.send { Type_ := none } none]
       | some e =>
         Step.ret (Err.sendResponse e) [Event.take req, Event.send { Type_ := none } (some e)])
    ∧ req.call = none
    ∧ ({ st with sends := st.sends + 1 } : LoopState σ).planned = st.planned
    ∧ handleRequest s st cancel = Step.next st [Event.take cancel] := by
  refine ⟨?_, ?_, rfl, handleRequest_cancel s st cancel hcancel⟩
  · rw [handleRequest_other s st req hreq, sendResponse_eq]
    cases s.stream.sendErr st.sends <;> rfl
  · rcases hreq with h | ⟨c, h⟩ <;> simp [Request.call, h]

/-- Witness of C16: a second Config message, then a request without payload, then a
bare Cancel, on a working stream. -/
theorem empty_request_answered_with_empty_response_witness :
    handleRequest sampleSession
        { requests := [], races := [], backend := (), fs := sampleFS, sends := 0,
          planned := true } sampleConfig
      = Step.next
          { requests := [], races := [], backend := (), fs := sampleFS, sends := 1,
            planned := true }
          [Event.take sampleConfig, Event.send { Type_ := none } none]
    ∧ handleRequest sampleSession
        { requests := [], races := [], backend := (), fs := sampleFS, sends := 0,
          planned := true } { Type_ := some RequestType.Cancel }
      = Step.next
          { requests := [], races := [], backend := (), fs := sampleFS, sends := 0,
            planned := true }
          [Event.take { Type_ := some RequestType.Cancel }] :=
  have h := empty_request_answered_with_empty_response sampleSession
    { requests := [], races := [], backend := (), fs := sampleFS, sends := 0, planned := true }
    sampleConfig { Type_ := some RequestType.Cancel } (Or.inr ⟨_, rfl⟩) rfl
  ⟨h.1, h.2.2.2⟩

/-! ## The mode of an extracted directory -/

theorem or_mod_two_pow_of_mod_eq_zero (a b k : Nat) (hb : b % 2 ^ k = 0) :
    (a ||| b) % 2 ^ k = a % 2 ^ k := by
  apply Nat.eq_of_testBit_eq
  intro i
  have hbi : (b % 2 ^ k).testBit i = false := by rw [hb]; exact Nat.zero_testBit i
  rw [Nat.testBit_mod_two_pow] at hbi
  rw [Nat.testBit_mod_two_pow, Nat.testBit_mod_two_pow, Nat.testBit_or]
  by_cases hi : i < k
  · simp only [hi, decide_True, Bool.true_and] at hbi ⊢
    rw [hbi, Bool.or_false]
  · simp [hi]

theorem or_two_pow_ne_zero (a n : Nat) : a ||| 2 ^ n ≠ 0 := by
  intro h
  have h1 : (a ||| 2 ^ n).testBit n = true := by
    rw [Nat.testBit_or, Nat.testBit_two_pow_self, Bool.or_true]
  rw [h, Nat.zero_testBit] at h1
  cases h1

/-- The mode that `FileInfo().Mode()` reports for a directory entry: its bit 31, the
directory bit, is set, so it is not zero, and its permission bits are those of the
header's mode. -/
theorem fileInfoMode_dir (h : Header) (hdir : h.Typeflag = TypeDir) :
    h.FileInfoMode ≠ 0 ∧ h.FileInfoMode.testBit 31 = true
      ∧ Perm h.FileInfoMode = h.Mode % 512 := by
  have hflag : (if h.Typeflag = TypeSymlink then 2 ^ 27
      else if h.Typeflag = TypeChar then 2 ^ 26 + 2 ^ 21
      else if h.Typeflag = TypeBlock then 2 ^ 26
      else if h.Typeflag = TypeDir then 2 ^ 31
      else if h.Typeflag = TypeFifo then 2 ^ 25
      else 0) = 2 ^ 31 := by
    rw [hdir]; decide
  unfold Header.FileInfoMode
  simp only [hflag]
  refine ⟨or_two_pow_ne_zero _ 31, ?_, ?_⟩
  · rw [Nat.testBit_or, Nat.testBit_two_pow_self, Bool.or_true]
  · unfold Perm
    have e512 : (512 : Nat) = 2 ^ 9 := by norm_num
    rw [e512]
    rw [or_mod_two_pow_of_mod_eq_zero _ _ 9 (by norm_num)]
    rw [or_mod_two_pow_of_mod_eq_zero _ _ 9 (by split_ifs <;> norm_num)]
    rw [or_mod_two_pow_of_mod_eq_zero _ _ 9 (by split_ifs <;> norm_num)]
    rw [or_mod_two_pow_of_mod_eq_zero _ _ 9 (by split_ifs <;> norm_num)]
    rw [or_mod_two_pow_of_mod_eq_zero _ _ 9 (by split_ifs <;> norm_num)]
    exact Nat.mod_mod _ _

/-! ## Lookups after the filesystem calls -/

theorem find?_filter_key (l : List (String × Node)) (p q : String) (hne : q ≠ p) :
    (l.filter (fun e => !(e.1 == p))).find? (fun e => e.1 == q)
      = l.find? (fun e => e.1 == q) := by
  induction l with
  | nil => rfl
  | cons x xs ih =>
    by_cases hx : x.1 = p
    · have hq : (x.1 == q) = false := by
        rw [beq_eq_false_iff_ne]; exact fun e => hne (e.symm.trans hx)
      have hp : (x.1 == p) = true := by rw [beq_iff_eq]; exact hx
      rw [List.filter_cons, List.find?_cons]
      simp only [hp, hq, Bool.not_true, Bool.false_eq_true, if_false]
      exact ih
    · have hp : (x.1 == p) = false := by rw [beq_eq_false_iff_ne]; exact hx
      rw [List.filter_cons]
      simp only [hp, Bool.not_false, if_true]
      rw [List.find?_cons, List.find?_cons, ih]

theorem lookup_set (fs : FS) (p : String) (n : Node) (q : String) :
    (fs.set p n).lookup q =
      if q = "/" ∨ q = "." then some (Node.dir 0o755)
      else if q = p then some n else fs.lookup q := by
  unfold FS.lookup FS.set
  by_cases hs : q = "/" ∨ q = "."
  · simp [hs]
  · simp only [hs, if_false]
    by_cases hq : q = p
    · subst hq
      simp [List.find?_cons]
    · have hb : (p == q) = false := by rw [beq_eq_false_iff_ne]; exact fun e => hq e.symm
      simp only [hq, if_false, List.find?_cons, hb]
      rw [find?_filter_key _ _ _ hq]

theorem lookup_set_other (fs : FS) (p : String) (n : Node) (q : String) (h : q ≠ p) :
    (fs.set p n).lookup q = fs.lookup q := by
  rw [lookup_set]
  by_cases hs : q = "/" ∨ q = "."
  · simp [hs, FS.lookup]
  · simp [hs, h]

theorem lookup_set_exists (fs : FS) (p : String) (n m : Node) (q : String)
    (hnone : fs.lookup p = none) (hq : fs.lookup q = some m) :
    (fs.set p n).lookup q = some m := by
  have hne : q ≠ p := by
    intro e
    rw [e, hnone] at hq
    cases hq
  rw [lookup_set_other fs p n q hne, hq]

/-- What `MkdirAll` leaves: every object that was there is still there, unchanged, and
every object that was not there before is a directory with the permission bits of
the mode. -/
theorem mkdirChain_nodes (mode : Nat) (chain : List String) :
    ∀ fs fs1 : FS, fs.mkdirChain mode chain = Except.ok fs1 →
      (∀ q m, fs.lookup q = some m → fs1.lookup q = some m)
      ∧ (∀ q m, fs1.lookup q = some m → fs.lookup q = some m ∨ m = Node.dir (Perm mode)) := by
  induction chain with
  | nil =>
    intro fs fs1 h
    simp only [FS.mkdirChain, Except.ok.injEq] at h
    subst h
    exact ⟨fun _ _ h => h, fun _ _ h => Or.inl h⟩
  | cons c rest ih =>
    intro fs fs1 h
    unfold FS.mkdirChain at h
    cases hl : fs.lookup c with
    | none =>
      rw [hl] at h
      obtain ⟨h1, h2⟩ := ih _ fs1 h
      refine ⟨fun q m hq => h1 q m (lookup_set_exists fs c _ m q hl hq), ?_⟩
      intro q m hq
      rcases h2 q m hq with h3 | h3
      · rw [lookup_set] at h3
        by_cases hs : q = "/" ∨ q = "."
        · left
          simp only [hs, if_true] at h3
          rw [← h3]
          simp [FS.lookup, hs]
        · simp only [hs, if_false] at h3
          by_cases hqc : q = c
          · simp only [hqc, if_true, Option.some.injEq] at h3
            exact Or.inr h3.symm
          · simp only [hqc, if_false] at h3
            exact Or.inl h3
      · exact Or.inr h3
    | some node =>
      rw [hl] at h
      cases node with
      | dir perm => exact ih fs fs1 h
      | file perm content => cases h

theorem extractEntries_directory (W : String) (trailer : Option String) (entry : TarEntry)
    (rest : List TarEntry) (fs : FS)
    (hdir : entry.header.Typeflag = TypeDir) (hlocal : IsLocal entry.header.Name = true)
    (hpfx : HasPrefix (Join W entry.header.Name) (Clean W) = true) :
    extractEntries W trailer (entry :: rest) fs =
      (match fs.MkdirAll (Join W entry.header.Name) entry.header.FileInfoMode with
       | Except.error e =>
         { err := some (ExtractErr.mkdir (Join W entry.header.Name) e), fs := fs,
           ops := [FsOp.MkdirAll (Join W entry.header.Name) entry.header.FileInfoMode] }
       | Except.ok fs1 =>
         { err := (extractEntries W trailer rest fs1).err,
           fs := (extractEntries W trailer rest fs1).fs,
           ops := FsOp.MkdirAll (Join W entry.header.Name) entry.header.FileInfoMode
             :: (extractEntries W trailer rest fs1).ops }) := by
  have hne := (fileInfoMode_dir entry.header hdir).1
  rw [extractEntries]
  simp only [hlocal, hpfx, Bool.not_true, Bool.false_eq_true, if_false, hdir, if_true, hne]

/-- C14, counterexample. A directory entry `d` whose mode is zero, in the sample work
directory: the one filesystem call is `MkdirAll` with the directory bit alone, so the
permission bits it asks for are 000, not 0700. -/
theorem zero_mode_directory_not_0700 :
    (dirEntry 0).header.Mode = 0
    ∧ (extractArchive "/w/Session1" { entries := [dirEntry 0], trailer := none } sampleFS).ops
        = [FsOp.MkdirAll "/w/Session1/d" (2 ^ 31)]
    ∧ Perm (2 ^ 31) = 0
    ∧ Perm (2 ^ 31) ≠ 0o700 := by
  decide

/-- C14, amended. For every directory entry with a local name whose mode is not zero, in
a work directory that is absolute or keeps an element when cleaned, the first
filesystem call of `extractArchive` for the entry is `MkdirAll` (which creates the
missing parents too) on the entry's path, with the entry's own mode as
`FileInfo().Mode()` reports it for the header: the permission bits of the header's
mode together with the directory bit. When the call fails the extraction ends with
the error of `mkdir`, and otherwise it goes on with the entries that follow. The
statement is about entries of a non-zero mode only and leaves the others open. -/
theorem directory_created_with_header_mode (W : String) (trailer : Option String)
    (entry : TarEntry) (rest : List TarEntry) (fs : FS)
    (hdir : entry.header.Typeflag = TypeDir) (hlocal : IsLocal entry.header.Name = true)
    (hW : isRooted W.data = true ∨ pathElems false W.data ≠ [])
    (_hmode : entry.header.Mode ≠ 0) :
    (extractEntries W trailer (entry :: rest) fs).ops.head?
      = some (FsOp.MkdirAll (Join W entry.header.Name) entry.header.FileInfoMode)
    ∧ entry.header.FileInfoMode.testBit 31 = true
    ∧ Perm entry.header.FileInfoMode = entry.header.Mode % 512
    ∧ extractEntries W trailer (entry :: rest) fs =
      (match fs.MkdirAll (Join W entry.header.Name) entry.header.FileInfoMode with
       | Except.error e =>
         { err := some (ExtractErr.mkdir (Join W entry.header.Name) e), fs := fs,
           ops := [FsOp.MkdirAll (Join W entry.header.Name) entry.header.FileInfoMode] }
       | Except.ok fs1 =>
         { err := (extractEntries W trailer rest fs1).err,
           fs := (extractEntries W trailer rest fs1).fs,
           ops := FsOp.MkdirAll (Join W entry.header.Name) entry.header.FileInfoMode
             :: (extractEntries W trailer rest fs1).ops }) := by
  obtain ⟨_, h2, h3⟩ := fileInfoMode_dir entry.header hdir
  have heq := extractEntries_directory W trailer entry rest fs hdir hlocal
    (prefix_check_passes W entry.header.Name hlocal hW)
  refine ⟨?_, h2, h3, heq⟩
  rw [heq]
  cases fs.MkdirAll (Join W entry.header.Name) entry.header.FileInfoMode <;> rfl

/-- Witness of the amended C14: a directory entry of mode 0750 in the sample work
directory. -/
theorem directory_created_with_header_mode_witness :
    (extractEntries "/w/Session1" none [dirEntry 0o750] sampleFS).ops.head?
      = some (FsOp.MkdirAll "/w/Session1/d" (2 ^ 31 + 0o750)) :=
  (directory_created_with_header_mode "/w/Session1" none (dirEntry 0o750) [] sampleFS rfl
    (by decide) (Or.inl (by decide)) (by decide)).1.trans (by decide)

/-! ## The content of an extracted file -/

theorem openFile_keeps (fs fs1 : FS) (path : String) (mode : Nat)
    (h : fs.OpenFile path mode = Except.ok fs1) :
    ∀ q m, fs.lookup q = some m → fs1.lookup q = some m := by
  intro q m hq
  unfold FS.OpenFile at h
  cases hl : fs.lookup path with
  | some node =>
    rw [hl] at h
    cases node with
    | dir perm => cases h
    | file perm content =>
      simp only [Except.ok.injEq] at h
      rw [← h]; exact hq
  | none =>
    rw [hl] at h
    simp only at h
    cases hp : fs.lookup (parentDir path) with
    | none => rw [hp] at h; cases h
    | some node =>
      rw [hp] at h
      cases node with
      | file perm content => cases h
      | dir perm =>
        simp only [Except.ok.injEq] at h
        rw [← h]
        exact lookup_set_exists fs path _ m q hl hq

theorem openFile_fresh (fs fs1 : FS) (path : String) (mode : Nat)
    (h : fs.OpenFile path mode = Except.ok fs1) (hnone : fs.lookup path = none) :
    fs1 = fs.set path (Node.file (Perm mode) []) := by
  unfold FS.OpenFile at h
  rw [hnone] at h
  simp only at h
  cases hp : fs.lookup (parentDir path) with
  | none => rw [hp] at h; cases h
  | some node =>
    rw [hp] at h
    cases node with
    | file perm content => cases h
    | dir perm =>
      simp only [Except.ok.injEq] at h
      exact h.symm

theorem writeAt0_other (fs : FS) (path : String) (data : List UInt8) (q : String)
    (h : q ≠ path) : (fs.WriteAt0 path data).lookup q = fs.lookup q := by
  unfold FS.WriteAt0
  split
  · exact lookup_set_other fs path _ q h
  · rfl

theorem lookup_none_not_special (fs : FS) (p : String) (h : fs.lookup p = none) :
    ¬ (p = "/" ∨ p = ".") := by
  intro hs
  unfold FS.lookup at h
  rw [if_pos hs] at h
  cases h

theorem writeAt0_fresh (fs : FS) (path : String) (perm : Nat) (data : List UInt8)
    (hnone : fs.lookup path = none) :
    ((fs.set path (Node.file perm [])).WriteAt0 path data).lookup path
      = some (Node.file perm data) := by
  have hs := lookup_none_not_special fs path hnone
  have h1 : (fs.set path (Node.file perm [])).lookup path = some (Node.file perm []) := by
    rw [lookup_set]; simp [hs]
  unfold FS.WriteAt0
  rw [h1]
  simp only [List.drop_nil, List.append_nil]
  rw [lookup_set]
  simp [hs]

theorem copyN_data (body : List UInt8) (bodyErr : Option String) (n : Nat) :
    (CopyN body bodyErr n).1 = body.take n := by
  unfold CopyN
  simp only
  split
  · rfl
  · split <;> rfl

/-- Entries whose regular files go to other paths leave what is at `p` as it is. -/
theorem extractEntries_frame (W : String) (trailer : Option String) (p : String) (m : Node)
    (entries : List TarEntry) :
    ∀ fs : FS,
      (∀ e ∈ entries, e.header.Typeflag = TypeReg → Join W e.header.Name ≠ p) →
      fs.lookup p = some m →
      (extractEntries W trailer entries fs).fs.lookup p = some m := by
  induction entries with
  | nil =>
    intro fs _ hp
    unfold extractEntries
    split <;> exact hp
  | cons entry rest ih =>
    intro fs hother hp
    have hrest : ∀ e ∈ rest, e.header.Typeflag = TypeReg → Join W e.header.Name ≠ p :=
      fun e he => hother e (List.mem_cons_of_mem _ he)
    unfold extractEntries
    simp only
    split
    · exact hp
    · split
      · exact hp
      · split
        · split
          · exact hp
          · rename_i fs1 hmk
            exact ih fs1 hrest ((mkdirChain_nodes _ _ fs fs1 hmk).1 p m hp)
        · split
          · rename_i hreg
            have hne : p ≠ Join W entry.header.Name :=
              fun e => hother entry (List.mem_cons_self _ _) hreg e.symm
            split
            · exact hp
            · rename_i fs1 hopen
              have h1 := openFile_keeps fs fs1 _ _ hopen p m hp
              have h2 : (fs1.WriteAt0 (Join W entry.header.Name)
                  (CopyN entry.body entry.bodyErr maxFileSize).1).lookup p = some m := by
                rw [writeAt0_other _ _ _ _ hne]; exact h1
              split
              · exact h2
              · exact ih _ hrest h2
          · exact ih fs hrest hp

/-- The extraction of a list of entries in two parts: when the first part fails, the
whole is that failure; otherwise the second part goes on from where the first
ended. -/
theorem extractEntries_append (W : String) (trailer : Option String) (pre rest : List TarEntry) :
    ∀ fs : FS,
      extractEntries W trailer (pre ++ rest) fs =
        (if (extractEntries W none pre fs).err = none then
          { err := (extractEntries W trailer rest (extractEntries W none pre fs).fs).err,
            fs := (extractEntries W trailer rest (extractEntries W none pre fs).fs).fs,
            ops := (extractEntries W none pre fs).ops
              ++ (extractEntries W trailer rest (extractEntries W none pre fs).fs).ops }
         else extractEntries W none pre fs) := by
  induction pre with
  | nil =>
    intro fs
    simp [extractEntries]
  | cons p pre ih =>
    intro fs
    rw [List.cons_append]
    rw [extractEntries, extractEntries]
    simp only
    split
    · simp
    · split
      · simp
      · split
        · split
          · simp
          · rename_i fs1 hmk
            rw [ih fs1]
            split <;> simp_all
        · split
          · split
            · simp
            · split
              · simp
              · rw [ih]
                split <;> simp_all
          · exact ih fs

/-- A regular-file entry that is extracted without error: its file could be opened, and
the extraction went on from the filesystem in which the first `maxFileSize` bytes of
the entry were written over the start of the file. -/
theorem extractEntries_regular_ok (W : String) (trailer : Option String) (entry : TarEntry)
    (rest : List TarEntry) (fs : FS) (hreg : entry.header.Typeflag = TypeReg)
    (hok : (extractEntries W trailer (entry :: rest) fs).err = none) :
    ∃ fs1 mode, fs.OpenFile (Join W entry.header.Name) mode = Except.ok fs1
      ∧ (extractEntries W trailer (entry :: rest) fs).fs
          = (extractEntries W trailer rest
              (fs1.WriteAt0 (Join W entry.header.Name) (entry.body.take maxFileSize))).fs := by
  have hnd : TypeReg ≠ TypeDir := by decide
  rw [extractEntries] at hok ⊢
  simp only [hreg, hnd, if_false, if_true] at hok ⊢
  split at hok
  · cases hok
  · rw [if_neg (by assumption)]
    split at hok
    · cases hok
    · rw [if_neg (by assumption)]
      split at hok
      · cases hok
      · rename_i fs1 hopen
        refine ⟨fs1, _, hopen, ?_⟩
        generalize hc : (if (CopyN entry.body entry.bodyErr maxFileSize).2 = some ReadErr.EOF
          then none else (CopyN entry.body entry.bodyErr maxFileSize).2) = c at hok ⊢
        cases c with
        | some e => cases hok
        | none =>
          simp only
          rw [copyN_data]

/-- The file that a path holds after two entries were written to it, the second
shorter than the first: the start is the second content, the rest is left from the
first. -/
theorem writeAt0_twice (fs : FS) (path : String) (perm : Nat) (first second : List UInt8)
    (hnone : fs.lookup path = none) :
    (((fs.set path (Node.file perm [])).WriteAt0 path first).WriteAt0 path second).lookup path
      = some (Node.file perm (second ++ first.drop second.length)) := by
  have hs := lookup_none_not_special fs path hnone
  have h1 := writeAt0_fresh fs path perm first hnone
  unfold FS.WriteAt0 at h1 ⊢
  split
  · rename_i perm2 old heq
    rw [lookup_set]
    simp only [hs, if_false, if_true]
    rw [h1] at heq
    simp only [Option.some.injEq, Node.file.injEq] at heq
    rw [heq.1, heq.2]
  · rename_i hno
    exact absurd h1 (hno perm first)

/-- C15, counterexample. In the sample work directory, an archive with the entry `f` of
content 1, 2, 3 followed by an entry `f` of content 9 is extracted without error,
and `f` ends with 9, 2, 3: the bytes 2, 3 of the older content remain. And an entry
of 10 MiB + 1 byte is extracted without error into a file of 10 MiB, which is not its
content either. -/
theorem rewritten_file_keeps_old_tail :
    (extractArchive "/w/Session1"
        { entries := [fileEntry "f" [1, 2, 3], fileEntry "f" [9]], trailer := none }
        sampleFS).err = none
    ∧ (extractArchive "/w/Session1"
        { entries := [fileEntry "f" [1, 2, 3], fileEntry "f" [9]], trailer := none }
        sampleFS).fs.ReadFile "/w/Session1/f" = Except.ok [9, 2, 3]
    ∧ (extractArchive "/w/Session1" { entries := [bigEntry (10 * 2 ^ 20 + 1)], trailer := none }
        sampleFS).err = none
    ∧ (extractArchive "/w/Session1" { entries := [bigEntry (10 * 2 ^ 20 + 1)], trailer := none }
        sampleFS).fs.ReadFile "/w/Session1/big" = Except.ok (List.replicate (10 * 2 ^ 20) 0) := by
  have h := extractEntries_regular "/w/Session1" none (bigEntry (10 * 2 ^ 20 + 1)) [] sampleFS
    (sampleFS.set "/w/Session1/big" (Node.file 0o644 [])) rfl (by decide) (by decide)
    (by decide) rfl
  have htake : (bigEntry (10 * 2 ^ 20 + 1)).body.take maxFileSize
      = List.replicate (10 * 2 ^ 20) 0 := by
    simp only [bigEntry, List.take_replicate]
    congr 1
  have hpath : Join "/w/Session1" (bigEntry (10 * 2 ^ 20 + 1)).header.Name = "/w/Session1/big" := by
    decide
  have hfresh := writeAt0_fresh sampleFS "/w/Session1/big" 0o644
    (List.replicate (10 * 2 ^ 20) 0) (by decide)
  refine ⟨by decide, by decide, ?_, ?_⟩
  · unfold extractArchive
    rw [h]
    rfl
  · unfold extractArchive
    rw [h, htake, hpath]
    show (extractEntries "/w/Session1" none []
      ((sampleFS.set "/w/Session1/big" (Node.file 0o644 [])).WriteAt0 "/w/Session1/big"
        (List.replicate (10 * 2 ^ 20) 0))).fs.ReadFile "/w/Session1/big" = _
    unfold FS.ReadFile
    rw [show (extractEntries "/w/Session1" none []
      ((sampleFS.set "/w/Session1/big" (Node.file 0o644 [])).WriteAt0 "/w/Session1/big"
        (List.replicate (10 * 2 ^ 20) 0))).fs
        = (sampleFS.set "/w/Session1/big" (Node.file 0o644 [])).WriteAt0 "/w/Session1/big"
        (List.replicate (10 * 2 ^ 20) 0) from rfl, hfresh]

/-- C15, amended. In an archive that `extractArchive` extracts without error, take a
regular-file entry that finds nothing at its path when it is reached and that no
later regular-file entry shares its path with. At the end the file at that path
holds the first `maxFileSize` (10 MiB) bytes of the entry's content, which is
exactly its content when that is at most 10 MiB long. -/
theorem fresh_file_holds_entry_content (W : String) (archive : TarStream) (fs : FS)
    (pre : List TarEntry) (entry : TarEntry) (post : List TarEntry)
    (hsplit : archive.entries = pre ++ entry :: post)
    (hreg : entry.header.Typeflag = TypeReg)
    (hok : (extractArchive W archive fs).err = none)
    (hfresh : (extractArchive W { entries := pre, trailer := none } fs).fs.lookup
        (Join W entry.header.Name) = none)
    (hlast : ∀ e ∈ post, e.header.Typeflag = TypeReg →
        Join W e.header.Name ≠ Join W entry.header.Name) :
    (extractArchive W archive fs).fs.ReadFile (Join W entry.header.Name)
        = Except.ok (entry.body.take maxFileSize)
    ∧ maxFileSize = 10 * 2 ^ 20
    ∧ (entry.body.length ≤ 10 * 2 ^ 20 →
        (extractArchive W archive fs).fs.ReadFile (Join W entry.header.Name)
          = Except.ok entry.body) := by
  have hmax : maxFileSize = 10 * 2 ^ 20 := by decide
  have hmain : (extractArchive W archive fs).fs.ReadFile (Join W entry.header.Name)
      = Except.ok (entry.body.take maxFileSize) := by
    unfold extractArchive at hok hfresh ⊢
    simp only at hfresh
    rw [hsplit, extractEntries_append] at hok ⊢
    by_cases hpre : (extractEntries W none pre fs).err = none
    · rw [if_pos hpre] at hok ⊢
      simp only at hok ⊢
      obtain ⟨fs1, mode, hopen, hfs⟩ := extractEntries_regular_ok W archive.trailer entry post
        (extractEntries W none pre fs).fs hreg hok
      rw [hfs, openFile_fresh _ _ _ _ hopen hfresh]
      have hwritten := writeAt0_fresh (extractEntries W none pre fs).fs
        (Join W entry.header.Name) (Perm mode) (entry.body.take maxFileSize) hfresh
      have hend := extractEntries_frame W archive.trailer (Join W entry.header.Name) _ post _
        hlast hwritten
      unfold FS.ReadFile
      rw [hend]
    · rw [if_neg hpre] at hok
      exact absurd hok hpre
  refine ⟨hmain, hmax, ?_⟩
  intro hle
  rw [hmain, hmax, List.take_of_length_le hle]

/-- Witness of the amended C15: a directory `d`, the file `d/f.txt` written into it,
and a file `b` after it. -/
theorem fresh_file_holds_entry_content_witness :
    (extractArchive "/w/Session1"
        { entries := [dirEntry 0o755, fileEntry "d/f.txt" [1, 2], fileEntry "b" [3]],
          trailer := none } sampleFS).fs.ReadFile "/w/Session1/d/f.txt"
      = Except.ok [1, 2] :=
  (fresh_file_holds_entry_content "/w/Session1"
    { entries := [dirEntry 0o755, fileEntry "d/f.txt" [1, 2], fileEntry "b" [3]],
      trailer := none } sampleFS
    [dirEntry 0o755] (fileEntry "d/f.txt" [1, 2]) [fileEntry "b" [3]] rfl rfl (by decide)
    (by decide) (by decide)).2.2 (by decide)

end Coder
